import Mathlib

/-!
# gopacket: decode-dispatch containers, layer classes and the serialize buffer

A shallow embedding of `parser.go`, `layerclass.go`, `writer.go` and of the payload layers
of `base.go`.

Conventions of the embedding.

* A Go run-time fault (index out of range, negative `make` length, explicit
  `panic`) is the value `none` of an `Option` result; a function whose Go
  original cannot fault is a total Lean function.
* `LayerType` is Go's `int64` and lengths are Go's `int` (64 bits).  Values are
  kept as mathematical integers; a sum or difference that the Go code computes
  and that can leave the 64-bit range is wrapped around by `wrap64`.  `make`
  faults on a negative length and `append` on a length beyond `maxInt`.  An
  allocation of a length within the range of `int` is taken to succeed: running
  out of memory is not modelled.  A list stands for a slice, whose length is a
  value of `int`; arguments of type `int` are taken from its range.
* An interface value that may be `nil` is an `Option`.
* A Go `map` is a finite association list without duplicate keys (`AList`);
  the order of its keys stands for one iteration order of `range`.
* The body of the package-level `LayersDecoder` is not in the embedded files;
  its loop follows the description of the chain decode algorithm and is marked
  so at its definitions.  The loop need not end, so it takes a bound on the
  number of rounds.  The construction of a parser uses the function that
  `LayersDecoder` returns as a value only, and takes it as a parameter.
-/

namespace Gopacket

/-! ## Go primitives -/

/-- Largest value of Go's `int` and `int64` on a 64-bit platform: `math.MaxInt64`. -/
def maxInt : Int := 9223372036854775807

/-- Value of a sum or difference computed in Go's `int` or `int64`: the mathematical result
wrapped around into the range from `-2^63` to `2^63 - 1`. -/
def wrap64 (x : Int) : Int :=
  (x + 9223372036854775808) % 18446744073709551616 - 9223372036854775808

/-- Go index expression `s[i]` with a signed index: faults unless `0 ≤ i < len(s)`. -/
def goIndex {α : Type} (s : List α) (i : Int) : Option α :=
  if 0 ≤ i then s.get? i.toNat else none

/-- Go assignment `s[i] = v` with a signed index: faults unless `0 ≤ i < len(s)`. -/
def goAssign {α : Type} (s : List α) (i : Int) (v : α) : Option (List α) :=
  if 0 ≤ i ∧ i < (s.length : Int) then some (s.set i.toNat v) else none

/-- Go loop `for _, i := range idx { s[i] = v }`. -/
def goAssignAll {α : Type} (v : α) : List Int → List α → Option (List α)
  | [], s => some s
  | i :: rest, s =>
    match goAssign s i v with
    | none => none
    | some s1 => goAssignAll v rest s1

/-! ## Layer types and decoding layers (`parser.go`) -/

/-- Go `type LayerType int64`. -/
abbrev LayerType := Int

/-- A non-nil `DecodingLayer` interface value, as far as the containers observe it:
its identity and the list that `CanDecode().LayerTypes()` returns (the same list on every
call). -/
structure DecodingLayer where
  ident : Nat
  canDecode : List LayerType
  deriving DecidableEq, Repr

/-- Result of `Decoder`: the Go pair `(DecodingLayer, bool)`; `none` is the nil interface. -/
abbrev DecoderResult := Option DecodingLayer × Bool

/-! ### DecodingLayerSparse -/

/-- Go `type DecodingLayerSparse []DecodingLayer` (contents of the slice; nil slice = `[]`). -/
abbrev DecodingLayerSparse := List (Option DecodingLayer)

/-- Go loop `for _, typ := range types { if typ > max { max = typ } }` from a start value
(first loop of `DecodingLayerSparse.Put` and of `NewLayerClassSlice`). -/
def maxType (start : LayerType) (types : List LayerType) : LayerType :=
  types.foldl (fun maxLayerType typ => if typ > maxLayerType then typ else maxLayerType) start

/-- `DecodingLayerSparse.Put`, as seen through the returned slice: the maximum, the
`append` of `extra` nil cells, then `dl[typ] = d` for every type. `extra` is computed in
`int64` and wraps around; `append` faults when the new length is beyond `maxInt`. -/
def DecodingLayerSparse.Put (dl : DecodingLayerSparse) (d : DecodingLayer) :
    Option DecodingLayerSparse :=
  let maxLayerType := maxType ((dl.length : Int) - 1) d.canDecode
  let extra : Int := wrap64 (maxLayerType - (dl.length : Int) + 1)
  let grown : Option DecodingLayerSparse :=
    if extra > 0 then
      if (dl.length : Int) + extra ≤ maxInt then some (dl ++ List.replicate extra.toNat none)
      else none
    else some dl
  match grown with
  | none => none
  | some dl1 => goAssignAll (some d) d.canDecode dl1

/-- `DecodingLayerSparse.Decoder`. -/
def DecodingLayerSparse.Decoder (dl : DecodingLayerSparse) (typ : LayerType) :
    Option DecoderResult :=
  if typ < (dl.length : Int) then
    match goIndex dl typ with
    | none => none
    | some decoder => some (decoder, decoder != none)
  else some (none, false)

/-! ### DecodingLayerArray -/

/-- Go `decodingLayerElem`. -/
structure decodingLayerElem where
  typ : LayerType
  dec : Option DecodingLayer
  deriving DecidableEq, Repr

/-- Go `type DecodingLayerArray []decodingLayerElem` (contents of the slice). -/
abbrev DecodingLayerArray := List decodingLayerElem

/-- Body of the `TYPES` loop of `DecodingLayerArray.Put` for one type: overwrite the
first element with that type, or append a new element. -/
def DecodingLayerArray.putType (d : DecodingLayer) (typ : LayerType) :
    DecodingLayerArray → DecodingLayerArray
  | [] => [{ typ := typ, dec := some d }]
  | e :: rest =>
    if e.typ = typ then { e with dec := some d } :: rest
    else e :: DecodingLayerArray.putType d typ rest

/-- `DecodingLayerArray.Put`, as seen through the returned slice. -/
def DecodingLayerArray.Put (dl : DecodingLayerArray) (d : DecodingLayer) : DecodingLayerArray :=
  d.canDecode.foldl (fun acc typ => DecodingLayerArray.putType d typ acc) dl

/-- `DecodingLayerArray.Decoder`. -/
def DecodingLayerArray.Decoder : DecodingLayerArray → LayerType → DecoderResult
  | [], _ => (none, false)
  | e :: rest, typ => if e.typ = typ then (e.dec, true) else DecodingLayerArray.Decoder rest typ

/-! ### DecodingLayerMap -/

/-- A non-nil Go `map[LayerType]DecodingLayer`. -/
abbrev DecoderTable := AList (fun _ : LayerType => Option DecodingLayer)

/-- Go `type DecodingLayerMap map[LayerType]DecodingLayer`; `none` is the nil map. -/
abbrev DecodingLayerMap := Option DecoderTable

/-- Body of the loop of `DecodingLayerMap.Put`: allocate when nil, then `dl[typ] = d`. -/
def DecodingLayerMap.putType (d : DecodingLayer) (dl : DecodingLayerMap) (typ : LayerType) :
    DecodingLayerMap :=
  match dl with
  | none => some (AList.insert typ (some d) ∅)
  | some m => some (AList.insert typ (some d) m)

/-- `DecodingLayerMap.Put`, as seen through the returned map. -/
def DecodingLayerMap.Put (dl : DecodingLayerMap) (d : DecodingLayer) : DecodingLayerMap :=
  d.canDecode.foldl (DecodingLayerMap.putType d) dl

/-- `DecodingLayerMap.Decoder`: `d, ok := dl[typ]`. -/
def DecodingLayerMap.Decoder (dl : DecodingLayerMap) (typ : LayerType) : DecoderResult :=
  match dl with
  | none => (none, false)
  | some m =>
    match m.lookup typ with
    | none => (none, false)
    | some v => (v, true)

/-- The `DecodingLayerSparse` obtained from `dl` by `Put`-ting the decoders `ds` in order. -/
def DecodingLayerSparse.build : List DecodingLayer → DecodingLayerSparse → Option DecodingLayerSparse
  | [], dl => some dl
  | d :: ds, dl =>
    match DecodingLayerSparse.Put dl d with
    | none => none
    | some dl1 => DecodingLayerSparse.build ds dl1

/-- The `DecodingLayerArray` obtained from `dl` by `Put`-ting the decoders `ds` in order. -/
def DecodingLayerArray.build (ds : List DecodingLayer) (dl : DecodingLayerArray) :
    DecodingLayerArray :=
  ds.foldl DecodingLayerArray.Put dl

/-- The `DecodingLayerMap` obtained from `dl` by `Put`-ting the decoders `ds` in order. -/
def DecodingLayerMap.build (ds : List DecodingLayer) (dl : DecodingLayerMap) : DecodingLayerMap :=
  ds.foldl DecodingLayerMap.Put dl

/-- Content of cell `i` of a dense container, nil outside the slice. -/
def DecodingLayerSparse.cell (dl : DecodingLayerSparse) (i : Nat) : Option DecodingLayer :=
  (dl[i]?).getD none

/-- The three strategies hold the same associations for non-negative types. -/
def SameLookups (sp : DecodingLayerSparse) (ar : DecodingLayerArray) (mp : DecodingLayerMap) :
    Prop :=
  ∀ t : LayerType, 0 ≤ t →
    DecodingLayerSparse.Decoder sp t = some (DecodingLayerArray.Decoder ar t) ∧
    DecodingLayerMap.Decoder mp t = DecodingLayerArray.Decoder ar t


/-! ## Layer classes (`layerclass.go`) -/

/-- Go `type LayerClassSlice []bool` (contents of the slice). -/
abbrev LayerClassSlice := List Bool

/-- `LayerClassSlice.Contains`: `int(t) < len(s) && s[t]`. -/
def LayerClassSlice.Contains (s : LayerClassSlice) (t : LayerType) : Option Bool :=
  if t < (s.length : Int) then goIndex s t else some false

/-- `LayerClassSlice.LayerTypes`: the indices `i` from `0` to `len(s) - 1` with `s[i]` set,
in increasing order. -/
def LayerClassSlice.LayerTypes (s : LayerClassSlice) : List LayerType :=
  ((List.range s.length).filter (fun i => s.getD i false)).map (fun (i : Nat) => Int.ofNat i)

/-- `NewLayerClassSlice`: a slice of `max + 1` flags, `max` the largest type or `0`, with
`t[typ] = true` for every type. `max + 1` is computed in `int64` and wraps around;
`make([]bool, int(max+1))` faults on a negative length. -/
def NewLayerClassSlice (types : List LayerType) : Option LayerClassSlice :=
  let max := maxType 0 types
  let size := wrap64 (max + 1)
  if size < 0 then none
  else goAssignAll true types (List.replicate size.toNat false)

/-- Go `type LayerClassMap map[LayerType]bool`; a nil map reads like the empty one. -/
abbrev LayerClassMap := AList (fun _ : LayerType => Bool)

/-- `LayerClassMap.Contains`: `m[t]`, false for an absent key. -/
def LayerClassMap.Contains (m : LayerClassMap) (t : LayerType) : Bool :=
  (m.lookup t).getD false

/-- `LayerClassMap.LayerTypes`: every key of the map. -/
def LayerClassMap.LayerTypes (m : LayerClassMap) : List LayerType :=
  m.keys

/-- `NewLayerClassMap`: `m[typ] = true` for every type. -/
def NewLayerClassMap (types : List LayerType) : LayerClassMap :=
  types.foldl (fun m typ => AList.insert typ true m) ∅

/-- The implementations of the `LayerClass` interface in `layerclass.go`. -/
inductive LayerClass where
  | layerType (l : LayerType)
  | slice (s : LayerClassSlice)
  | map (m : LayerClassMap)
  deriving DecidableEq

/-- `Contains` through the `LayerClass` interface; `LayerType.Contains` is `l == a`. -/
def LayerClass.Contains : LayerClass → LayerType → Option Bool
  | .layerType l, a => some (decide (l = a))
  | .slice s, t => LayerClassSlice.Contains s t
  | .map m, t => some (LayerClassMap.Contains m t)

/-- `LayerTypes` through the `LayerClass` interface; `LayerType.LayerTypes` is `[l]`. -/
def LayerClass.LayerTypes : LayerClass → List LayerType
  | .layerType l => [l]
  | .slice s => LayerClassSlice.LayerTypes s
  | .map m => LayerClassMap.LayerTypes m

/-- Loop of `NewLayerClass` over the remaining types `rest` of the argument `types`: the
first type above `maxLayerType` returns the map form, the end of the loop the slice form. -/
def NewLayerClass.scan (maxLayerType : LayerType) (types : List LayerType) :
    List LayerType → Option LayerClass
  | [] => (NewLayerClassSlice types).map LayerClass.slice
  | typ :: rest =>
    if typ > maxLayerType then some (LayerClass.map (NewLayerClassMap types))
    else NewLayerClass.scan maxLayerType types rest

/-- `NewLayerClass`; the constant `maxLayerType` is declared outside the modelled files and
is a parameter here. -/
def NewLayerClass (maxLayerType : LayerType) (types : List LayerType) : Option LayerClass :=
  NewLayerClass.scan maxLayerType types types

/-! ## The serialize buffer (`writer.go`) -/

/-- Go `byte`. -/
abbrev Byte := UInt8

/-- Go `copy(dst[off:], src)` for `off ≤ len(dst)`: overwrites `min(len(dst) - off, len(src))`
cells of `dst` from position `off`. -/
def goCopy (dst : List Byte) (off : Nat) (src : List Byte) : List Byte :=
  let n := min (dst.length - off) src.length
  dst.take off ++ src.take n ++ dst.drop (off + n)

/-- Go `struct serializeBuffer`. The slice `w.data` is kept as the cells of its backing array
from the slice's base (`data`, so `cap(w.data) = data.length`) and its length (`dataLen`). -/
structure serializeBuffer where
  data : List Byte
  dataLen : Nat
  start : Int
  prepended : Int
  appended : Int
  layers : List LayerType
  deriving DecidableEq, Repr

/-- A byte slice handed to the caller: it shares the buffer's backing array, starting `off`
cells after the base of `w.data`, with `size` cells. -/
structure Window where
  off : Nat
  size : Nat
  deriving DecidableEq, Repr

/-- Current content of a returned slice. -/
def Window.bytes (r : Window) (w : serializeBuffer) : List Byte :=
  (w.data.drop r.off).take r.size

/-- `NewSerializeBuffer`: the zero value. -/
def NewSerializeBuffer : serializeBuffer :=
  { data := [], dataLen := 0, start := 0, prepended := 0, appended := 0, layers := [] }

/-- `NewSerializeBufferExpectedSize`; `make([]byte, p, p + a)` faults unless `0 ≤ p ≤ p + a`,
with the sum `p + a` as Go computes it. -/
def NewSerializeBufferExpectedSize (expectedPrependLength expectedAppendLength : Int) :
    Option serializeBuffer :=
  let capacity := wrap64 (expectedPrependLength + expectedAppendLength)
  if 0 ≤ expectedPrependLength ∧ expectedPrependLength ≤ capacity then
    some { data := List.replicate capacity.toNat 0
           dataLen := expectedPrependLength.toNat
           start := expectedPrependLength
           prepended := expectedPrependLength
           appended := expectedAppendLength
           layers := [] }
  else none

/-- `serializeBuffer.Bytes`: `w.data[w.start:]`, which faults unless `0 ≤ start ≤ len(w.data)`. -/
def serializeBuffer.Bytes (w : serializeBuffer) : Option (List Byte) :=
  if 0 ≤ w.start ∧ w.start ≤ (w.dataLen : Int) then
    some ((w.data.take w.dataLen).drop w.start.toNat)
  else none

/-- Reallocating branch of `serializeBuffer.PrependBytes` (the body of `if w.start < num`).
The sums are those of Go's `int` and wrap around. -/
def serializeBuffer.growFront (w : serializeBuffer) (num : Int) : Option serializeBuffer :=
  let toPrepend := if w.prepended < num then num else w.prepended
  let length : Int := wrap64 ((w.data.length : Int) + toPrepend)
  let newStart := wrap64 (w.start + toPrepend)
  let newLen := wrap64 (toPrepend + (w.dataLen : Int))
  -- newData := make([]byte, length)
  if length < 0 then none
  -- newData[newStart:] and w.data[w.start:]
  else if newStart < 0 ∨ length < newStart ∨ w.start < 0 ∨ (w.dataLen : Int) < w.start then none
  -- newData[:toPrepend+len(w.data)]
  else if newLen < 0 ∨ length < newLen then none
  else some { w with
    prepended := wrap64 (w.prepended + toPrepend)
    data := goCopy (List.replicate length.toNat 0) newStart.toNat
      ((w.data.take w.dataLen).drop w.start.toNat)
    dataLen := newLen.toNat
    start := newStart }

/-- `serializeBuffer.PrependBytes`. A returned pair stands for the Go result with a nil
error; the window is `w.data[w.start : w.start+num]` after the update of `start`. -/
def serializeBuffer.PrependBytes (w : serializeBuffer) (num : Int) :
    Option (serializeBuffer × Window) :=
  if num < 0 then none
  else
    match (if w.start < num then serializeBuffer.growFront w num else some w) with
    | none => none
    | some w1 =>
      let start := wrap64 (w1.start - num)
      let high := wrap64 (start + num)
      if 0 ≤ start ∧ start ≤ high ∧ high ≤ (w1.data.length : Int) then
        some ({ w1 with start := start }, { off := start.toNat, size := num.toNat })
      else none

/-- Reallocating branch of `serializeBuffer.AppendBytes` (the body of
`if cap(w.data)-initialLength < num`). The sums are those of Go's `int` and wrap around. -/
def serializeBuffer.growBack (w : serializeBuffer) (num : Int) : Option serializeBuffer :=
  let toAppend := if w.appended < num then num else w.appended
  let length : Int := wrap64 ((w.data.length : Int) + toAppend)
  -- newData := make([]byte, cap(w.data)+toAppend)
  if length < 0 then none
  -- newData[w.start:] and w.data[w.start:]
  else if w.start < 0 ∨ length < w.start ∨ (w.dataLen : Int) < w.start then none
  -- newData[:initialLength]
  else if length < (w.dataLen : Int) then none
  else some { w with
    appended := wrap64 (w.appended + toAppend)
    data := goCopy (List.replicate length.toNat 0) w.start.toNat
      ((w.data.take w.dataLen).drop w.start.toNat) }

/-- `serializeBuffer.AppendBytes`. A returned pair stands for the Go result with a nil error;
the window is `w.data[initialLength:]` after the slice has grown. -/
def serializeBuffer.AppendBytes (w : serializeBuffer) (num : Int) :
    Option (serializeBuffer × Window) :=
  if num < 0 then none
  else
    let initialLength := w.dataLen
    match (if (w.data.length : Int) - (initialLength : Int) < num
        then serializeBuffer.growBack w num else some w) with
    | none => none
    | some w1 =>
      -- w.data = w.data[:initialLength+num], then w.data[initialLength:]
      let newLen := wrap64 ((initialLength : Int) + num)
      if 0 ≤ newLen ∧ newLen ≤ (w1.data.length : Int) ∧ (initialLength : Int) ≤ newLen then
        some ({ w1 with dataLen := newLen.toNat },
              { off := initialLength, size := num.toNat })
      else none

/-- `serializeBuffer.Clear`; `w.data[:w.start]` faults unless `0 ≤ start ≤ cap(w.data)`. -/
def serializeBuffer.Clear (w : serializeBuffer) : Option serializeBuffer :=
  if 0 ≤ w.prepended ∧ w.prepended ≤ (w.data.length : Int) then
    some { w with start := w.prepended, dataLen := w.prepended.toNat, layers := [] }
  else none

/-- `serializeBuffer.Layers`. -/
def serializeBuffer.Layers (w : serializeBuffer) : List LayerType :=
  w.layers

/-- `serializeBuffer.PushLayer`. -/
def serializeBuffer.PushLayer (w : serializeBuffer) (l : LayerType) : serializeBuffer :=
  { w with layers := w.layers ++ [l] }

/-- States of a `serializeBuffer` that callers can produce: a constructor, then any sequence of
`PrependBytes`, `AppendBytes` (with `num ≥ 0`), `Clear` and `PushLayer`, and writes of bytes
through slices that share the backing array. The calls are calls that have returned, and
their arguments are values of Go's `int`: not beyond `maxInt`, and a returned call shows that
`p` and `num` are not negative. -/
inductive serializeBuffer.Reachable : serializeBuffer → Prop where
  | new : serializeBuffer.Reachable NewSerializeBuffer
  | sized (p a : Int) (w : serializeBuffer) :
      -maxInt - 1 ≤ a → a ≤ maxInt → NewSerializeBufferExpectedSize p a = some w →
      serializeBuffer.Reachable w
  | prepend (w w1 : serializeBuffer) (num : Int) (r : Window) :
      serializeBuffer.Reachable w → num ≤ maxInt →
      serializeBuffer.PrependBytes w num = some (w1, r) → serializeBuffer.Reachable w1
  | append (w w1 : serializeBuffer) (num : Int) (r : Window) :
      serializeBuffer.Reachable w → num ≤ maxInt →
      serializeBuffer.AppendBytes w num = some (w1, r) → serializeBuffer.Reachable w1
  | clear (w w1 : serializeBuffer) :
      serializeBuffer.Reachable w → serializeBuffer.Clear w = some w1 →
      serializeBuffer.Reachable w1
  | push (w : serializeBuffer) (l : LayerType) :
      serializeBuffer.Reachable w → serializeBuffer.Reachable (serializeBuffer.PushLayer w l)
  | write (w : serializeBuffer) (cells : List Byte) :
      serializeBuffer.Reachable w → cells.length = w.data.length →
      serializeBuffer.Reachable { w with data := cells }

/-- Window invariant of a `serializeBuffer`:
`0 ≤ start ≤ prepended ≤ len(data) ≤ cap(data)`, with the capacity and the mark `appended`
values of Go's `int`. -/
def serializeBuffer.Inv (w : serializeBuffer) : Prop :=
  0 ≤ w.start ∧ w.start ≤ w.prepended ∧ w.prepended ≤ (w.dataLen : Int) ∧
    w.dataLen ≤ w.data.length ∧ (w.data.length : Int) ≤ maxInt ∧ w.appended ≤ maxInt

/-! ## Containers with their backing storage

`Put` has a value receiver, but a slice or map value refers to storage that the caller's
copy of the container refers to as well.  The definitions below run `Put` on a container
together with its storage and keep track of what the caller's copy sees afterwards. -/

/-- A Go slice value with its backing array: `cells` are the cells of the array from the
slice's base, so `cap = cells.length`, and `len` is the slice's length (`len ≤ cap`). -/
structure Backed (α : Type) where
  cells : List α
  len : Nat
  deriving DecidableEq, Repr

/-- Content of a slice. -/
def Backed.view {α : Type} (s : Backed α) : List α :=
  s.cells.take s.len

/-- The local slice variable `dl` of a running `Put`, and the backing array of the
receiver: `same` while `dl` still uses the receiver's array (its cells and `dl`'s length),
`moved` once an `append` has given `dl` a new array (the receiver's array, then `dl`'s). -/
inductive Aliased (α : Type) where
  | same (cells : List α) (len : Nat)
  | moved (recv : List α) (cells : List α) (len : Nat)
  deriving DecidableEq, Repr

/-- Backing array of the receiver. -/
def Aliased.recv {α : Type} : Aliased α → List α
  | .same cells _ => cells
  | .moved recv _ _ => recv

/-- Backing array of the local slice. -/
def Aliased.cells {α : Type} : Aliased α → List α
  | .same cells _ => cells
  | .moved _ cells _ => cells

/-- Length of the local slice. -/
def Aliased.len {α : Type} : Aliased α → Nat
  | .same _ len => len
  | .moved _ _ len => len

/-- Content of the local slice. -/
def Aliased.view {α : Type} (st : Aliased α) : List α :=
  st.cells.take st.len

/-- The local slice takes the content `v`, reached from its current content by index
assignments (same length) or by `append` (longer). Within the capacity the cells are written
in place, in the array the local slice uses; beyond it `append` allocates a new array, with
`slack` spare cells holding `zero`, and the receiver's array is left as it is. -/
def Aliased.update {α : Type} (slack : Nat) (zero : α) (st : Aliased α) (v : List α) :
    Aliased α :=
  if v.length ≤ st.cells.length then
    match st with
    | .same cells _ => .same (v ++ cells.drop v.length) v.length
    | .moved recv cells _ => .moved recv (v ++ cells.drop v.length) v.length
  else .moved st.recv (v ++ List.replicate slack zero) v.length

/-- `DecodingLayerSparse.Put` on a container with its backing array; `slack` is the spare
capacity `append` adds when it reallocates. `extra` wraps around and `append` faults beyond
`maxInt`, as in `DecodingLayerSparse.Put`. -/
def DecodingLayerSparse.PutShared (slack : Nat) (c : Backed (Option DecodingLayer))
    (d : DecodingLayer) : Option (Aliased (Option DecodingLayer)) :=
  let maxLayerType := maxType ((c.len : Int) - 1) d.canDecode
  let extra : Int := wrap64 (maxLayerType - (c.len : Int) + 1)
  let st0 : Aliased (Option DecodingLayer) := .same c.cells c.len
  let grown : Option (Aliased (Option DecodingLayer)) :=
    if extra > 0 then
      if (c.len : Int) + extra ≤ maxInt
      then some (st0.update slack none (st0.view ++ List.replicate extra.toNat none))
      else none
    else some st0
  match grown with
  | none => none
  | some st1 =>
    match goAssignAll (some d) d.canDecode st1.view with
    | none => none
    | some v => some (st1.update slack none v)

/-- `DecodingLayerArray.Put` on a container with its backing array; `slack` is the spare
capacity `append` adds when it reallocates. -/
def DecodingLayerArray.PutShared (slack : Nat) (c : Backed decodingLayerElem)
    (d : DecodingLayer) : Aliased decodingLayerElem :=
  d.canDecode.foldl
    (fun st typ => st.update slack { typ := 0, dec := none }
      (DecodingLayerArray.putType d typ st.view))
    (.same c.cells c.len)

/-- The local map variable `dl` of a running `DecodingLayerMap.Put` (`cur`), the map the
receiver refers to (`recv`), and whether both are the same map object. -/
structure MapAliased where
  recv : DecodingLayerMap
  cur : DecodingLayerMap
  shared : Bool
  deriving DecidableEq

/-- Body of the loop of `DecodingLayerMap.Put` on a map object: a nil `dl` is replaced by a
new map, which the receiver does not refer to; `dl[typ] = d` writes into the map object. -/
def DecodingLayerMap.putTypeShared (d : DecodingLayer) (st : MapAliased) (typ : LayerType) :
    MapAliased :=
  match st.cur with
  | none => { recv := st.recv, cur := some (AList.insert typ (some d) ∅), shared := false }
  | some m =>
    { recv := if st.shared then some (AList.insert typ (some d) m) else st.recv
      cur := some (AList.insert typ (some d) m)
      shared := st.shared }

/-- `DecodingLayerMap.Put` on a map object. -/
def DecodingLayerMap.PutShared (dl : DecodingLayerMap) (d : DecodingLayer) : MapAliased :=
  d.canDecode.foldl (DecodingLayerMap.putTypeShared d) { recv := dl, cur := dl, shared := true }

/-- Relation between a cell of a `DecodingLayerArray` before and after a `Put` that does not
claim type `t`: the type is kept, and a cell of type `t` is kept whole. -/
def KeepsType (t : LayerType) (e e1 : decodingLayerElem) : Prop :=
  e1.typ = e.typ ∧ (e.typ = t → e1 = e)

/-! ### Write sequences on the serialize buffer -/

/-- One call of a write sequence: `PrependBytes(num)` or `AppendBytes(num)`. -/
inductive BufferWrite where
  | prepend (num : Int)
  | append (num : Int)
  deriving DecidableEq, Repr

/-- Size argument of a call. -/
def BufferWrite.num : BufferWrite → Int
  | .prepend num => num
  | .append num => num

/-- Sum of the sizes of the `PrependBytes` calls of a sequence. -/
def BufferWrite.prependTotal : List BufferWrite → Int
  | [] => 0
  | .prepend num :: rest => num + BufferWrite.prependTotal rest
  | .append _ :: rest => BufferWrite.prependTotal rest

/-- Sum of the sizes of the `AppendBytes` calls of a sequence. -/
def BufferWrite.appendTotal : List BufferWrite → Int
  | [] => 0
  | .prepend _ :: rest => BufferWrite.appendTotal rest
  | .append num :: rest => num + BufferWrite.appendTotal rest

/-- The calls of a sequence made one after the other on a buffer. -/
def serializeBuffer.runWrites : List BufferWrite → serializeBuffer → Option serializeBuffer
  | [], w => some w
  | .prepend num :: rest, w =>
    match serializeBuffer.PrependBytes w num with
    | none => none
    | some (w1, _) => serializeBuffer.runWrites rest w1
  | .append num :: rest, w =>
    match serializeBuffer.AppendBytes w num with
    | none => none
    | some (w1, _) => serializeBuffer.runWrites rest w1

/-- No call of the sequence takes its reallocating branch: `start ≥ n` holds at every
`PrependBytes(n)` and `cap(data) - len(data) ≥ n` at every `AppendBytes(n)`. -/
def serializeBuffer.staysInPlace : List BufferWrite → serializeBuffer → Bool
  | [], _ => true
  | .prepend num :: rest, w =>
    decide (num ≤ w.start) &&
      match serializeBuffer.PrependBytes w num with
      | none => false
      | some (w1, _) => serializeBuffer.staysInPlace rest w1
  | .append num :: rest, w =>
    decide (num ≤ (w.data.length : Int) - (w.dataLen : Int)) &&
      match serializeBuffer.AppendBytes w num with
      | none => false
      | some (w1, _) => serializeBuffer.staysInPlace rest w1

/-! ### Calls on the buffer with the state a fault leaves behind -/

/-- How a call on a `serializeBuffer` ends: it returns a value (with a nil error) and leaves
the receiver in a state, or it faults and leaves the receiver in a state. -/
inductive Ended (α : Type) where
  | returned (w : serializeBuffer) (r : α)
  | faulted (w : serializeBuffer)
  deriving DecidableEq, Repr

/-- What the caller gets back: the new state and the value, or nothing after a fault. -/
def Ended.toOption {α : Type} : Ended α → Option (serializeBuffer × α)
  | .returned w r => some (w, r)
  | .faulted _ => none

/-- `serializeBuffer.PrependBytes`, statement by statement, with the state of the receiver at
a fault: `panic("num < 0")` comes before every assignment; `w.prepended += toPrepend` is
done before `make` and the slice expressions of `copy`, `w.start = newStart` before
`newData[:toPrepend+len(w.data)]`, and `w.start -= num` before the returned slice
expression. The sums wrap around as in `serializeBuffer.PrependBytes`. -/
def serializeBuffer.PrependBytesEnded (w : serializeBuffer) (num : Int) : Ended Window :=
  if num < 0 then .faulted w
  else
    let grown : Ended Unit :=
      if w.start < num then
        let toPrepend := if w.prepended < num then num else w.prepended
        let w1 := { w with prepended := wrap64 (w.prepended + toPrepend) }
        let length : Int := wrap64 ((w.data.length : Int) + toPrepend)
        let newStart := wrap64 (w.start + toPrepend)
        let newLen := wrap64 (toPrepend + (w.dataLen : Int))
        if length < 0 then .faulted w1
        else if newStart < 0 ∨ length < newStart ∨ w.start < 0 ∨ (w.dataLen : Int) < w.start
        then .faulted w1
        else if newLen < 0 ∨ length < newLen
        then .faulted { w1 with start := newStart }
        else .returned { w1 with
          data := goCopy (List.replicate length.toNat 0) newStart.toNat
            ((w.data.take w.dataLen).drop w.start.toNat)
          dataLen := newLen.toNat
          start := newStart } ()
      else .returned w ()
    match grown with
    | .faulted w1 => .faulted w1
    | .returned w1 _ =>
      let start := wrap64 (w1.start - num)
      let high := wrap64 (start + num)
      if 0 ≤ start ∧ start ≤ high ∧ high ≤ (w1.data.length : Int) then
        .returned { w1 with start := start } { off := start.toNat, size := num.toNat }
      else .faulted { w1 with start := start }

/-- `serializeBuffer.AppendBytes`, statement by statement, with the state of the receiver at
a fault: `panic("num < 0")` comes before every assignment; `w.appended += toAppend` is done
before `make` and the slice expressions that follow. The sums wrap around as in
`serializeBuffer.AppendBytes`. -/
def serializeBuffer.AppendBytesEnded (w : serializeBuffer) (num : Int) : Ended Window :=
  if num < 0 then .faulted w
  else
    let initialLength := w.dataLen
    let grown : Ended Unit :=
      if (w.data.length : Int) - (initialLength : Int) < num then
        let toAppend := if w.appended < num then num else w.appended
        let w1 := { w with appended := wrap64 (w.appended + toAppend) }
        let length : Int := wrap64 ((w.data.length : Int) + toAppend)
        if length < 0 then .faulted w1
        else if w.start < 0 ∨ length < w.start ∨ (w.dataLen : Int) < w.start then .faulted w1
        else if length < (w.dataLen : Int) then .faulted w1
        else .returned { w1 with
          data := goCopy (List.replicate length.toNat 0) w.start.toNat
            ((w.data.take w.dataLen).drop w.start.toNat) } ()
      else .returned w ()
    match grown with
    | .faulted w1 => .faulted w1
    | .returned w1 _ =>
      let newLen := wrap64 ((initialLength : Int) + num)
      if 0 ≤ newLen ∧ newLen ≤ (w1.data.length : Int) ∧ (initialLength : Int) ≤ newLen then
        .returned { w1 with dataLen := newLen.toNat }
          { off := initialLength, size := num.toNat }
      else .faulted w1

/-! ### Errors, serializable layers, `SerializeLayers` (`writer.go`, `base.go`) -/

/-- Go `error` values met in the modelled files; the nil error is `none : Option GoError`.
`unsupportedLayerType typ` is `UnsupportedLayerType(typ)`, `fromPanic r` is
`fmt.Errorf("panic: %v", r)` as made by `panicToError` from the recovered value `r`, and
`other msg` is any other error value, by its message. -/
inductive GoError where
  | unsupportedLayerType (typ : LayerType)
  | fromPanic (r : String)
  | other (msg : String)
  deriving DecidableEq, Repr

/-- Go `struct SerializeOptions`. -/
structure SerializeOptions where
  FixLengths : Bool
  ComputeChecksums : Bool
  deriving DecidableEq, Repr

/-- Go `copy(bytes, src)` into a slice `bytes` handed out by the buffer: overwrites
`min(len(bytes), len(src))` cells of the backing array from the slice's offset. -/
def Window.copyFrom (r : Window) (w : serializeBuffer) (src : List Byte) : serializeBuffer :=
  { w with data := w.data.take r.off ++ goCopy (r.bytes w) 0 src ++ w.data.drop (r.off + r.size) }

/-- A value of the interface `SerializableLayer`: what its `SerializeTo` does to the buffer
it is given and which error it returns (`none` of the outer `Option`: it faults), and its
`LayerType()`. The layer reaches the buffer through the `SerializeBuffer` interface. -/
structure SerializableLayer where
  SerializeTo : serializeBuffer → SerializeOptions → Option (serializeBuffer × Option GoError)
  LayerType : LayerType

/-- A layer leaves the recorded layer list alone: its `SerializeTo` calls neither `Clear`
nor `PushLayer`. -/
def SerializableLayer.KeepsLayers (layer : SerializableLayer) : Prop :=
  ∀ w opts w1 err, layer.SerializeTo w opts = some (w1, err) → w1.layers = w.layers

/-- Go `type Payload []byte`. -/
abbrev Payload := List Byte

/-- `Payload.SerializeTo`: `PrependBytes(len(p))`, whose error is always nil, then
`copy(bytes, p)`. -/
def Payload.SerializeTo (p : Payload) (b : serializeBuffer) (_opts : SerializeOptions) :
    Option (serializeBuffer × Option GoError) :=
  match serializeBuffer.PrependBytes b (p.length : Int) with
  | none => none
  | some (b1, bytes) => some (bytes.copyFrom b1 p, none)

/-- `Payload.DecodeFromBytes`: `*p = Payload(data); return nil`. -/
def Payload.DecodeFromBytes (data : List Byte) : Payload × Option GoError :=
  (data, none)

/-- `Payload.NextLayerType`: the constant `LayerTypeZero`, declared outside the modelled
files and a parameter here. -/
def Payload.NextLayerType (LayerTypeZero : LayerType) (_p : Payload) : LayerType :=
  LayerTypeZero

/-- `Payload.LayerPayload`: nil. -/
def Payload.LayerPayload (_p : Payload) : List Byte :=
  []

/-- A `Payload` as a `SerializableLayer`; its `LayerType()` is the constant
`LayerTypePayload`, declared outside the modelled files and a parameter here. -/
def Payload.layer (LayerTypePayload : LayerType) (p : Payload) : SerializableLayer :=
  { SerializeTo := Payload.SerializeTo p, LayerType := LayerTypePayload }

/-- Go `type Fragment []byte`. -/
abbrev Fragment := List Byte

/-- `Fragment.SerializeTo`: `PrependBytes(len(*p))`, whose error is always nil, then
`copy(bytes, *p)`. -/
def Fragment.SerializeTo (p : Fragment) (b : serializeBuffer) (_opts : SerializeOptions) :
    Option (serializeBuffer × Option GoError) :=
  match serializeBuffer.PrependBytes b (p.length : Int) with
  | none => none
  | some (b1, bytes) => some (bytes.copyFrom b1 p, none)

/-- `Fragment.DecodeFromBytes`: `*p = Fragment(data); return nil`. -/
def Fragment.DecodeFromBytes (data : List Byte) : Fragment × Option GoError :=
  (data, none)

/-- `Fragment.NextLayerType`: the constant `LayerTypeZero`. -/
def Fragment.NextLayerType (LayerTypeZero : LayerType) (_p : Fragment) : LayerType :=
  LayerTypeZero

/-- `Fragment.LayerPayload`: nil. -/
def Fragment.LayerPayload (_p : Fragment) : List Byte :=
  []

/-- A `Fragment` as a `SerializableLayer`; its `LayerType()` is the constant
`LayerTypeFragment`, declared outside the modelled files and a parameter here. -/
def Fragment.layer (LayerTypeFragment : LayerType) (p : Fragment) : SerializableLayer :=
  { SerializeTo := Fragment.SerializeTo p, LayerType := LayerTypeFragment }

/-- What `SerializeLayers` does with the layer of index `i`, in the order in which it does
it: the call of its `SerializeTo`, the `PushLayer` of its type. -/
inductive SerializeEvent where
  | serializeTo (i : Nat)
  | pushLayer (i : Nat)
  deriving DecidableEq, Repr

/-- Index of the layer an event is about. -/
def SerializeEvent.index : SerializeEvent → Nat
  | .serializeTo i => i
  | .pushLayer i => i

/-- Loop of `SerializeLayers` over the layers still to do, each with its index, in
processing order; `log` records the calls made so far. -/
def SerializeLayers.loop (opts : SerializeOptions) :
    List (Nat × SerializableLayer) → serializeBuffer → List SerializeEvent →
      Option (serializeBuffer × Option GoError × List SerializeEvent)
  | [], w, log => some (w, none, log)
  | (i, layer) :: rest, w, log =>
    match layer.SerializeTo w opts with
    | none => none
    | some (w1, some err) => some (w1, some err, log ++ [.serializeTo i])
    | some (w1, none) =>
      SerializeLayers.loop opts rest (serializeBuffer.PushLayer w1 layer.LayerType)
        (log ++ [.serializeTo i, .pushLayer i])

/-- `SerializeLayers`: `w.Clear()`, then `for i := len(layers) - 1; i >= 0; i--`. The result
is the buffer afterwards, the returned error and the record of the calls made; `none` is a
fault. -/
def SerializeLayers (w : serializeBuffer) (opts : SerializeOptions)
    (layers : List SerializableLayer) :
    Option (serializeBuffer × Option GoError × List SerializeEvent) :=
  match serializeBuffer.Clear w with
  | none => none
  | some w0 => SerializeLayers.loop opts layers.enum.reverse w0 []

/-- Every `SerializeTo` of the loop returns a nil error on the buffer it is given. -/
def SerializeLayers.allSucceed (opts : SerializeOptions) :
    List (Nat × SerializableLayer) → serializeBuffer → Bool
  | [], _ => true
  | (_, layer) :: rest, w =>
    match layer.SerializeTo w opts with
    | some (w1, none) =>
      SerializeLayers.allSucceed opts rest (serializeBuffer.PushLayer w1 layer.LayerType)
    | _ => false

/-! ### `DecodingLayerParser.DecodeLayers` (`parser.go`) -/

/-- The implementations of the interface `DecodingLayerContainer` in `parser.go`. -/
inductive DecodingLayerContainer where
  | sparse (dl : DecodingLayerSparse)
  | array (dl : DecodingLayerArray)
  | map (dl : DecodingLayerMap)

/-- How a call of a `DecodingLayerFunc` ends: it returns `(LayerType, error)` or it faults
with a panic value. -/
inductive DecodeFuncEnd where
  | returned (typ : LayerType) (err : Option GoError)
  | panicked (r : String)
  deriving DecidableEq, Repr

/-- One call `decodeFunc(data, decoded)`: the content of `*decoded` afterwards, whether
`SetTruncated` was called on the parser, and how the call ended. -/
structure DecodeFuncRun where
  decoded : List LayerType
  truncated : Bool
  ending : DecodeFuncEnd
  deriving DecidableEq, Repr

/-- Go `struct DecodingLayerParser`, with the embedded `DecodingLayerParserOptions`; the
field `df` is the parser itself and is left out. -/
structure DecodingLayerParser where
  IgnorePanic : Bool
  IgnoreUnsupported : Bool
  dlc : DecodingLayerContainer
  first : LayerType
  decodeFunc : List Byte → List LayerType → DecodeFuncRun
  Truncated : Bool

/-- How `DecodeLayers` ends: it returns an error value, or the fault goes on to the caller. -/
inductive DecodeLayersEnd where
  | returned (err : Option GoError)
  | panicked (r : String)
  deriving DecidableEq, Repr

/-- `DecodingLayerParser.DecodeLayers`: the parser afterwards, the content of `*decoded`, and
how the call ended. `panicToError` is deferred unless `IgnorePanic` is set, and then turns a
fault of `decodeFunc` into the returned error. The constant `LayerTypeZero` is declared
outside the modelled files and is a parameter here. -/
def DecodingLayerParser.DecodeLayers (LayerTypeZero : LayerType) (l : DecodingLayerParser)
    (data : List Byte) (decoded : List LayerType) :
    DecodingLayerParser × List LayerType × DecodeLayersEnd :=
  let run := l.decodeFunc data decoded
  let l1 := { l with Truncated := run.truncated }
  match run.ending with
  | .panicked r =>
    if l.IgnorePanic then (l1, run.decoded, .panicked r)
    else (l1, run.decoded, .returned (some (.fromPanic r)))
  | .returned typ err =>
    if typ ≠ LayerTypeZero then
      if l.IgnoreUnsupported then (l1, run.decoded, .returned none)
      else (l1, run.decoded, .returned (some (.unsupportedLayerType typ)))
    else (l1, run.decoded, .returned err)

/-! ### Error messages, `SetTruncated` and the chain decode loop (`parser.go`) -/

/-- The method `Error()` of an error value: `UnsupportedLayerType.Error` formats
`"No decoder for layer type %v"`, `panicToError` builds its error with
`fmt.Errorf("panic: %v", r)`, any other error is its message. `%v` prints a `LayerType` through
its method `String()`, which is declared outside the modelled files and is the parameter
`layerTypeString`; a recovered value `r` is kept as `%v` prints it. -/
def GoError.Error (layerTypeString : LayerType → String) : GoError → String
  | .unsupportedLayerType typ => "No decoder for layer type " ++ layerTypeString typ
  | .fromPanic r => "panic: " ++ r
  | .other msg => msg

/-- `DecodingLayerParser.SetTruncated`. -/
def DecodingLayerParser.SetTruncated (l : DecodingLayerParser) : DecodingLayerParser :=
  { l with Truncated := true }

/-- How a call `decoder.DecodeFromBytes(data, df)` of a `DecodingLayer` ends: it returns nil,
and then `next` and `payload` are what the decoder's `NextLayerType()` and `LayerPayload()`
return; it returns an error; or it faults. -/
inductive DecodeFromBytesEnd where
  | decoded (next : LayerType) (payload : List Byte)
  | failed (err : GoError)
  | panicked (r : String)
  deriving DecidableEq, Repr

/-- One call `decoder.DecodeFromBytes(data, df)`: whether it called `df.SetTruncated()`, and
how it ended. -/
structure DecodeFromBytesRun where
  truncated : Bool
  ending : DecodeFromBytesEnd
  deriving DecidableEq, Repr

/-- The method `Decoder` of the interface `DecodingLayerContainer`, by the dynamic type of the
container; `none` is a fault of the lookup. -/
def DecodingLayerContainer.Decoder : DecodingLayerContainer → LayerType → Option DecoderResult
  | .sparse dl, typ => DecodingLayerSparse.Decoder dl typ
  | .array dl, typ => some (DecodingLayerArray.Decoder dl typ)
  | .map dl, typ => some (DecodingLayerMap.Decoder dl typ)

/-- Modelled from the spec: the chain decode loop of the package-level function
`LayersDecoder`, whose body is not in the modelled files. Each round looks up the decoder of
the current type (absent: the current type is returned as the first unsupported type), calls
its `DecodeFromBytes` on the current bytes (an error is returned with `LayerTypeZero`, a fault
goes on), appends the current type to the decoded sequence, stops with `(LayerTypeZero, nil)`
when the decoder's next type is `LayerTypeZero`, and otherwise goes on with the decoder's
payload and next type. `behave d data` is what `DecodeFromBytes` of decoder `d` does on
`data`; `fuel` bounds the number of rounds and `none` says that the loop has not ended within
them. -/
def LayersDecoder.loop (LayerTypeZero : LayerType)
    (behave : DecodingLayer → List Byte → DecodeFromBytesRun) (dl : DecodingLayerContainer) :
    Nat → List Byte → LayerType → List LayerType → Bool → Option DecodeFuncRun
  | 0, _, _, _, _ => none
  | fuel + 1, data, typ, decoded, truncated =>
    match DecodingLayerContainer.Decoder dl typ with
    | none =>
      some { decoded := decoded, truncated := truncated,
             ending := .panicked "runtime error: index out of range" }
    | some (_, false) =>
      some { decoded := decoded, truncated := truncated, ending := .returned typ none }
    | some (none, true) =>
      some { decoded := decoded, truncated := truncated,
             ending := .panicked "runtime error: invalid memory address or nil pointer dereference" }
    | some (some d, true) =>
      let run := behave d data
      match run.ending with
      | .panicked r =>
        some { decoded := decoded, truncated := truncated || run.truncated,
               ending := .panicked r }
      | .failed err =>
        some { decoded := decoded, truncated := truncated || run.truncated,
               ending := .returned LayerTypeZero (some err) }
      | .decoded next payload =>
        if next = LayerTypeZero then
          some { decoded := decoded ++ [typ], truncated := truncated || run.truncated,
                 ending := .returned LayerTypeZero none }
        else
          LayersDecoder.loop LayerTypeZero behave dl fuel payload next (decoded ++ [typ])
            (truncated || run.truncated)

/-- Modelled from the spec: one call of the `DecodingLayerFunc` that the package-level
`LayersDecoder(dl, first, df)` returns: the decoded sequence is truncated to empty, then the
chain decode loop runs from the type `first` on `data`. -/
def LayersDecoder (LayerTypeZero : LayerType)
    (behave : DecodingLayer → List Byte → DecodeFromBytesRun) (fuel : Nat)
    (dl : DecodingLayerContainer) (first : LayerType) (data : List Byte)
    (_decoded : List LayerType) : Option DecodeFuncRun :=
  LayersDecoder.loop LayerTypeZero behave dl fuel data first [] false

/-- The method `LayersDecoder` of the three containers: each one hands itself to the
package-level `LayersDecoder`. -/
def DecodingLayerContainer.LayersDecoder (LayerTypeZero : LayerType)
    (behave : DecodingLayer → List Byte → DecodeFromBytesRun) (fuel : Nat) :
    DecodingLayerContainer → LayerType → List Byte → List LayerType → Option DecodeFuncRun
  | .sparse dl => Gopacket.LayersDecoder LayerTypeZero behave fuel (.sparse dl)
  | .array dl => Gopacket.LayersDecoder LayerTypeZero behave fuel (.array dl)
  | .map dl => Gopacket.LayersDecoder LayerTypeZero behave fuel (.map dl)

/-! ### `SerializePacket` (`writer.go`) -/

/-- A value of the interface `Layer` in a packet, by the outcome of the type assertion
`layer.(SerializableLayer)`: the layer as a `SerializableLayer`, or a layer that is not one,
of which `SerializePacket` reads the `LayerType()` only. -/
inductive Layer where
  | serializable (sl : SerializableLayer)
  | plain (typ : LayerType)

/-- Go `layer.(SerializableLayer)`: the asserted value, `none` when `ok` is false. -/
def Layer.asSerializable : Layer → Option SerializableLayer
  | .serializable sl => some sl
  | .plain _ => none

/-- The first loop of `SerializePacket`, over the layers still to look at; `sls` are the
layers collected so far. `layerTypeString` is `LayerType.String`, declared outside the
modelled files. -/
def SerializePacket.collect (layerTypeString : LayerType → String) :
    List Layer → List SerializableLayer → Except GoError (List SerializableLayer)
  | [], sls => .ok sls
  | .plain typ :: _, _ =>
    .error (.other ("layer " ++ layerTypeString typ ++ " is not serializable"))
  | .serializable sl :: rest, sls => SerializePacket.collect layerTypeString rest (sls ++ [sl])

/-- `SerializePacket`, on the list `packet.Layers()`. The result is as for `SerializeLayers`:
the buffer afterwards, the returned error and the record of the calls made on layers. -/
def SerializePacket (layerTypeString : LayerType → String) (buf : serializeBuffer)
    (opts : SerializeOptions) (packet : List Layer) :
    Option (serializeBuffer × Option GoError × List SerializeEvent) :=
  match SerializePacket.collect layerTypeString packet [] with
  | .error err => some (buf, some err, [])
  | .ok sls => SerializeLayers buf opts sls

/-! ### Types of a linear array -/

/-- The types of a list that are not among `seen`, each once, in the order of their first
occurrence: the types for which a `Put` into a `DecodingLayerArray` whose entries have the
types `seen` finds no entry. -/
def freshTypes : List LayerType → List LayerType → List LayerType
  | _, [] => []
  | seen, t :: rest =>
    if t ∈ seen then freshTypes seen rest else t :: freshTypes (seen ++ [t]) rest

/-! ### Construction of a `DecodingLayerParser` (`parser.go`) -/

/-- The method `Put` of the interface `DecodingLayerContainer`, by the dynamic type of the
container; `none` is a fault of the call. -/
def DecodingLayerContainer.Put :
    DecodingLayerContainer → DecodingLayer → Option DecodingLayerContainer
  | .sparse dl, d => (DecodingLayerSparse.Put dl d).map DecodingLayerContainer.sparse
  | .array dl, d => some (.array (DecodingLayerArray.Put dl d))
  | .map dl, d => some (.map (DecodingLayerMap.Put dl d))

/-- `DecodingLayerParser.SetDecodingLayerContainer`. The parameter `layersDecoder` is the
`DecodingLayerFunc` that `dlc.LayersDecoder(first, df)` returns; the body of the package-level
`LayersDecoder` behind it is outside the modelled files, and the parameter stands for any
function in its place. -/
def DecodingLayerParser.SetDecodingLayerContainer
    (layersDecoder : DecodingLayerContainer → LayerType → List Byte → List LayerType →
      DecodeFuncRun)
    (l : DecodingLayerParser) (dlc : DecodingLayerContainer) : DecodingLayerParser :=
  { l with dlc := dlc, decodeFunc := layersDecoder dlc l.first }

/-- `DecodingLayerParser.AddDecodingLayer`: `l.SetDecodingLayerContainer(l.dlc.Put(d))`. -/
def DecodingLayerParser.AddDecodingLayer
    (layersDecoder : DecodingLayerContainer → LayerType → List Byte → List LayerType →
      DecodeFuncRun)
    (l : DecodingLayerParser) (d : DecodingLayer) : Option DecodingLayerParser :=
  match DecodingLayerContainer.Put l.dlc d with
  | none => none
  | some dlc => some (DecodingLayerParser.SetDecodingLayerContainer layersDecoder l dlc)

/-- Loop `for _, d := range decoders { dlc = dlc.Put(d) }` of `NewDecodingLayerParser`. -/
def NewDecodingLayerParser.loop :
    List DecodingLayer → DecodingLayerContainer → Option DecodingLayerContainer
  | [], dlc => some dlc
  | d :: rest, dlc =>
    match DecodingLayerContainer.Put dlc d with
    | none => none
    | some dlc1 => NewDecodingLayerParser.loop rest dlc1

/-- `NewDecodingLayerParser`: the loop starts from an empty, non-nil `DecodingLayerMap`, and
`SetDecodingLayerContainer` then sets the container and the decode function of a parser whose
other fields are `first` and zero values. -/
def NewDecodingLayerParser
    (layersDecoder : DecodingLayerContainer → LayerType → List Byte → List LayerType →
      DecodeFuncRun)
    (first : LayerType) (decoders : List DecodingLayer) : Option DecodingLayerParser :=
  match NewDecodingLayerParser.loop decoders (DecodingLayerContainer.map (some ∅)) with
  | none => none
  | some dlc =>
    some { IgnorePanic := false, IgnoreUnsupported := false, dlc := dlc, first := first,
           decodeFunc := layersDecoder dlc first, Truncated := false }

/-! ## Lemmas on 64-bit arithmetic -/

theorem maxInt_eq : maxInt = 9223372036854775807 := rfl

/-- A value within the range of `int` is not changed by the wrap-around. -/
theorem wrap64_eq (x : Int) (h1 : -maxInt - 1 ≤ x) (h2 : x ≤ maxInt) : wrap64 x = x := by
  unfold wrap64
  have hM := maxInt_eq
  omega

/-- A sum of two values of `int` that is beyond `maxInt` wraps around to a negative value. -/
theorem wrap64_neg (x : Int) (h1 : maxInt < x) (h2 : x ≤ 2 * maxInt + 1) : wrap64 x < 0 := by
  unfold wrap64
  have hM := maxInt_eq
  omega

theorem wrap64_le (x : Int) : wrap64 x ≤ maxInt := by
  unfold wrap64
  have hM := maxInt_eq
  omega

theorem wrap64_ge (x : Int) : -maxInt - 1 ≤ wrap64 x := by
  unfold wrap64
  have hM := maxInt_eq
  omega

/-! ## Lemmas on the dense container -/

theorem maxType_ge (types : List LayerType) (start : LayerType) :
    start ≤ maxType start types := by
  induction types generalizing start with
  | nil => simp [maxType]
  | cons x xs ih =>
    simp only [maxType, List.foldl_cons]
    have h := ih (if x > start then x else start)
    simp only [maxType] at h
    unfold LayerType at *
    split_ifs at h ⊢ <;> omega

theorem le_maxType (types : List LayerType) (start : LayerType) :
    ∀ t ∈ types, t ≤ maxType start types := by
  induction types generalizing start with
  | nil => simp
  | cons x xs ih =>
    intro t ht
    simp only [maxType, List.foldl_cons]
    have hge := maxType_ge xs (if x > start then x else start)
    simp only [maxType] at hge
    rcases List.mem_cons.mp ht with rfl | hmem
    · unfold LayerType at *
      split_ifs at hge ⊢ <;> omega
    · exact ih _ t hmem

/-- The maximum computed by the loop is its start value or one of the types. -/
theorem maxType_mem (types : List LayerType) (start : LayerType) :
    maxType start types = start ∨ maxType start types ∈ types := by
  induction types generalizing start with
  | nil => left; rfl
  | cons x xs ih =>
    simp only [maxType, List.foldl_cons]
    rcases ih (if x > start then x else start) with h | h
    · unfold maxType at h
      rw [h]
      split_ifs
      · right; exact List.mem_cons_self _ _
      · left; rfl
    · right; exact List.mem_cons_of_mem _ h

theorem sparse_cell_append_nil (dl : DecodingLayerSparse) (n i : Nat) :
    DecodingLayerSparse.cell (dl ++ List.replicate n none) i = DecodingLayerSparse.cell dl i := by
  unfold DecodingLayerSparse.cell
  by_cases h : i < dl.length
  · rw [List.getElem?_append_left h]
  · rw [List.getElem?_append_right (by omega), List.getElem?_eq_none (l := dl) (by omega)]
    by_cases h2 : i - dl.length < n
    · simp [List.getElem?_replicate, h2]
    · simp [List.getElem?_replicate, h2]

theorem goAssignAll_spec {α : Type} (v : α) (idx : List Int) :
    ∀ s : List α, (∀ i ∈ idx, 0 ≤ i ∧ i < (s.length : Int)) →
      ∃ s1, goAssignAll v idx s = some s1 ∧ s1.length = s.length ∧
        ∀ i : Nat, s1[i]? = if (i : Int) ∈ idx then some v else s[i]? := by
  induction idx with
  | nil => intro s _; exact ⟨s, rfl, rfl, by simp⟩
  | cons x xs ih =>
    intro s h
    have hx := h x (List.mem_cons_self _ _)
    have hset : goAssign s x v = some (s.set x.toNat v) := by
      simp [goAssign, hx.1, hx.2]
    obtain ⟨s1, h1, h2, h3⟩ := ih (s.set x.toNat v) (by
      intro t ht
      have := h t (List.mem_cons_of_mem _ ht)
      rw [List.length_set]
      exact this)
    refine ⟨s1, ?_, ?_, ?_⟩
    · simp [goAssignAll, hset, h1]
    · rw [h2, List.length_set]
    · intro i
      rw [h3 i]
      by_cases hi : (i : Int) ∈ xs
      · simp [hi]
      · simp only [hi, if_false, List.mem_cons, or_false]
        by_cases hix : (i : Int) = x
        · have hlt : i < s.length := by omega
          have hnat : x.toNat = i := by omega
          simp [hix, hnat, List.getElem?_set, hlt]
        · have hnat : x.toNat ≠ i := by omega
          simp [hix, List.getElem?_set, hnat]

theorem goAssignAll_negative {α : Type} (v : α) (idx : List Int) (hneg : ∃ i ∈ idx, i < 0) :
    ∀ s : List α, goAssignAll v idx s = none := by
  induction idx with
  | nil => simp at hneg
  | cons x xs ih =>
    intro s
    by_cases hx : x < 0
    · have : goAssign s x v = none := by
        have : ¬ 0 ≤ x := by omega
        simp [goAssign, this]
      simp [goAssignAll, this]
    · obtain ⟨i, hi, hlt⟩ := hneg
      rcases List.mem_cons.mp hi with rfl | hmem
      · exact absurd hlt hx
      · cases hg : goAssign s x v with
        | none => simp [goAssignAll, hg]
        | some s1 => simp [goAssignAll, hg, ih ⟨i, hmem, hlt⟩ s1]

theorem goAssignAll_frame {α : Type} (v : α) (idx : List Int) :
    ∀ s s1 : List α, goAssignAll v idx s = some s1 →
      s1.length = s.length ∧ ∀ i : Nat, (i : Int) ∉ idx → s1[i]? = s[i]? := by
  induction idx with
  | nil =>
    intro s s1 h
    cases h
    exact ⟨rfl, fun _ _ => rfl⟩
  | cons x xs ih =>
    intro s s1 h
    unfold goAssignAll at h
    cases hg : goAssign s x v with
    | none => rw [hg] at h; cases h
    | some s2 =>
      rw [hg] at h
      obtain ⟨h1, h2⟩ := ih s2 s1 h
      unfold goAssign at hg
      split_ifs at hg with hc
      cases hg
      refine ⟨by rw [h1, List.length_set], ?_⟩
      intro i hi
      have hne : (i : Int) ≠ x := fun e => hi (e ▸ List.mem_cons_self _ _)
      have hnot : (i : Int) ∉ xs := fun e => hi (List.mem_cons_of_mem _ e)
      have hnat : x.toNat ≠ i := by omega
      rw [h2 i hnot, List.getElem?_set]
      simp [hnat]

theorem sparse_cell_of_getElem (d : DecodingLayer) (types : List LayerType)
    (dl dl1 : DecodingLayerSparse)
    (h : ∀ i : Nat, dl1[i]? = if (i : Int) ∈ types then some (some d) else dl[i]?) (i : Nat) :
    DecodingLayerSparse.cell dl1 i =
      if (i : Int) ∈ types then some d else DecodingLayerSparse.cell dl i := by
  unfold DecodingLayerSparse.cell
  rw [h i]
  by_cases hm : (i : Int) ∈ types
  · simp [hm]
  · simp [hm]

theorem sparse_Decoder_nonneg (dl : DecodingLayerSparse) (t : LayerType)
    (ht : 0 ≤ t) :
    DecodingLayerSparse.Decoder dl t =
      some (DecodingLayerSparse.cell dl t.toNat, DecodingLayerSparse.cell dl t.toNat != none) := by
  unfold DecodingLayerSparse.Decoder DecodingLayerSparse.cell goIndex
  unfold LayerType at *
  by_cases h : t < (dl.length : Int)
  · have hlt : t.toNat < dl.length := by omega
    simp [h, ht, List.getElem?_eq_getElem hlt]
  · have hge : dl.length ≤ t.toNat := by omega
    simp [h, List.getElem?_eq_none hge]

theorem sparse_Put_spec (dl : DecodingLayerSparse) (d : DecodingLayer)
    (hnn : ∀ x ∈ d.canDecode, 0 ≤ x) (hlt : ∀ x ∈ d.canDecode, x < maxInt) :
    ∃ dl1, DecodingLayerSparse.Put dl d = some dl1 ∧
      (dl1.length : Int) =
        maxType ((dl.length : Int) - 1) d.canDecode + 1 ∧
      ∀ i : Nat, DecodingLayerSparse.cell dl1 i =
        if (i : Int) ∈ d.canDecode then some d else DecodingLayerSparse.cell dl i := by
  unfold DecodingLayerSparse.Put
  have hge := maxType_ge d.canDecode ((dl.length : Int) - 1)
  have hle := le_maxType d.canDecode ((dl.length : Int) - 1)
  have hmem := maxType_mem d.canDecode ((dl.length : Int) - 1)
  have hM := maxInt_eq
  have hup : maxType ((dl.length : Int) - 1) d.canDecode = (dl.length : Int) - 1 ∨
      maxType ((dl.length : Int) - 1) d.canDecode < maxInt := by
    rcases hmem with h | h
    · exact Or.inl h
    · exact Or.inr (hlt _ h)
  simp only
  generalize maxType ((dl.length : Int) - 1) d.canDecode = m at hge hle hup ⊢
  unfold LayerType at *
  have hw : wrap64 (m - (dl.length : Int) + 1) = m - (dl.length : Int) + 1 :=
    wrap64_eq _ (by omega) (by omega)
  rw [hw]
  by_cases hex : m - (dl.length : Int) + 1 > 0
  · have hfit : (dl.length : Int) + (m - (dl.length : Int) + 1) ≤ maxInt := by omega
    simp only [hex, if_true, hfit]
    obtain ⟨dl1, h1, h2, h3⟩ := goAssignAll_spec (some d) d.canDecode
      (dl ++ List.replicate (m - (dl.length : Int) + 1).toNat none) (by
        intro t ht
        refine ⟨hnn t ht, ?_⟩
        have := hle t ht
        have := hnn t ht
        unfold LayerType at *
        simp only [List.length_append, List.length_replicate]
        push_cast
        omega)
    refine ⟨dl1, h1, ?_, ?_⟩
    · rw [h2]; simp only [List.length_append, List.length_replicate]; push_cast; omega
    · intro i
      rw [sparse_cell_of_getElem d d.canDecode _ dl1 h3 i,
        sparse_cell_append_nil]
  · simp only [hex, if_false]
    obtain ⟨dl1, h1, h2, h3⟩ := goAssignAll_spec (some d) d.canDecode dl (by
        intro t ht
        refine ⟨hnn t ht, ?_⟩
        have := hle t ht
        unfold LayerType at *
        omega)
    refine ⟨dl1, h1, ?_, sparse_cell_of_getElem d d.canDecode dl dl1 h3⟩
    rw [h2]; omega

theorem sparse_Decoder_Put (dl : DecodingLayerSparse) (d : DecodingLayer)
    (hnn : ∀ x ∈ d.canDecode, 0 ≤ x) (hlt : ∀ x ∈ d.canDecode, x < maxInt)
    (t : LayerType) (ht : 0 ≤ t) :
    ∃ dl1, DecodingLayerSparse.Put dl d = some dl1 ∧
      DecodingLayerSparse.Decoder dl1 t =
        if t ∈ d.canDecode then some (some d, true) else DecodingLayerSparse.Decoder dl t := by
  obtain ⟨dl1, h1, _, h3⟩ := sparse_Put_spec dl d hnn hlt
  refine ⟨dl1, h1, ?_⟩
  rw [sparse_Decoder_nonneg dl1 t ht, sparse_Decoder_nonneg dl t ht,
    h3 t.toNat]
  have hcast : ((t.toNat : Nat) : Int) = t := Int.toNat_of_nonneg ht
  rw [hcast]
  by_cases hm : t ∈ d.canDecode
  · simp [hm]
  · simp [hm]


/-! ## Lemmas on the linear-scan and the hash container -/

theorem array_Decoder_putType (d : DecodingLayer) (typ t : LayerType)
    (dl : DecodingLayerArray) :
    DecodingLayerArray.Decoder (DecodingLayerArray.putType d typ dl) t =
      if t = typ then (some d, true) else DecodingLayerArray.Decoder dl t := by
  induction dl with
  | nil =>
    by_cases h : t = typ
    · simp [DecodingLayerArray.putType, DecodingLayerArray.Decoder, h]
    · have h2 : ¬ typ = t := fun e => h e.symm
      simp [DecodingLayerArray.putType, DecodingLayerArray.Decoder, h, h2]
  | cons e rest ih =>
    by_cases he : e.typ = typ
    · by_cases h : t = typ
      · simp [DecodingLayerArray.putType, DecodingLayerArray.Decoder, he, h]
      · have h2 : ¬ typ = t := fun e => h e.symm
        simp [DecodingLayerArray.putType, DecodingLayerArray.Decoder, he, h, h2]
    · by_cases het : e.typ = t
      · have h : ¬ t = typ := fun e2 => he (het.trans e2)
        simp [DecodingLayerArray.putType, DecodingLayerArray.Decoder, he, het, h]
      · simp [DecodingLayerArray.putType, DecodingLayerArray.Decoder, he, het, ih]

theorem array_Decoder_Put (d : DecodingLayer) (t : LayerType)
    (dl : DecodingLayerArray) :
    DecodingLayerArray.Decoder (DecodingLayerArray.Put dl d) t =
      if t ∈ d.canDecode then (some d, true) else DecodingLayerArray.Decoder dl t := by
  unfold DecodingLayerArray.Put
  generalize d.canDecode = types
  induction types generalizing dl with
  | nil => simp
  | cons x xs ih =>
    rw [List.foldl_cons, ih, array_Decoder_putType]
    by_cases h1 : t ∈ xs
    · simp [h1]
    · by_cases h2 : t = x
      · simp [h2]
      · simp [h1, h2]

theorem map_Decoder_putType (d : DecodingLayer) (typ t : LayerType)
    (dl : DecodingLayerMap) :
    DecodingLayerMap.Decoder (DecodingLayerMap.putType d dl typ) t =
      if t = typ then (some d, true) else DecodingLayerMap.Decoder dl t := by
  by_cases h : t = typ
  · subst h
    cases dl <;>
      simp only [DecodingLayerMap.putType, DecodingLayerMap.Decoder, AList.lookup_insert, if_true]
  · cases dl with
    | none =>
      simp only [DecodingLayerMap.putType, DecodingLayerMap.Decoder, AList.lookup_insert_ne h,
        AList.lookup_empty, h, if_false]
    | some m =>
      simp only [DecodingLayerMap.putType, DecodingLayerMap.Decoder, AList.lookup_insert_ne h,
        h, if_false]

theorem map_Decoder_Put (d : DecodingLayer) (t : LayerType)
    (dl : DecodingLayerMap) :
    DecodingLayerMap.Decoder (DecodingLayerMap.Put dl d) t =
      if t ∈ d.canDecode then (some d, true) else DecodingLayerMap.Decoder dl t := by
  unfold DecodingLayerMap.Put
  generalize d.canDecode = types
  induction types generalizing dl with
  | nil => simp
  | cons x xs ih =>
    rw [List.foldl_cons, ih, map_Decoder_putType]
    by_cases h1 : t ∈ xs
    · simp [h1]
    · by_cases h2 : t = x
      · simp [h2]
      · simp [h1, h2]

theorem SameLookups_build (ds : List DecodingLayer)
    (hnn : ∀ d ∈ ds, ∀ x ∈ d.canDecode, 0 ≤ x) (hlt : ∀ d ∈ ds, ∀ x ∈ d.canDecode, x < maxInt) :
    ∀ (sp : DecodingLayerSparse) (ar : DecodingLayerArray) (mp : DecodingLayerMap),
      SameLookups sp ar mp →
      ∃ sp1, DecodingLayerSparse.build ds sp = some sp1 ∧
        SameLookups sp1 (DecodingLayerArray.build ds ar) (DecodingLayerMap.build ds mp) := by
  induction ds with
  | nil => intro sp ar mp h; exact ⟨sp, rfl, h⟩
  | cons d ds ih =>
    intro sp ar mp h
    have hd := hnn d (List.mem_cons_self _ _)
    have hdl := hlt d (List.mem_cons_self _ _)
    obtain ⟨sp1, hput, _, _⟩ := sparse_Put_spec sp d hd hdl
    have hnext : SameLookups sp1 (DecodingLayerArray.Put ar d) (DecodingLayerMap.Put mp d) := by
      intro t ht
      obtain ⟨sp2, hput2, hdec⟩ := sparse_Decoder_Put sp d hd hdl t ht
      rw [hput] at hput2
      cases hput2
      rw [hdec, array_Decoder_Put, map_Decoder_Put]
      by_cases hm : t ∈ d.canDecode
      · simp [hm]
      · simp only [hm, if_false]
        exact h t ht
    obtain ⟨sp3, hb, hsame⟩ := ih (fun e he => hnn e (List.mem_cons_of_mem _ he))
      (fun e he => hlt e (List.mem_cons_of_mem _ he))
      sp1 (DecodingLayerArray.Put ar d) (DecodingLayerMap.Put mp d) hnext
    refine ⟨sp3, ?_, ?_⟩
    · simp [DecodingLayerSparse.build, hput, hb]
    · simpa [DecodingLayerArray.build, DecodingLayerMap.build] using hsame

theorem array_Decoder_build_absent (t : LayerType) (ds : List DecodingLayer)
    (habs : ∀ d ∈ ds, t ∉ d.canDecode) (dl : DecodingLayerArray) :
    DecodingLayerArray.Decoder (DecodingLayerArray.build ds dl) t =
      DecodingLayerArray.Decoder dl t := by
  unfold DecodingLayerArray.build
  induction ds generalizing dl with
  | nil => rfl
  | cons d ds ih =>
    rw [List.foldl_cons, ih (fun e he => habs e (List.mem_cons_of_mem _ he)),
      array_Decoder_Put]
    simp [habs d (List.mem_cons_self _ _)]

theorem SameLookups_nil : SameLookups [] [] none := by
  intro t ht
  refine ⟨?_, rfl⟩
  have h : ¬ t < 0 := by unfold LayerType at *; omega
  simp [DecodingLayerSparse.Decoder, DecodingLayerArray.Decoder, h]

theorem SameLookups_empty : SameLookups [] [] (some ∅) := by
  intro t ht
  refine ⟨(SameLookups_nil t ht).1, ?_⟩
  simp [DecodingLayerMap.Decoder, DecodingLayerArray.Decoder]

/-- Decoders that do not claim a type leave its association in a hash-map container
alone. -/
theorem map_Decoder_build_absent (t : LayerType) (ds : List DecodingLayer)
    (habs : ∀ d ∈ ds, t ∉ d.canDecode) (dl : DecodingLayerMap) :
    DecodingLayerMap.Decoder (DecodingLayerMap.build ds dl) t = DecodingLayerMap.Decoder dl t := by
  induction ds generalizing dl with
  | nil => rfl
  | cons d rest ih =>
    have h := ih (fun e he => habs e (List.mem_cons_of_mem _ he)) (DecodingLayerMap.Put dl d)
    have hd := habs d (List.mem_cons_self _ _)
    simp only [DecodingLayerMap.build, List.foldl_cons] at h ⊢
    rw [h, map_Decoder_Put, if_neg hd]

/-- An index loop that returns has written at indices inside the slice only. -/
theorem goAssignAll_some {α : Type} (v : α) (idx : List Int) :
    ∀ s s1 : List α, goAssignAll v idx s = some s1 →
      s1.length = s.length ∧ ∀ i ∈ idx, 0 ≤ i ∧ i < (s.length : Int) := by
  induction idx with
  | nil =>
    intro s s1 h
    simp only [goAssignAll, Option.some.injEq] at h
    exact ⟨by rw [h], by simp⟩
  | cons x xs ih =>
    intro s s1 h
    simp only [goAssignAll] at h
    by_cases hx : 0 ≤ x ∧ x < (s.length : Int)
    · simp only [goAssign, hx, and_self, if_true] at h
      obtain ⟨h1, h2⟩ := ih _ _ h
      rw [List.length_set] at h1 h2
      refine ⟨h1, ?_⟩
      intro i hi
      rcases List.mem_cons.mp hi with rfl | hm
      · exact hx
      · exact h2 i hm
    · simp only [goAssign, hx, if_false] at h
      cases h

/-- A `Put` into a dense container that returns: the types of the decoder are non-negative
and below `maxInt`, and the new length is a value of `int` if the old one is. -/
theorem sparse_Put_some (dl dl1 : DecodingLayerSparse) (d : DecodingLayer)
    (hlen : (dl.length : Int) ≤ maxInt) (h : DecodingLayerSparse.Put dl d = some dl1) :
    (∀ x ∈ d.canDecode, 0 ≤ x ∧ x < maxInt) ∧ (dl1.length : Int) ≤ maxInt := by
  unfold DecodingLayerSparse.Put at h
  simp only at h
  generalize wrap64 (maxType ((dl.length : Int) - 1) d.canDecode - (dl.length : Int) + 1) = extra
    at h
  have hM := maxInt_eq
  by_cases hex : extra > 0
  · simp only [hex, if_true] at h
    by_cases hfit : (dl.length : Int) + extra ≤ maxInt
    · simp only [hfit, if_true] at h
      obtain ⟨h1, h2⟩ := goAssignAll_some _ _ _ _ h
      simp only [List.length_append, List.length_replicate] at h1 h2
      have hl : (dl1.length : Int) ≤ maxInt := by rw [h1]; push_cast; omega
      refine ⟨?_, hl⟩
      intro x hx
      have := h2 x hx
      push_cast at this
      unfold LayerType at *
      omega
    · simp only [hfit, if_false] at h
      cases h
  · simp only [hex, if_false] at h
    obtain ⟨h1, h2⟩ := goAssignAll_some _ _ _ _ h
    refine ⟨?_, by rw [h1]; exact hlen⟩
    intro x hx
    have := h2 x hx
    unfold LayerType at *
    omega

/-- A dense container built from the nil container: every `Put` on the way returned, so all
types of the decoders are non-negative and below `maxInt`. -/
theorem sparse_build_some (ds : List DecodingLayer) :
    ∀ dl sp : DecodingLayerSparse, (dl.length : Int) ≤ maxInt →
      DecodingLayerSparse.build ds dl = some sp →
      ∀ d ∈ ds, ∀ x ∈ d.canDecode, 0 ≤ x ∧ x < maxInt := by
  induction ds with
  | nil => intro dl sp _ _ d hd; simp at hd
  | cons e rest ih =>
    intro dl sp hlen h d hd
    simp only [DecodingLayerSparse.build] at h
    cases hp : DecodingLayerSparse.Put dl e with
    | none => rw [hp] at h; cases h
    | some dl1 =>
      rw [hp] at h
      obtain ⟨h1, h2⟩ := sparse_Put_some dl dl1 e hlen hp
      rcases List.mem_cons.mp hd with rfl | hm
      · exact h1
      · exact ih dl1 sp h2 h d hm

/-! ## Claims on the containers -/

/-- C1, counterexample: a decoder whose only type is `math.MaxInt64`. On the nil dense
container `extra` wraps around to a negative value, nothing is appended and `dl[typ] = d`
faults; on a dense container of length 1 the `append` would need a length beyond `maxInt`.
The linear-scan and hash containers take the decoder. -/
theorem C1_max_type_counterexample :
    DecodingLayerSparse.Put [] { ident := 1, canDecode := [9223372036854775807] } = none ∧
    DecodingLayerSparse.Put [none] { ident := 1, canDecode := [9223372036854775807] } = none ∧
    DecodingLayerArray.Decoder
        (DecodingLayerArray.Put [] { ident := 1, canDecode := [9223372036854775807] })
        9223372036854775807 = (some { ident := 1, canDecode := [9223372036854775807] }, true) := by
  decide

/-- C1, amended: for each of the three container strategies, every container, every decoder
`d` whose types are all non-negative and below `math.MaxInt64` and every type `t` among them,
`Put(d)` returns a container whose `Decoder(t)` returns `(d, true)`, whatever was associated
with `t` before; for the linear-scan and hash containers this holds for every type. -/
theorem C1_put_then_decoder (d : DecodingLayer) (t : LayerType) (ht : t ∈ d.canDecode) :
    ((∀ x ∈ d.canDecode, 0 ≤ x ∧ x < maxInt) →
      ∀ dl : DecodingLayerSparse, ∃ dl1, DecodingLayerSparse.Put dl d = some dl1 ∧
        DecodingLayerSparse.Decoder dl1 t = some (some d, true)) ∧
    (∀ dl : DecodingLayerArray,
        DecodingLayerArray.Decoder (DecodingLayerArray.Put dl d) t = (some d, true)) ∧
    (∀ dl : DecodingLayerMap,
        DecodingLayerMap.Decoder (DecodingLayerMap.Put dl d) t = (some d, true)) := by
  refine ⟨?_, ?_, ?_⟩
  · intro hin dl
    obtain ⟨dl1, h1, h2⟩ := sparse_Decoder_Put dl d (fun x hx => (hin x hx).1)
      (fun x hx => (hin x hx).2) t (hin t ht).1
    exact ⟨dl1, h1, by simpa [ht] using h2⟩
  · intro dl; simp [array_Decoder_Put, ht]
  · intro dl; simp [map_Decoder_Put, ht]

/-- Witness for C1: a decoder claiming types 2 and 0 is put into a dense container that
holds another decoder for type 0, and into the empty linear-scan and hash containers; the
lookup is at type 2. -/
theorem C1_put_then_decoder_witness :
    (∃ dl1, DecodingLayerSparse.Put [some { ident := 7, canDecode := [0] }]
          { ident := 1, canDecode := [2, 0] } = some dl1 ∧
        DecodingLayerSparse.Decoder dl1 2 =
          some (some { ident := 1, canDecode := [2, 0] }, true)) ∧
    DecodingLayerArray.Decoder
        (DecodingLayerArray.Put [] { ident := 1, canDecode := [2, 0] }) 2 =
      (some { ident := 1, canDecode := [2, 0] }, true) ∧
    DecodingLayerMap.Decoder
        (DecodingLayerMap.Put none { ident := 1, canDecode := [2, 0] }) 2 =
      (some { ident := 1, canDecode := [2, 0] }, true) :=
  ⟨(C1_put_then_decoder { ident := 1, canDecode := [2, 0] } 2 (by decide)).1 (by decide)
      [some { ident := 7, canDecode := [0] }],
   (C1_put_then_decoder { ident := 1, canDecode := [2, 0] } 2 (by decide)).2.1 [],
   (C1_put_then_decoder { ident := 1, canDecode := [2, 0] } 2 (by decide)).2.2 none⟩

/-- C2: for each strategy, in every container built from the nil (or empty) container by a
finite sequence of `Put` calls, `Decoder(t)` returns the nil decoder with `found = false` for
every non-negative type `t` that no `Put` decoder claims. For the dense strategy the container
is any result of the sequence of calls, and there is one when all types are non-negative and
below `math.MaxInt64`. -/
theorem C2_never_put_not_found (ds : List DecodingLayer) (t : LayerType) (ht : 0 ≤ t)
    (habs : ∀ d ∈ ds, t ∉ d.canDecode) :
    (∀ sp, DecodingLayerSparse.build ds [] = some sp →
        DecodingLayerSparse.Decoder sp t = some (none, false)) ∧
    ((∀ d ∈ ds, ∀ x ∈ d.canDecode, 0 ≤ x ∧ x < maxInt) →
        ∃ sp, DecodingLayerSparse.build ds [] = some sp) ∧
    DecodingLayerArray.Decoder (DecodingLayerArray.build ds []) t = (none, false) ∧
    DecodingLayerMap.Decoder (DecodingLayerMap.build ds none) t = (none, false) ∧
    DecodingLayerMap.Decoder (DecodingLayerMap.build ds (some ∅)) t = (none, false) := by
  have har := array_Decoder_build_absent t ds habs []
  have har0 : DecodingLayerArray.Decoder (DecodingLayerArray.build ds []) t = (none, false) := by
    rw [har]; rfl
  have hM := maxInt_eq
  have key : ∀ (hin : ∀ d ∈ ds, ∀ x ∈ d.canDecode, 0 ≤ x ∧ x < maxInt),
      ∃ sp, DecodingLayerSparse.build ds [] = some sp ∧
        DecodingLayerSparse.Decoder sp t = some (none, false) := by
    intro hin
    obtain ⟨sp, hsp, hsame⟩ := SameLookups_build ds (fun d hd x hx => (hin d hd x hx).1)
      (fun d hd x hx => (hin d hd x hx).2) [] [] none SameLookups_nil
    exact ⟨sp, hsp, by rw [(hsame t ht).1, har0]⟩
  refine ⟨?_, ?_, har0, ?_, ?_⟩
  · intro sp hsp
    have hin := sparse_build_some ds [] sp (by simp only [List.length_nil]; omega) hsp
    obtain ⟨sp1, h1, h2⟩ := key hin
    rw [hsp] at h1
    cases h1
    exact h2
  · intro hin
    obtain ⟨sp1, h1, _⟩ := key hin
    exact ⟨sp1, h1⟩
  · rw [map_Decoder_build_absent t ds habs]; rfl
  · rw [map_Decoder_build_absent t ds habs]; rfl

/-- Witness for C2: two decoders claiming types 2, 0 and 5; type 3 is claimed by neither. -/
theorem C2_never_put_not_found_witness :
    (∀ sp, DecodingLayerSparse.build
        [{ ident := 1, canDecode := [2, 0] }, { ident := 2, canDecode := [5] }] [] = some sp →
        DecodingLayerSparse.Decoder sp 3 = some (none, false)) ∧
    (∃ sp, DecodingLayerSparse.build
        [{ ident := 1, canDecode := [2, 0] }, { ident := 2, canDecode := [5] }] [] = some sp) :=
  ⟨(C2_never_put_not_found
      [{ ident := 1, canDecode := [2, 0] }, { ident := 2, canDecode := [5] }] 3
      (by decide) (by decide)).1,
   (C2_never_put_not_found
      [{ ident := 1, canDecode := [2, 0] }, { ident := 2, canDecode := [5] }] 3
      (by decide) (by decide)).2.1 (by decide)⟩

/-- The part of C3 that holds: at or beyond the length the dense container answers
`(nil, false)`, and so it does for a nil cell inside the slice. -/
theorem sparse_Decoder_absent (dl : DecodingLayerSparse) (t : LayerType) (ht : 0 ≤ t)
    (hnil : DecodingLayerSparse.cell dl t.toNat = none) :
    DecodingLayerSparse.Decoder dl t = some (none, false) := by
  rw [sparse_Decoder_nonneg dl t ht, hnil]
  rfl

/-- Every negative type makes `DecodingLayerSparse.Decoder` fault, on every container. -/
theorem sparse_Decoder_negative (dl : DecodingLayerSparse) (t : LayerType) (ht : t < 0) :
    DecodingLayerSparse.Decoder dl t = none := by
  unfold DecodingLayerSparse.Decoder goIndex
  unfold LayerType at *
  have h1 : t < (dl.length : Int) := by omega
  have h2 : ¬ 0 ≤ t := by omega
  simp [h1, h2]

/-- C3 (fails in the code): `DecodingLayerSparse.Decoder` faults on a negative type, here on
the nil container with type `-1`, where the linear-scan and hash containers answer
`(nil, false)`. -/
theorem C3_sparse_decoder_negative_faults :
    DecodingLayerSparse.Decoder [] (-1) = none ∧
    DecodingLayerArray.Decoder [] (-1) = (none, false) ∧
    DecodingLayerMap.Decoder none (-1) = (none, false) := by
  decide

/-- C5, counterexample: one decoder whose type is `math.MaxInt64`. The `Put` into the empty
dense container faults, while the linear-scan and the hash container take the decoder and
answer it for this type. -/
theorem C5_max_type_counterexample :
    DecodingLayerSparse.build [{ ident := 1, canDecode := [9223372036854775807] }] [] = none ∧
    DecodingLayerArray.Decoder
        (DecodingLayerArray.build [{ ident := 1, canDecode := [9223372036854775807] }] [])
        9223372036854775807 = (some { ident := 1, canDecode := [9223372036854775807] }, true) ∧
    DecodingLayerMap.Decoder
        (DecodingLayerMap.build [{ ident := 1, canDecode := [9223372036854775807] }] (some ∅))
        9223372036854775807 = (some { ident := 1, canDecode := [9223372036854775807] }, true) := by
  decide

/-- C5, amended: after the same decoders, all types non-negative and below `math.MaxInt64`,
are `Put` in the same order into an empty container of each strategy, all three containers
exist and `Decoder(t)` returns the same pair for every non-negative `t`. -/
theorem C5_strategies_agree (ds : List DecodingLayer) (t : LayerType)
    (hin : ∀ d ∈ ds, ∀ x ∈ d.canDecode, 0 ≤ x ∧ x < maxInt) (ht : 0 ≤ t) :
    ∃ sp, DecodingLayerSparse.build ds [] = some sp ∧
      DecodingLayerSparse.Decoder sp t =
        some (DecodingLayerArray.Decoder (DecodingLayerArray.build ds []) t) ∧
      DecodingLayerMap.Decoder (DecodingLayerMap.build ds none) t =
        DecodingLayerArray.Decoder (DecodingLayerArray.build ds []) t ∧
      DecodingLayerMap.Decoder (DecodingLayerMap.build ds (some ∅)) t =
        DecodingLayerArray.Decoder (DecodingLayerArray.build ds []) t := by
  obtain ⟨sp, hsp, hsame⟩ := SameLookups_build ds (fun d hd x hx => (hin d hd x hx).1)
    (fun d hd x hx => (hin d hd x hx).2) [] [] none SameLookups_nil
  obtain ⟨sp2, hsp2, hsame2⟩ := SameLookups_build ds (fun d hd x hx => (hin d hd x hx).1)
    (fun d hd x hx => (hin d hd x hx).2) [] [] (some ∅) SameLookups_empty
  exact ⟨sp, hsp, (hsame t ht).1, (hsame t ht).2, (hsame2 t ht).2⟩

/-- Witness for C5: two decoders both claiming type 0, the later one wins in all strategies. -/
theorem C5_strategies_agree_witness :
    ∃ sp, DecodingLayerSparse.build
        [{ ident := 1, canDecode := [2, 0] }, { ident := 2, canDecode := [0] }] [] = some sp ∧
      DecodingLayerSparse.Decoder sp 0 =
        some (DecodingLayerArray.Decoder (DecodingLayerArray.build
          [{ ident := 1, canDecode := [2, 0] }, { ident := 2, canDecode := [0] }] []) 0) ∧
      DecodingLayerMap.Decoder (DecodingLayerMap.build
          [{ ident := 1, canDecode := [2, 0] }, { ident := 2, canDecode := [0] }] none) 0 =
        DecodingLayerArray.Decoder (DecodingLayerArray.build
          [{ ident := 1, canDecode := [2, 0] }, { ident := 2, canDecode := [0] }] []) 0 ∧
      DecodingLayerMap.Decoder (DecodingLayerMap.build
          [{ ident := 1, canDecode := [2, 0] }, { ident := 2, canDecode := [0] }] (some ∅)) 0 =
        DecodingLayerArray.Decoder (DecodingLayerArray.build
          [{ ident := 1, canDecode := [2, 0] }, { ident := 2, canDecode := [0] }] []) 0 :=
  C5_strategies_agree [{ ident := 1, canDecode := [2, 0] }, { ident := 2, canDecode := [0] }] 0
    (by decide) (by decide)

/-! ## Lemmas on containers with their backing storage -/

theorem Aliased.view_update {α : Type} (slack : Nat) (zero : α) (st : Aliased α) (v : List α) :
    (st.update slack zero v).view = v := by
  unfold Aliased.update
  split_ifs
  · cases st <;> simp [Aliased.view, Aliased.cells, Aliased.len]
  · simp [Aliased.view, Aliased.cells, Aliased.len]

/-- After an update the first `n` cells of the receiver's array are as before, or the local
slice was still on the receiver's array and they are the first `n` cells of the new content. -/
theorem Aliased.recv_update {α : Type} (slack : Nat) (zero : α) (st : Aliased α) (v : List α)
    (n : Nat) (hv : n ≤ v.length) :
    (st.update slack zero v).recv = st.recv ∨
      ((st.update slack zero v).recv.take n = v.take n ∧ st.recv = st.cells) := by
  unfold Aliased.update
  split_ifs
  · cases st with
    | same cells len =>
      right
      refine ⟨?_, rfl⟩
      simp only [Aliased.recv]
      rw [List.take_append_of_le_length hv]
    | moved recv cells len => left; rfl
  · left; rfl

theorem sparse_cell_take (dl : DecodingLayerSparse) (n i : Nat) :
    DecodingLayerSparse.cell (dl.take n) i =
      if i < n then DecodingLayerSparse.cell dl i else none := by
  unfold DecodingLayerSparse.cell
  by_cases h : i < n
  · simp [h, List.getElem?_take]
  · simp [h, List.getElem?_take]

/-- `DecodingLayerSparse.PutShared` returns a slice with the content that
`DecodingLayerSparse.Put` computes. -/
theorem sparse_PutShared_view (slack : Nat) (c : Backed (Option DecodingLayer))
    (d : DecodingLayer) (hwf : c.len ≤ c.cells.length) :
    (DecodingLayerSparse.PutShared slack c d).map Aliased.view =
      DecodingLayerSparse.Put c.view d := by
  have hlen : c.view.length = c.len := by
    simp only [Backed.view, List.length_take]; omega
  unfold DecodingLayerSparse.PutShared DecodingLayerSparse.Put
  simp only [hlen]
  have hv0 : (Aliased.same c.cells c.len : Aliased (Option DecodingLayer)).view = c.view := rfl
  generalize wrap64 (maxType ((c.len : Int) - 1) d.canDecode - (c.len : Int) + 1) = extra
  by_cases hex : extra > 0
  · by_cases hfit : (c.len : Int) + extra ≤ maxInt
    · simp only [hex, hfit, if_true, Aliased.view_update, hv0]
      cases goAssignAll (some d) d.canDecode (c.view ++ List.replicate extra.toNat none) with
      | none => rfl
      | some v => simp [Aliased.view_update]
    · simp only [hex, hfit, if_true, if_false]
      rfl
  · simp only [hex, if_false, hv0]
    cases goAssignAll (some d) d.canDecode c.view with
    | none => rfl
    | some v => simp [Aliased.view_update]

/-- What the caller's copy of a dense container sees after `Put`: cells of types the
decoder does not claim are as before. -/
theorem sparse_PutShared_frame (slack : Nat) (c : Backed (Option DecodingLayer))
    (d : DecodingLayer) (hwf : c.len ≤ c.cells.length) (hnn : ∀ x ∈ d.canDecode, 0 ≤ x)
    (hlt : ∀ x ∈ d.canDecode, x < maxInt)
    (i : Nat) (hi : (i : Int) ∉ d.canDecode) :
    ∃ st, DecodingLayerSparse.PutShared slack c d = some st ∧
      DecodingLayerSparse.cell (st.recv.take c.len) i = DecodingLayerSparse.cell c.view i := by
  have hlen : c.view.length = c.len := by
    simp only [Backed.view, List.length_take]; omega
  obtain ⟨v2, hput, hlen2, _⟩ := sparse_Put_spec c.view d hnn hlt
  unfold DecodingLayerSparse.Put at hput
  simp only [hlen] at hput
  unfold DecodingLayerSparse.PutShared
  simp only
  have hv0 : (Aliased.same c.cells c.len : Aliased (Option DecodingLayer)).view = c.view := rfl
  generalize hex : wrap64 (maxType ((c.len : Int) - 1) d.canDecode - (c.len : Int) + 1) = extra
    at hput
  -- the `Put` has returned, so the `append` has not faulted
  have hfit : extra > 0 → (c.len : Int) + extra ≤ maxInt := by
    intro hpos
    by_contra hc
    simp only [hpos, if_true, hc, if_false] at hput
    cases hput
  have hput2 : goAssignAll (some d) d.canDecode
      (if extra > 0 then c.view ++ List.replicate extra.toNat none else c.view) = some v2 := by
    by_cases hpos : extra > 0
    · simp only [hpos, if_true, hfit hpos] at hput ⊢
      exact hput
    · simp only [hpos, if_false] at hput ⊢
      exact hput
  have hgrown : (if extra > 0 then
        if (c.len : Int) + extra ≤ maxInt
        then some ((Aliased.same c.cells c.len : Aliased (Option DecodingLayer)).update slack none
          ((Aliased.same c.cells c.len : Aliased (Option DecodingLayer)).view ++
            List.replicate extra.toNat none))
        else none
      else some (Aliased.same c.cells c.len)) =
      some (if extra > 0
        then (Aliased.same c.cells c.len : Aliased (Option DecodingLayer)).update slack none
          ((Aliased.same c.cells c.len : Aliased (Option DecodingLayer)).view ++
            List.replicate extra.toNat none)
        else Aliased.same c.cells c.len) := by
    by_cases hpos : extra > 0
    · simp only [hpos, if_true, hfit hpos]
    · simp only [hpos, if_false]
  rw [hgrown]
  simp only
  clear hput hgrown
  have hput := hput2
  -- the state after the `append`
  generalize hst1 : (if extra > 0
      then (Aliased.same c.cells c.len : Aliased (Option DecodingLayer)).update slack none
        ((Aliased.same c.cells c.len : Aliased (Option DecodingLayer)).view ++
          List.replicate extra.toNat none)
      else Aliased.same c.cells c.len) = st1
  have hview1 : st1.view = if extra > 0 then c.view ++ List.replicate extra.toNat none
      else c.view := by
    rw [← hst1]
    split_ifs
    · rw [Aliased.view_update, hv0]
    · rfl
  have hrecv1 : st1.recv.take c.len = c.view ∧
      (st1.recv = st1.cells → st1.view.take c.len = c.view) := by
    rw [← hst1]
    split_ifs
    · rw [hv0]
      constructor
      · rcases Aliased.recv_update slack none (Aliased.same c.cells c.len)
          (c.view ++ List.replicate extra.toNat none) c.len
          (by rw [List.length_append, hlen]; omega) with h | ⟨h, _⟩
        · rw [h]; rfl
        · rw [h, List.take_left' hlen]
      · intro _
        rw [Aliased.view_update, List.take_left' hlen]
    · constructor
      · rfl
      · intro _
        simp only [Aliased.view, Aliased.cells, Aliased.len, List.take_take, Nat.min_self]
        rfl
  rw [hview1, hput]
  refine ⟨_, rfl, ?_⟩
  obtain ⟨_, hcell⟩ := goAssignAll_frame (some d) d.canDecode _ v2 hput
  have hn2 : c.len ≤ v2.length := by
    have := maxType_ge d.canDecode ((c.view.length : Int) - 1)
    unfold LayerType at *
    omega
  rcases Aliased.recv_update slack none st1 v2 c.len hn2 with h | ⟨h, hsame⟩
  · rw [h, hrecv1.1]
  · rw [h, sparse_cell_take, ← hrecv1.2 hsame, sparse_cell_take]
    by_cases hin : i < c.len
    · simp only [hin, if_true]
      unfold DecodingLayerSparse.cell
      rw [hcell i hi, hview1]
    · simp only [hin, if_false]

theorem KeepsType_refl (t : LayerType) (v : List decodingLayerElem) :
    List.Forall₂ (KeepsType t) v v := by
  induction v with
  | nil => exact List.Forall₂.nil
  | cons e rest ih => exact List.Forall₂.cons ⟨rfl, fun _ => rfl⟩ ih

theorem KeepsType_trans (t : LayerType) :
    ∀ a b c : List decodingLayerElem, List.Forall₂ (KeepsType t) a b →
      List.Forall₂ (KeepsType t) b c → List.Forall₂ (KeepsType t) a c := by
  intro a b c hab
  induction hab generalizing c with
  | nil => intro hbc; cases hbc; exact List.Forall₂.nil
  | cons h _ ih =>
    intro hbc
    cases hbc with
    | cons h2 hrest =>
      refine List.Forall₂.cons ⟨h2.1.trans h.1, fun ht => ?_⟩ (ih _ hrest)
      have h3 := h.2 ht
      rw [h2.2 (by rw [h3]; exact ht), h3]

theorem KeepsType_take (t : LayerType) (n : Nat) :
    ∀ a b : List decodingLayerElem, List.Forall₂ (KeepsType t) a b →
      List.Forall₂ (KeepsType t) (a.take n) (b.take n) := by
  induction n with
  | zero => intro a b _; simp
  | succ n ih =>
    intro a b hab
    cases hab with
    | nil => simp
    | cons h hrest => simp only [List.take_succ_cons]; exact List.Forall₂.cons h (ih _ _ hrest)

theorem array_Decoder_KeepsType (t : LayerType) (a b : List decodingLayerElem)
    (hab : List.Forall₂ (KeepsType t) a b) :
    DecodingLayerArray.Decoder b t = DecodingLayerArray.Decoder a t := by
  induction hab with
  | nil => rfl
  | @cons e e1 _ _ h _ ih =>
    unfold DecodingLayerArray.Decoder
    by_cases he : e.typ = t
    · rw [h.2 he]
      simp only [he, if_true]
    · have he1 : ¬ e1.typ = t := by rw [h.1]; exact he
      simp only [he, he1, if_false]
      exact ih

/-- One round of the `TYPES` loop for a type other than `t` keeps the existing cells in the
sense of `KeepsType t`, and does not shorten the slice. -/
theorem array_putType_keeps (d : DecodingLayer) (typ t : LayerType) (hne : typ ≠ t)
    (v : List decodingLayerElem) :
    v.length ≤ (DecodingLayerArray.putType d typ v).length ∧
      List.Forall₂ (KeepsType t) v ((DecodingLayerArray.putType d typ v).take v.length) := by
  induction v with
  | nil => simp [DecodingLayerArray.putType]
  | cons e rest ih =>
    unfold DecodingLayerArray.putType
    by_cases he : e.typ = typ
    · rw [if_pos he]
      simp only [List.length_cons, List.take_succ_cons, le_refl, true_and]
      refine List.Forall₂.cons ⟨rfl, fun ht => absurd (he.symm.trans ht) hne⟩ ?_
      rw [List.take_length]
      exact KeepsType_refl t rest
    · rw [if_neg he]
      simp only [List.length_cons, List.take_succ_cons]
      exact ⟨by omega, List.Forall₂.cons ⟨rfl, fun _ => rfl⟩ ih.2⟩

/-- `DecodingLayerArray.PutShared` returns a slice with the content that
`DecodingLayerArray.Put` computes. -/
theorem array_PutShared_view (slack : Nat) (c : Backed decodingLayerElem) (d : DecodingLayer) :
    (DecodingLayerArray.PutShared slack c d).view = DecodingLayerArray.Put c.view d := by
  unfold DecodingLayerArray.PutShared DecodingLayerArray.Put
  have h0 : (Aliased.same c.cells c.len : Aliased decodingLayerElem).view = c.view := rfl
  rw [← h0]
  generalize (Aliased.same c.cells c.len : Aliased decodingLayerElem) = st
  generalize d.canDecode = types
  induction types generalizing st with
  | nil => rfl
  | cons x xs ih =>
    rw [List.foldl_cons, List.foldl_cons, ih, Aliased.view_update]

/-- What the caller's copy of a linear-scan container sees after `Put`: the lookup of a type
the decoder does not claim is as before. -/
theorem array_PutShared_frame (slack : Nat) (c : Backed decodingLayerElem) (d : DecodingLayer)
    (hwf : c.len ≤ c.cells.length) (t : LayerType) (ht : t ∉ d.canDecode) :
    DecodingLayerArray.Decoder ((DecodingLayerArray.PutShared slack c d).recv.take c.len) t =
      DecodingLayerArray.Decoder c.view t := by
  apply array_Decoder_KeepsType
  unfold DecodingLayerArray.PutShared
  have hinit : c.len ≤ (Aliased.same c.cells c.len : Aliased decodingLayerElem).view.length ∧
      List.Forall₂ (KeepsType t) c.view
        ((Aliased.same c.cells c.len : Aliased decodingLayerElem).recv.take c.len) := by
    refine ⟨?_, KeepsType_refl t _⟩
    simp only [Aliased.view, Aliased.cells, Aliased.len, List.length_take]
    omega
  generalize (Aliased.same c.cells c.len : Aliased decodingLayerElem) = st at hinit
  generalize d.canDecode = types at ht
  induction types generalizing st with
  | nil => exact hinit.2
  | cons x xs ih =>
    rw [List.foldl_cons]
    have hx : x ≠ t := fun e => ht (e ▸ List.mem_cons_self _ _)
    refine ih _ ?_ (fun e => ht (List.mem_cons_of_mem _ e))
    obtain ⟨hlen, hkeep⟩ := hinit
    obtain ⟨hgrow, hstep⟩ := array_putType_keeps d x t hx st.view
    have hn : c.len ≤ (DecodingLayerArray.putType d x st.view).length := by omega
    refine ⟨by rw [Aliased.view_update]; exact hn, ?_⟩
    rcases Aliased.recv_update slack { typ := 0, dec := none } st
      (DecodingLayerArray.putType d x st.view) c.len hn with h | ⟨h, hsame⟩
    · rw [h]; exact hkeep
    · rw [h]
      refine KeepsType_trans t _ _ _ hkeep ?_
      have hview : st.recv.take c.len = st.view.take c.len := by
        have hl : c.len ≤ st.len := by
          simp only [Aliased.view, List.length_take] at hlen
          omega
        rw [hsame]
        simp only [Aliased.view, List.take_take]
        congr 1
        omega
      rw [hview]
      have := KeepsType_take t c.len _ _ hstep
      rw [List.take_take] at this
      have hmin : min c.len st.view.length = c.len := by omega
      rw [hmin] at this
      exact this

theorem map_PutShared_cur (dl : DecodingLayerMap) (d : DecodingLayer) :
    (DecodingLayerMap.PutShared dl d).cur = DecodingLayerMap.Put dl d := by
  unfold DecodingLayerMap.PutShared DecodingLayerMap.Put
  have h0 : dl = ({ recv := dl, cur := dl, shared := true } : MapAliased).cur := rfl
  rw [h0]
  generalize ({ recv := dl, cur := dl, shared := true } : MapAliased) = st
  generalize d.canDecode = types
  induction types generalizing st with
  | nil => rfl
  | cons x xs ih =>
    rw [List.foldl_cons, List.foldl_cons, ih]
    congr 1
    unfold DecodingLayerMap.putTypeShared DecodingLayerMap.putType
    cases st.cur <;> rfl

/-- What the caller's copy of a hash container sees after `Put`: the lookup of a type the
decoder does not claim is as before. -/
theorem map_PutShared_frame (dl : DecodingLayerMap) (d : DecodingLayer) (t : LayerType)
    (ht : t ∉ d.canDecode) :
    DecodingLayerMap.Decoder (DecodingLayerMap.PutShared dl d).recv t =
      DecodingLayerMap.Decoder dl t := by
  unfold DecodingLayerMap.PutShared
  have hinit : DecodingLayerMap.Decoder
        ({ recv := dl, cur := dl, shared := true } : MapAliased).recv t =
        DecodingLayerMap.Decoder dl t ∧
      (({ recv := dl, cur := dl, shared := true } : MapAliased).shared = true →
        ({ recv := dl, cur := dl, shared := true } : MapAliased).recv =
          ({ recv := dl, cur := dl, shared := true } : MapAliased).cur) := ⟨rfl, fun _ => rfl⟩
  generalize ({ recv := dl, cur := dl, shared := true } : MapAliased) = st at hinit
  generalize d.canDecode = types at ht
  induction types generalizing st with
  | nil => exact hinit.1
  | cons x xs ih =>
    rw [List.foldl_cons]
    have hx : t ≠ x := fun e => ht (e ▸ List.mem_cons_self _ _)
    refine ih _ ?_ (fun e => ht (List.mem_cons_of_mem _ e))
    obtain ⟨hdec, hsh⟩ := hinit
    unfold DecodingLayerMap.putTypeShared
    cases hcur : st.cur with
    | none => exact ⟨hdec, fun h => by cases h⟩
    | some m =>
      simp only
      by_cases hs : st.shared = true
      · refine ⟨?_, ?_⟩
        · simp only [hs, if_true]
          rw [← hdec, hsh hs, hcur]
          have := map_Decoder_putType d x t (some m)
          simp only [DecodingLayerMap.putType, hx, if_false] at this
          exact this
        · intro _
          simp only [hs, if_true]
      · refine ⟨?_, ?_⟩
        · simp only [hs, if_false]
          exact hdec
        · intro h
          exact absurd h hs

/-- C4 as stated fails for all three strategies. A container holding decoder 0 for type 0
answers `(decoder 0, true)`; after `Put` of decoder 1, which claims type 0 as well, the
caller's copy of the container (same backing array and length, same map object) answers
`(decoder 1, true)`. -/
theorem C4_put_writes_through_counterexample :
    (DecodingLayerSparse.Decoder
        (Backed.view { cells := [some { ident := 0, canDecode := [0] }], len := 1 }) 0 =
        some (some { ident := 0, canDecode := [0] }, true) ∧
      (DecodingLayerSparse.PutShared 0
          { cells := [some { ident := 0, canDecode := [0] }], len := 1 }
          { ident := 1, canDecode := [0] }).map
          (fun st => DecodingLayerSparse.Decoder (st.recv.take 1) 0) =
        some (some (some { ident := 1, canDecode := [0] }, true))) ∧
    (DecodingLayerArray.Decoder
        (Backed.view
          { cells := [{ typ := 0, dec := some { ident := 0, canDecode := [0] } }], len := 1 }) 0 =
        (some { ident := 0, canDecode := [0] }, true) ∧
      DecodingLayerArray.Decoder
          ((DecodingLayerArray.PutShared 0
            { cells := [{ typ := 0, dec := some { ident := 0, canDecode := [0] } }], len := 1 }
            { ident := 1, canDecode := [0] }).recv.take 1) 0 =
        (some { ident := 1, canDecode := [0] }, true)) ∧
    (DecodingLayerMap.Decoder
        (some (AList.insert 0 (some { ident := 0, canDecode := [0] }) ∅)) 0 =
        (some { ident := 0, canDecode := [0] }, true) ∧
      DecodingLayerMap.Decoder
          (DecodingLayerMap.PutShared
            (some (AList.insert 0 (some { ident := 0, canDecode := [0] }) ∅))
            { ident := 1, canDecode := [0] }).recv 0 =
        (some { ident := 1, canDecode := [0] }, true)) := by
  decide

/-- C4 amended: `Put` writes into the storage of the container it is called on, and leaves
the associations of all other types alone: for each of the three strategies, every
container `c` with its storage, every decoder `d` and every type `t` that `d` does not claim
(for `DecodingLayerSparse`: `t ≥ 0` and the types of `d` non-negative and below
`math.MaxInt64`), after `c2 := c.Put(d)` the result of `c.Decoder(t)` on the original
container is the same as before the call, and the returned `c2` has the content that `Put`
computes. -/
theorem C4_put_keeps_unclaimed_types (d : DecodingLayer) (t : LayerType)
    (hnot : t ∉ d.canDecode) :
    (∀ (slack : Nat) (c : Backed (Option DecodingLayer)), c.len ≤ c.cells.length →
        (∀ x ∈ d.canDecode, 0 ≤ x ∧ x < maxInt) → 0 ≤ t →
        ∃ st, DecodingLayerSparse.PutShared slack c d = some st ∧
          DecodingLayerSparse.Decoder (st.recv.take c.len) t =
            DecodingLayerSparse.Decoder c.view t ∧
          DecodingLayerSparse.Put c.view d = some st.view) ∧
    (∀ (slack : Nat) (c : Backed decodingLayerElem), c.len ≤ c.cells.length →
        DecodingLayerArray.Decoder
            ((DecodingLayerArray.PutShared slack c d).recv.take c.len) t =
          DecodingLayerArray.Decoder c.view t ∧
        (DecodingLayerArray.PutShared slack c d).view = DecodingLayerArray.Put c.view d) ∧
    (∀ dl : DecodingLayerMap,
        DecodingLayerMap.Decoder (DecodingLayerMap.PutShared dl d).recv t =
          DecodingLayerMap.Decoder dl t ∧
        (DecodingLayerMap.PutShared dl d).cur = DecodingLayerMap.Put dl d) := by
  refine ⟨?_, ?_, ?_⟩
  · intro slack c hwf hin ht
    have hcast : ((t.toNat : Nat) : Int) = t := Int.toNat_of_nonneg ht
    obtain ⟨st, hst, hcell⟩ := sparse_PutShared_frame slack c d hwf (fun x hx => (hin x hx).1)
      (fun x hx => (hin x hx).2) t.toNat (by rw [hcast]; exact hnot)
    refine ⟨st, hst, ?_, ?_⟩
    · rw [sparse_Decoder_nonneg _ t ht, sparse_Decoder_nonneg _ t ht, hcell]
    · have := sparse_PutShared_view slack c d hwf
      rw [hst] at this
      exact this.symm
  · intro slack c hwf
    exact ⟨array_PutShared_frame slack c d hwf t hnot, array_PutShared_view slack c d⟩
  · intro dl
    exact ⟨map_PutShared_frame dl d t hnot, map_PutShared_cur dl d⟩

/-- Witness for C4 amended: a decoder claiming types 2 and 0 is `Put` into containers that
hold decoder 7 for type 1; the caller's copy still answers decoder 7 for type 1. -/
theorem C4_put_keeps_unclaimed_types_witness :
    (∃ st, DecodingLayerSparse.PutShared 0
          { cells := [none, some { ident := 7, canDecode := [1] }], len := 2 }
          { ident := 1, canDecode := [2, 0] } = some st ∧
        DecodingLayerSparse.Decoder (st.recv.take 2) 1 =
          DecodingLayerSparse.Decoder
            (Backed.view { cells := [none, some { ident := 7, canDecode := [1] }], len := 2 }) 1 ∧
        DecodingLayerSparse.Put
            (Backed.view { cells := [none, some { ident := 7, canDecode := [1] }], len := 2 })
            { ident := 1, canDecode := [2, 0] } = some st.view) ∧
    (DecodingLayerArray.Decoder
          ((DecodingLayerArray.PutShared 0
            { cells := [{ typ := 1, dec := some { ident := 7, canDecode := [1] } }], len := 1 }
            { ident := 1, canDecode := [2, 0] }).recv.take 1) 1 =
        DecodingLayerArray.Decoder
          (Backed.view
            { cells := [{ typ := 1, dec := some { ident := 7, canDecode := [1] } }], len := 1 }) 1 ∧
      (DecodingLayerArray.PutShared 0
          { cells := [{ typ := 1, dec := some { ident := 7, canDecode := [1] } }], len := 1 }
          { ident := 1, canDecode := [2, 0] }).view =
        DecodingLayerArray.Put
          (Backed.view
            { cells := [{ typ := 1, dec := some { ident := 7, canDecode := [1] } }], len := 1 })
          { ident := 1, canDecode := [2, 0] }) ∧
    (DecodingLayerMap.Decoder
          (DecodingLayerMap.PutShared
            (some (AList.insert 1 (some { ident := 7, canDecode := [1] }) ∅))
            { ident := 1, canDecode := [2, 0] }).recv 1 =
        DecodingLayerMap.Decoder
          (some (AList.insert 1 (some { ident := 7, canDecode := [1] }) ∅)) 1 ∧
      (DecodingLayerMap.PutShared
          (some (AList.insert 1 (some { ident := 7, canDecode := [1] }) ∅))
          { ident := 1, canDecode := [2, 0] }).cur =
        DecodingLayerMap.Put
          (some (AList.insert 1 (some { ident := 7, canDecode := [1] }) ∅))
          { ident := 1, canDecode := [2, 0] }) :=
  ⟨(C4_put_keeps_unclaimed_types { ident := 1, canDecode := [2, 0] } 1 (by decide)).1 0
      { cells := [none, some { ident := 7, canDecode := [1] }], len := 2 }
      (by decide) (by decide) (by decide),
   (C4_put_keeps_unclaimed_types { ident := 1, canDecode := [2, 0] } 1 (by decide)).2.1 0
      { cells := [{ typ := 1, dec := some { ident := 7, canDecode := [1] } }], len := 1 }
      (by decide),
   (C4_put_keeps_unclaimed_types { ident := 1, canDecode := [2, 0] } 1 (by decide)).2.2
      (some (AList.insert 1 (some { ident := 7, canDecode := [1] }) ∅))⟩

/-! ## Lemmas on layer classes -/

theorem NewLayerClassSlice_spec (types : List LayerType) (hnn : ∀ x ∈ types, 0 ≤ x)
    (hlt : ∀ x ∈ types, x < maxInt) :
    ∃ s, NewLayerClassSlice types = some s ∧ (s.length : Int) = maxType 0 types + 1 ∧
      ∀ i : Nat, s[i]? =
        if (i : Int) ∈ types then some true else if i < s.length then some false else none := by
  unfold NewLayerClassSlice
  have hge := maxType_ge types 0
  have hle := le_maxType types 0
  have hM := maxInt_eq
  have hup : maxType 0 types < maxInt := by
    rcases maxType_mem types 0 with h | h
    · rw [h, hM]; decide
    · exact hlt _ h
  simp only
  generalize maxType 0 types = m at hge hle hup ⊢
  unfold LayerType at *
  have hw : wrap64 (m + 1) = m + 1 := wrap64_eq _ (by omega) (by omega)
  have hneg : ¬ (m + 1 < 0) := by omega
  rw [hw]
  simp only [hneg, if_false]
  obtain ⟨s, h1, h2, h3⟩ := goAssignAll_spec true types (List.replicate (m + 1).toNat false) (by
    intro t ht
    have := hle t ht
    have := hnn t ht
    unfold LayerType at *
    simp only [List.length_replicate]
    omega)
  have hlen : s.length = (m + 1).toNat := by rw [h2, List.length_replicate]
  refine ⟨s, h1, by omega, ?_⟩
  intro i
  rw [h3 i, hlen, List.getElem?_replicate]

theorem slice_Contains_New (types : List LayerType) (hnn : ∀ x ∈ types, 0 ≤ x)
    (hlt : ∀ x ∈ types, x < maxInt) (t : LayerType) (ht : 0 ≤ t) :
    ∃ s, NewLayerClassSlice types = some s ∧
      LayerClassSlice.Contains s t = some (decide (t ∈ types)) := by
  obtain ⟨s, h1, h2, h3⟩ := NewLayerClassSlice_spec types hnn hlt
  refine ⟨s, h1, ?_⟩
  have hle := le_maxType types 0
  have hcast : ((t.toNat : Nat) : Int) = t := Int.toNat_of_nonneg ht
  unfold LayerClassSlice.Contains goIndex
  by_cases hlt : t < (s.length : Int)
  · have hi := h3 t.toNat
    rw [hcast] at hi
    have hlt2 : t.toNat < s.length := by unfold LayerType at *; omega
    simp only [hlt, ht, if_true, List.get?_eq_getElem?, hi, hlt2]
    by_cases hm : t ∈ types
    · simp [hm]
    · simp [hm]
  · have hm : t ∉ types := by
      intro hm
      have := hle t hm
      unfold LayerType at *
      omega
    simp [hlt, hm]

theorem classMap_lookup_New (t : LayerType) (types : List LayerType) (m : LayerClassMap) :
    (types.foldl (fun m typ => AList.insert typ true m) m).lookup t =
      if t ∈ types then some true else m.lookup t := by
  induction types generalizing m with
  | nil => simp
  | cons x xs ih =>
    rw [List.foldl_cons, ih]
    by_cases h1 : t ∈ xs
    · simp [h1]
    · by_cases h2 : t = x
      · subst h2
        simp only [h1, if_false, AList.lookup_insert, List.mem_cons, true_or, if_true]
      · simp only [h1, if_false, AList.lookup_insert_ne h2, List.mem_cons, h2, or_self]

theorem classMap_Contains_New (types : List LayerType) (t : LayerType) :
    LayerClassMap.Contains (NewLayerClassMap types) t = decide (t ∈ types) := by
  unfold LayerClassMap.Contains NewLayerClassMap
  rw [classMap_lookup_New]
  by_cases hm : t ∈ types
  · simp [hm]
  · simp [hm, AList.lookup_empty]

theorem NewLayerClass_scan_above (maxLayerType : LayerType) (types rest : List LayerType)
    (h : ∃ t ∈ rest, t > maxLayerType) :
    NewLayerClass.scan maxLayerType types rest = some (LayerClass.map (NewLayerClassMap types)) := by
  induction rest with
  | nil => simp at h
  | cons x xs ih =>
    by_cases hx : x > maxLayerType
    · simp [NewLayerClass.scan, hx]
    · obtain ⟨t, ht, hgt⟩ := h
      rcases List.mem_cons.mp ht with rfl | hmem
      · exact absurd hgt hx
      · simp [NewLayerClass.scan, hx, ih ⟨t, hmem, hgt⟩]

theorem NewLayerClass_scan_within (maxLayerType : LayerType) (types rest : List LayerType)
    (h : ∀ t ∈ rest, t ≤ maxLayerType) :
    NewLayerClass.scan maxLayerType types rest =
      (NewLayerClassSlice types).map LayerClass.slice := by
  induction rest with
  | nil => rfl
  | cons x xs ih =>
    have hx : ¬ x > maxLayerType := not_lt.mpr (h x (List.mem_cons_self _ _))
    simp [NewLayerClass.scan, hx, ih (fun t ht => h t (List.mem_cons_of_mem _ ht))]

theorem NewLayerClass_negative_faults (maxLayerType : LayerType) (types : List LayerType)
    (hle : ∀ t ∈ types, t ≤ maxLayerType) (hneg : ∃ t ∈ types, t < 0) :
    NewLayerClass maxLayerType types = none := by
  unfold NewLayerClass
  rw [NewLayerClass_scan_within maxLayerType types types hle]
  unfold NewLayerClassSlice
  simp only
  rw [goAssignAll_negative true types hneg]
  split_ifs <;> rfl

/-! ## Claims on layer classes -/

/-- C6, counterexample: the list with the one type `math.MaxInt64`. `max + 1` wraps around to
a negative length and `NewLayerClassSlice` faults in `make`, while the class built by
`NewLayerClassMap` contains the type. -/
theorem C6_max_type_counterexample :
    NewLayerClassSlice [9223372036854775807] = none ∧
    LayerClassMap.Contains (NewLayerClassMap [9223372036854775807]) 9223372036854775807 = true := by
  decide

/-- C6, amended: the dense and hash representations agree: for every list of types that are
non-negative and below `math.MaxInt64`, `NewLayerClassSlice` returns a slice, and for every
`t ≥ 0` its `Contains(t)` equals `NewLayerClassMap(types).Contains(t)`. -/
theorem C6_dense_hash_agree (types : List LayerType) (t : LayerType)
    (hin : ∀ x ∈ types, 0 ≤ x ∧ x < maxInt) (ht : 0 ≤ t) :
    ∃ s, NewLayerClassSlice types = some s ∧
      LayerClassSlice.Contains s t = some (LayerClassMap.Contains (NewLayerClassMap types) t) := by
  obtain ⟨s, h1, h2⟩ := slice_Contains_New types (fun x hx => (hin x hx).1)
    (fun x hx => (hin x hx).2) t ht
  exact ⟨s, h1, by rw [h2, classMap_Contains_New]⟩

/-- Witness for C6: types 3 and 1, queried at 6, twice the maximum. -/
theorem C6_dense_hash_agree_witness :
    ∃ s, NewLayerClassSlice [3, 1] = some s ∧
      LayerClassSlice.Contains s 6 = some (LayerClassMap.Contains (NewLayerClassMap [3, 1]) 6) :=
  C6_dense_hash_agree [3, 1] 6 (by decide) (by decide)

/-- C7 as stated fails: with the threshold at 2000 the list `[-1]` has every type below the
threshold, yet `NewLayerClass` returns no `LayerClassSlice`: `NewLayerClassSlice` faults on
`t[-1] = true`. (`NewLayerClass_negative_faults` shows the same for every threshold.) -/
theorem C7_negative_type_counterexample :
    (∀ t ∈ ([-1] : List LayerType), t ≤ 2000) ∧ NewLayerClass 2000 [-1] = none := by
  decide

/-- C7 amended: `NewLayerClass(types)` is the `LayerClassMap` built by `NewLayerClassMap` if
some type is greater than `maxLayerType`, and is the `LayerClassSlice` built by
`NewLayerClassSlice` if every type is non-negative and at most `maxLayerType` (including the
empty list). Whenever no type is above `maxLayerType` the result is that of
`NewLayerClassSlice`, fault included; that a slice is returned takes the threshold
`maxLayerType`, a constant, to be below `math.MaxInt64`, so that the size of a dense class,
at most `maxLayerType + 1`, is a value of `int`. -/
theorem C7_representation_choice (maxLayerType : LayerType) (types : List LayerType) :
    ((∃ t ∈ types, t > maxLayerType) →
        NewLayerClass maxLayerType types = some (LayerClass.map (NewLayerClassMap types))) ∧
    (maxLayerType < maxInt → (∀ t ∈ types, 0 ≤ t ∧ t ≤ maxLayerType) →
        ∃ s, NewLayerClassSlice types = some s ∧
          NewLayerClass maxLayerType types = some (LayerClass.slice s)) ∧
    ((∀ t ∈ types, t ≤ maxLayerType) →
        NewLayerClass maxLayerType types =
          (NewLayerClassSlice types).map LayerClass.slice) := by
  refine ⟨fun h => NewLayerClass_scan_above maxLayerType types types h, fun hmax h => ?_,
    fun h => ?_⟩
  · obtain ⟨s, h1, _, _⟩ := NewLayerClassSlice_spec types (fun x hx => (h x hx).1)
      (fun x hx => lt_of_le_of_lt (h x hx).2 hmax)
    refine ⟨s, h1, ?_⟩
    unfold NewLayerClass
    rw [NewLayerClass_scan_within maxLayerType types types (fun x hx => (h x hx).2), h1]
    rfl
  · unfold NewLayerClass
    rw [NewLayerClass_scan_within maxLayerType types types h]

/-- Witness for C7 amended: threshold 2000, the list `[1, 3000]` gives the map form, the
lists `[3, 1]` and `[]` give the slice form. -/
theorem C7_representation_choice_witness :
    NewLayerClass 2000 [1, 3000] = some (LayerClass.map (NewLayerClassMap [1, 3000])) ∧
    (∃ s, NewLayerClassSlice [3, 1] = some s ∧
      NewLayerClass 2000 [3, 1] = some (LayerClass.slice s)) ∧
    (∃ s, NewLayerClassSlice [] = some s ∧
      NewLayerClass 2000 [] = some (LayerClass.slice s)) :=
  ⟨(C7_representation_choice 2000 [1, 3000]).1 ⟨3000, by decide, by decide⟩,
   (C7_representation_choice 2000 [3, 1]).2.1 (by decide) (by decide),
   (C7_representation_choice 2000 []).2.1 (by decide) (by decide)⟩

/-- C8, counterexample: for the list with the one type `math.MaxInt64`, `NewLayerClassSlice`
returns no class: `max + 1` wraps around and `make` faults. -/
theorem C8_max_type_counterexample :
    (∀ x ∈ ([9223372036854775807] : List LayerType), 0 ≤ x) ∧
    NewLayerClassSlice [9223372036854775807] = none := by
  decide

/-- C8, amended: for every list of non-negative types and every `t ≥ 0`, `NewLayerClassMap`
returns a class whose `Contains(t)` is true exactly when `t` occurs in the list; so does
`NewLayerClassSlice` when the types are below `math.MaxInt64`, and so does `NewLayerClass`
for every threshold `maxLayerType` below `math.MaxInt64`, whichever representation it
chooses. -/
theorem C8_contains_iff_mem (maxLayerType : LayerType) (types : List LayerType) (t : LayerType)
    (hnn : ∀ x ∈ types, 0 ≤ x) (ht : 0 ≤ t) :
    ((∀ x ∈ types, x < maxInt) → ∃ s, NewLayerClassSlice types = some s ∧
        LayerClassSlice.Contains s t = some (decide (t ∈ types))) ∧
    LayerClassMap.Contains (NewLayerClassMap types) t = decide (t ∈ types) ∧
    (maxLayerType < maxInt → ∃ c, NewLayerClass maxLayerType types = some c ∧
        LayerClass.Contains c t = some (decide (t ∈ types))) := by
  refine ⟨fun hlt => slice_Contains_New types hnn hlt t ht, classMap_Contains_New types t, ?_⟩
  intro hmax
  by_cases h : ∃ x ∈ types, x > maxLayerType
  · refine ⟨LayerClass.map (NewLayerClassMap types),
      NewLayerClass_scan_above maxLayerType types types h, ?_⟩
    simp only [LayerClass.Contains, classMap_Contains_New]
  · have hle : ∀ x ∈ types, x ≤ maxLayerType := by
      intro x hx
      by_contra hc
      exact h ⟨x, hx, not_le.mp hc⟩
    obtain ⟨s, h1, h2⟩ := slice_Contains_New types hnn
      (fun x hx => lt_of_le_of_lt (hle x hx) hmax) t ht
    refine ⟨LayerClass.slice s, ?_, h2⟩
    unfold NewLayerClass
    rw [NewLayerClass_scan_within maxLayerType types types hle, h1]
    rfl

/-- Witness for C8: threshold 2000, types 3 and 1, queried at 3. -/
theorem C8_contains_iff_mem_witness :
    (∃ s, NewLayerClassSlice [3, 1] = some s ∧
        LayerClassSlice.Contains s 3 = some (decide ((3 : LayerType) ∈ [3, 1]))) ∧
    (∃ c, NewLayerClass 2000 [3, 1] = some c ∧
        LayerClass.Contains c 3 = some (decide ((3 : LayerType) ∈ [3, 1]))) :=
  ⟨(C8_contains_iff_mem 2000 [3, 1] 3 (by decide) (by decide)).1 (by decide),
   (C8_contains_iff_mem 2000 [3, 1] 3 (by decide) (by decide)).2.2 (by decide)⟩

/-- The part of C9 that holds for the dense form: on every `LayerClassSlice` and for every
`t ≥ 0`, `t` is listed by `LayerTypes()` exactly when `Contains(t)` is true. -/
theorem slice_mem_LayerTypes_iff (s : LayerClassSlice) (t : Int) (ht : 0 ≤ t) :
    t ∈ LayerClassSlice.LayerTypes s ↔ LayerClassSlice.Contains s t = some true := by
  have ht0 : (0 : Int) ≤ t := ht
  unfold LayerClassSlice.LayerTypes LayerClassSlice.Contains goIndex
  simp only [List.mem_map, List.mem_filter, List.mem_range]
  constructor
  · rintro ⟨i, ⟨hi, hb⟩, rfl⟩
    have h1 : ((i : Nat) : Int) < (s.length : Int) := by omega
    have h2 : (0 : Int) ≤ ((i : Nat) : Int) := by omega
    simp only [Int.ofNat_eq_coe]
    rw [if_pos h1, if_pos h2, Int.toNat_ofNat, List.get?_eq_getElem?]
    rw [List.getD_eq_getElem?_getD] at hb
    cases hg : s[i]? with
    | none => rw [hg] at hb; simp at hb
    | some b => rw [hg] at hb; simp at hb; rw [hb]
  · intro h
    by_cases hlt : (t : Int) < (s.length : Int)
    · rw [if_pos hlt, if_pos ht0, List.get?_eq_getElem?] at h
      refine ⟨t.toNat, ⟨by omega, ?_⟩, Int.toNat_of_nonneg ht0⟩
      rw [List.getD_eq_getElem?_getD, h]
      rfl
    · rw [if_neg hlt] at h
      cases h

/-- The part of C9 that holds for a single `LayerType` used as a class. -/
theorem layerType_mem_LayerTypes_iff (l t : LayerType) :
    t ∈ LayerClass.LayerTypes (LayerClass.layerType l) ↔
      LayerClass.Contains (LayerClass.layerType l) t = some true := by
  simp only [LayerClass.LayerTypes, LayerClass.Contains, List.mem_singleton, Option.some.injEq,
    decide_eq_true_eq]
  exact eq_comm

/-- C9 (fails in the code): on the `LayerClassMap` value `{5: false}`, `LayerTypes()` lists
type 5 while `Contains(5)` is false; `LayerClassMap.LayerTypes` returns every key and does not
test the stored flag as `LayerClassSlice.LayerTypes` does. -/
theorem C9_map_lists_false_key :
    (5 : LayerType) ∈ LayerClassMap.LayerTypes (AList.insert 5 false ∅) ∧
    LayerClassMap.Contains (AList.insert 5 false ∅) 5 = false ∧
    LayerClass.Contains (LayerClass.map (AList.insert 5 false ∅)) 5 = some false ∧
    LayerClass.LayerTypes (LayerClass.map (AList.insert 5 false ∅)) = [5] := by
  decide

/-! ## Lemmas on the serialize buffer -/

theorem goCopy_zeros (n off : Nat) (src : List Byte) (h : off + src.length ≤ n) :
    goCopy (List.replicate n 0) off src =
      List.replicate off 0 ++ src ++ List.replicate (n - off - src.length) 0 := by
  unfold goCopy
  have hmin : min ((List.replicate n (0 : Byte)).length - off) src.length = src.length := by
    rw [List.length_replicate]; omega
  simp only [hmin, List.take_replicate, List.drop_replicate, List.take_length]
  have h1 : min off n = off := by omega
  have h2 : n - (off + src.length) = n - off - src.length := by omega
  rw [h1, h2]

theorem Bytes_eq (w : serializeBuffer) (h0 : 0 ≤ w.start) (h1 : w.start ≤ (w.dataLen : Int)) :
    serializeBuffer.Bytes w = some ((w.data.take w.dataLen).drop w.start.toNat) := by
  simp [serializeBuffer.Bytes, h0, h1]

theorem Bytes_length (w : serializeBuffer) (h2 : w.dataLen ≤ w.data.length) :
    ((w.data.take w.dataLen).drop w.start.toNat).length = w.dataLen - w.start.toNat := by
  rw [List.length_drop, List.length_take]
  omega

theorem ite_eq_max (p n : Int) : (if p < n then n else p) = max n p := by
  split_ifs with h
  · rw [max_eq_left (le_of_lt h)]
  · rw [max_eq_right (not_lt.mp h)]

/-- `PrependBytes` when the slack before the window suffices: only `start` moves. -/
theorem PrependBytes_inplace (w : serializeBuffer) (num : Int) (hn : 0 ≤ num)
    (hs : num ≤ w.start) (hi : serializeBuffer.Inv w) :
    serializeBuffer.PrependBytes w num =
      some ({ w with start := w.start - num },
            { off := (w.start - num).toNat, size := num.toNat }) := by
  obtain ⟨h0, h1, h2, h3, h4, h5⟩ := hi
  unfold serializeBuffer.PrependBytes
  have hM := maxInt_eq
  have hn2 : ¬ num < 0 := by omega
  have hs2 : ¬ w.start < num := by omega
  have hw1 : wrap64 (w.start - num) = w.start - num := wrap64_eq _ (by omega) (by omega)
  have hw2 : wrap64 (w.start - num + num) = w.start := by
    rw [wrap64_eq _ (by omega) (by omega)]; omega
  have hb : 0 ≤ w.start - num ∧ w.start - num ≤ w.start ∧ w.start ≤ (w.data.length : Int) := by
    refine ⟨?_, ?_, ?_⟩ <;> omega
  simp only [hn2, hs2, if_false, hw1, hw2, hb, and_self, if_true]

/-- `PrependBytes` when it reallocates and the new capacity is a value of `int`: the new
backing array holds `start + toPrepend` zero cells, the old window content, and as many zero
cells as the old array had after the window. -/
theorem PrependBytes_realloc (w : serializeBuffer) (num : Int)
    (hs : w.start < num) (hi : serializeBuffer.Inv w)
    (hfit : (w.data.length : Int) + (if w.prepended < num then num else w.prepended) ≤ maxInt) :
    serializeBuffer.PrependBytes w num =
      some ({ w with
              prepended := w.prepended + (if w.prepended < num then num else w.prepended)
              data := List.replicate
                  (w.start + (if w.prepended < num then num else w.prepended)).toNat 0 ++
                (w.data.take w.dataLen).drop w.start.toNat ++
                List.replicate (w.data.length - w.dataLen) 0
              dataLen := ((if w.prepended < num then num else w.prepended) + (w.dataLen : Int)).toNat
              start := w.start + (if w.prepended < num then num else w.prepended) - num },
            { off := (w.start + (if w.prepended < num then num else w.prepended) - num).toNat,
              size := num.toNat }) := by
  obtain ⟨h0, h1, h1b, h2, h4, h5⟩ := hi
  unfold serializeBuffer.PrependBytes serializeBuffer.growFront
  generalize htp : (if w.prepended < num then num else w.prepended) = tp at hfit ⊢
  have htp_ge : num ≤ tp := by rw [← htp]; split_ifs <;> omega
  have htp_ge2 : w.prepended ≤ tp := by rw [← htp]; split_ifs <;> omega
  have hM := maxInt_eq
  have hn2 : ¬ num < 0 := by omega
  have hlen := Bytes_length w h2
  have e1 : wrap64 (w.prepended + tp) = w.prepended + tp := wrap64_eq _ (by omega) (by omega)
  have e2 : wrap64 ((w.data.length : Int) + tp) = (w.data.length : Int) + tp :=
    wrap64_eq _ (by omega) (by omega)
  have e3 : wrap64 (w.start + tp) = w.start + tp := wrap64_eq _ (by omega) (by omega)
  have e4 : wrap64 (tp + (w.dataLen : Int)) = tp + (w.dataLen : Int) :=
    wrap64_eq _ (by omega) (by omega)
  have e5 : wrap64 (w.start + tp - num) = w.start + tp - num :=
    wrap64_eq _ (by omega) (by omega)
  have e6 : wrap64 (w.start + tp - num + num) = w.start + tp := by
    rw [wrap64_eq _ (by omega) (by omega)]; omega
  have hc1 : ¬ ((w.data.length : Int) + tp < 0) := by omega
  have hc2 : ¬ (w.start + tp < 0 ∨ (w.data.length : Int) + tp < w.start + tp ∨ w.start < 0 ∨
      (w.dataLen : Int) < w.start) := by omega
  have hc3 : ¬ (tp + (w.dataLen : Int) < 0 ∨ (w.data.length : Int) + tp < tp + (w.dataLen : Int)) := by
    omega
  have hcopy := goCopy_zeros ((w.data.length : Int) + tp).toNat (w.start + tp).toNat
    ((w.data.take w.dataLen).drop w.start.toNat) (by rw [hlen]; omega)
  have hrest : ((w.data.length : Int) + tp).toNat - (w.start + tp).toNat -
      ((w.data.take w.dataLen).drop w.start.toNat).length = w.data.length - w.dataLen := by
    rw [hlen]; omega
  rw [hrest] at hcopy
  simp only [hn2, hs, if_true, if_false, e1, e2, e3, e4, e5, e6, hc1, hc2, hc3, hcopy]
  have hb : 0 ≤ w.start + tp - num ∧ w.start + tp - num ≤ w.start + tp ∧
      w.start + tp ≤
        ((List.replicate (w.start + tp).toNat (0 : Byte) ++
          (w.data.take w.dataLen).drop w.start.toNat ++
          List.replicate (w.data.length - w.dataLen) 0).length : Int) := by
    simp only [List.length_append, List.length_replicate, hlen]
    refine ⟨?_, ?_, ?_⟩ <;> omega
  simp only [hb, and_self, if_true]

/-- `AppendBytes` when the capacity after the window suffices: only `len(w.data)` grows. -/
theorem AppendBytes_inplace (w : serializeBuffer) (num : Int) (hn : 0 ≤ num)
    (hs : num ≤ (w.data.length : Int) - (w.dataLen : Int)) (hi : serializeBuffer.Inv w) :
    serializeBuffer.AppendBytes w num =
      some ({ w with dataLen := ((w.dataLen : Int) + num).toNat },
            { off := w.dataLen, size := num.toNat }) := by
  obtain ⟨h0, h1, h1b, h2, h4, h5⟩ := hi
  unfold serializeBuffer.AppendBytes
  have hM := maxInt_eq
  have hn2 : ¬ num < 0 := by omega
  have hs2 : ¬ (w.data.length : Int) - (w.dataLen : Int) < num := by omega
  have e1 : wrap64 ((w.dataLen : Int) + num) = (w.dataLen : Int) + num :=
    wrap64_eq _ (by omega) (by omega)
  have hb : 0 ≤ (w.dataLen : Int) + num ∧ (w.dataLen : Int) + num ≤ (w.data.length : Int) ∧
      (w.dataLen : Int) ≤ (w.dataLen : Int) + num := by
    refine ⟨?_, ?_, ?_⟩ <;> omega
  simp only [hn2, hs2, if_false, e1, hb, and_self, if_true]

/-- `AppendBytes` when it reallocates and the new capacity is a value of `int`: the new
backing array holds `start` zero cells, the old window content, and zero cells up to the old
capacity plus `toAppend`. -/
theorem AppendBytes_realloc (w : serializeBuffer) (num : Int)
    (hs : (w.data.length : Int) - (w.dataLen : Int) < num) (hi : serializeBuffer.Inv w)
    (hfit : (w.data.length : Int) + (if w.appended < num then num else w.appended) ≤ maxInt) :
    serializeBuffer.AppendBytes w num =
      some ({ w with
              appended := wrap64 (w.appended + (if w.appended < num then num else w.appended))
              data := List.replicate w.start.toNat 0 ++
                (w.data.take w.dataLen).drop w.start.toNat ++
                List.replicate (((w.data.length : Int) +
                  (if w.appended < num then num else w.appended)).toNat - w.dataLen) 0
              dataLen := ((w.dataLen : Int) + num).toNat },
            { off := w.dataLen, size := num.toNat }) := by
  obtain ⟨h0, h1, h1b, h2, h4, h5⟩ := hi
  unfold serializeBuffer.AppendBytes serializeBuffer.growBack
  generalize hta : (if w.appended < num then num else w.appended) = ta at hfit ⊢
  have hta_ge : num ≤ ta := by rw [← hta]; split_ifs <;> omega
  have hM := maxInt_eq
  have hn2 : ¬ num < 0 := by omega
  have hlen := Bytes_length w h2
  have e2 : wrap64 ((w.data.length : Int) + ta) = (w.data.length : Int) + ta :=
    wrap64_eq _ (by omega) (by omega)
  have e4 : wrap64 ((w.dataLen : Int) + num) = (w.dataLen : Int) + num :=
    wrap64_eq _ (by omega) (by omega)
  have hc1 : ¬ ((w.data.length : Int) + ta < 0) := by omega
  have hc2 : ¬ (w.start < 0 ∨ (w.data.length : Int) + ta < w.start ∨
      (w.dataLen : Int) < w.start) := by omega
  have hc3 : ¬ ((w.data.length : Int) + ta < (w.dataLen : Int)) := by omega
  have hcopy := goCopy_zeros ((w.data.length : Int) + ta).toNat w.start.toNat
    ((w.data.take w.dataLen).drop w.start.toNat) (by rw [hlen]; omega)
  have hrest : ((w.data.length : Int) + ta).toNat - w.start.toNat -
      ((w.data.take w.dataLen).drop w.start.toNat).length =
        ((w.data.length : Int) + ta).toNat - w.dataLen := by
    rw [hlen]; omega
  rw [hrest] at hcopy
  simp only [hn2, hs, if_true, if_false, e2, e4, hc1, hc2, hc3, hcopy]
  have hb : 0 ≤ (w.dataLen : Int) + num ∧ (w.dataLen : Int) + num ≤
      ((List.replicate w.start.toNat (0 : Byte) ++
          (w.data.take w.dataLen).drop w.start.toNat ++
          List.replicate (((w.data.length : Int) + ta).toNat - w.dataLen) 0).length : Int) ∧
      (w.dataLen : Int) ≤ (w.dataLen : Int) + num := by
    simp only [List.length_append, List.length_replicate, hlen]
    refine ⟨?_, ?_, ?_⟩ <;> omega
  simp only [hb, and_self, if_true]
theorem PrependBytes_nonneg (w w1 : serializeBuffer) (num : Int) (r : Window)
    (h : serializeBuffer.PrependBytes w num = some (w1, r)) : 0 ≤ num := by
  by_contra hc
  have : num < 0 := by omega
  simp [serializeBuffer.PrependBytes, this] at h

theorem AppendBytes_nonneg (w w1 : serializeBuffer) (num : Int) (r : Window)
    (h : serializeBuffer.AppendBytes w num = some (w1, r)) : 0 ≤ num := by
  by_contra hc
  have : num < 0 := by omega
  simp [serializeBuffer.AppendBytes, this] at h

/-- A reallocating `PrependBytes` whose new capacity `cap(w.data) + toPrepend` is beyond
`maxInt` faults in `make`, after the mark `prepended` has been changed. -/
theorem PrependBytesEnded_overflow (w : serializeBuffer) (num : Int)
    (hi : serializeBuffer.Inv w) (hmax : num ≤ maxInt) (hs : w.start < num)
    (hc : maxInt < (w.data.length : Int) + (if w.prepended < num then num else w.prepended)) :
    serializeBuffer.PrependBytesEnded w num =
      Ended.faulted { w with
        prepended := wrap64 (w.prepended + (if w.prepended < num then num else w.prepended)) } := by
  obtain ⟨h0, h1, h1b, h2, h4, h5⟩ := hi
  unfold serializeBuffer.PrependBytesEnded
  generalize htp : (if w.prepended < num then num else w.prepended) = tp at hc ⊢
  have htp_le : tp ≤ maxInt := by rw [← htp]; split_ifs <;> omega
  have hneg : wrap64 ((w.data.length : Int) + tp) < 0 := wrap64_neg _ hc (by omega)
  have hn2 : ¬ num < 0 := by omega
  simp only [hn2, hs, if_true, if_false, hneg]

/-- A reallocating `AppendBytes` whose new capacity `cap(w.data) + toAppend` is beyond
`maxInt` faults in `make`, after the mark `appended` has been changed. -/
theorem AppendBytesEnded_overflow (w : serializeBuffer) (num : Int)
    (hi : serializeBuffer.Inv w) (hn : 0 ≤ num) (hmax : num ≤ maxInt)
    (hs : (w.data.length : Int) - (w.dataLen : Int) < num)
    (hc : maxInt < (w.data.length : Int) + (if w.appended < num then num else w.appended)) :
    serializeBuffer.AppendBytesEnded w num =
      Ended.faulted { w with
        appended := wrap64 (w.appended + (if w.appended < num then num else w.appended)) } := by
  obtain ⟨h0, h1, h1b, h2, h4, h5⟩ := hi
  unfold serializeBuffer.AppendBytesEnded
  generalize hta : (if w.appended < num then num else w.appended) = ta at hc ⊢
  have hta_le : ta ≤ maxInt := by rw [← hta]; split_ifs <;> omega
  have hneg : wrap64 ((w.data.length : Int) + ta) < 0 := wrap64_neg _ hc (by omega)
  have hn2 : ¬ num < 0 := by omega
  simp only [hn2, hs, if_true, if_false, hneg]

/-- `PrependBytesEnded` and `PrependBytes` are the same call: one keeps the state a fault
leaves behind, the other drops it. -/
theorem PrependBytes_eq_Ended (w : serializeBuffer) (num : Int) :
    serializeBuffer.PrependBytes w num = (serializeBuffer.PrependBytesEnded w num).toOption := by
  unfold serializeBuffer.PrependBytes serializeBuffer.PrependBytesEnded serializeBuffer.growFront
  by_cases hn : num < 0
  · simp only [hn, if_true, Ended.toOption]
  · simp only [hn, if_false]
    by_cases hs : w.start < num
    · simp only [hs, if_true]
      repeat' (first | rfl | split_ifs | simp only [Ended.toOption])
    · simp only [hs, if_false]
      repeat' (first | rfl | split_ifs)

/-- `AppendBytesEnded` and `AppendBytes` are the same call: one keeps the state a fault
leaves behind, the other drops it. -/
theorem AppendBytes_eq_Ended (w : serializeBuffer) (num : Int) :
    serializeBuffer.AppendBytes w num = (serializeBuffer.AppendBytesEnded w num).toOption := by
  unfold serializeBuffer.AppendBytes serializeBuffer.AppendBytesEnded serializeBuffer.growBack
  by_cases hn : num < 0
  · simp only [hn, if_true, Ended.toOption]
  · simp only [hn, if_false]
    by_cases hs : (w.data.length : Int) - (w.dataLen : Int) < num
    · simp only [hs, if_true]
      repeat' (first | rfl | split_ifs | simp only [Ended.toOption])
    · simp only [hs, if_false]
      repeat' (first | rfl | split_ifs)

theorem Ended_of_toOption {α : Type} (e : Ended α) (w1 : serializeBuffer) (r : α)
    (h : e.toOption = some (w1, r)) : e = Ended.returned w1 r := by
  cases e with
  | returned w2 r2 =>
    simp only [Ended.toOption, Option.some.injEq, Prod.mk.injEq] at h
    rw [h.1, h.2]
  | faulted w2 => simp [Ended.toOption] at h

/-- A reallocating `PrependBytes` that has returned has allocated a capacity within `int`. -/
theorem PrependBytes_fits (w w1 : serializeBuffer) (num : Int) (r : Window)
    (hi : serializeBuffer.Inv w) (hmax : num ≤ maxInt) (hs : w.start < num)
    (h : serializeBuffer.PrependBytes w num = some (w1, r)) :
    (w.data.length : Int) + (if w.prepended < num then num else w.prepended) ≤ maxInt := by
  by_contra hc
  rw [PrependBytes_eq_Ended, PrependBytesEnded_overflow w num hi hmax hs (not_le.mp hc)] at h
  simp [Ended.toOption] at h

/-- A reallocating `AppendBytes` that has returned has allocated a capacity within `int`. -/
theorem AppendBytes_fits (w w1 : serializeBuffer) (num : Int) (r : Window)
    (hi : serializeBuffer.Inv w) (hmax : num ≤ maxInt)
    (hs : (w.data.length : Int) - (w.dataLen : Int) < num)
    (h : serializeBuffer.AppendBytes w num = some (w1, r)) :
    (w.data.length : Int) + (if w.appended < num then num else w.appended) ≤ maxInt := by
  by_contra hc
  have hn := AppendBytes_nonneg w w1 num r h
  rw [AppendBytes_eq_Ended, AppendBytesEnded_overflow w num hi hn hmax hs (not_le.mp hc)] at h
  simp [Ended.toOption] at h

theorem Inv_PrependBytes (w w1 : serializeBuffer) (num : Int) (r : Window)
    (hi : serializeBuffer.Inv w) (hmax : num ≤ maxInt)
    (h : serializeBuffer.PrependBytes w num = some (w1, r)) :
    serializeBuffer.Inv w1 := by
  have hn := PrependBytes_nonneg w w1 num r h
  by_cases hs : w.start < num
  · have hfit := PrependBytes_fits w w1 num r hi hmax hs h
    rw [PrependBytes_realloc w num hs hi hfit] at h
    obtain ⟨h0, h1, h2, h3, h4, h5⟩ := hi
    have hw : w1 = _ := (Prod.mk.inj (Option.some.inj h)).1.symm
    subst hw
    have hlen := Bytes_length w h3
    unfold serializeBuffer.Inv
    simp only [List.length_append, List.length_replicate, hlen]
    generalize htp : (if w.prepended < num then num else w.prepended) = tp at hfit ⊢
    have htp_ge : num ≤ tp := by rw [← htp]; split_ifs <;> omega
    refine ⟨?_, ?_, ?_, ?_, ?_, ?_⟩ <;> omega
  · rw [PrependBytes_inplace w num hn (by omega) hi] at h
    obtain ⟨h0, h1, h2, h3, h4, h5⟩ := hi
    have hw : w1 = _ := (Prod.mk.inj (Option.some.inj h)).1.symm
    subst hw
    unfold serializeBuffer.Inv
    refine ⟨?_, ?_, ?_, ?_, ?_, ?_⟩ <;> simp only <;> omega

theorem Inv_AppendBytes (w w1 : serializeBuffer) (num : Int) (r : Window)
    (hi : serializeBuffer.Inv w) (hmax : num ≤ maxInt)
    (h : serializeBuffer.AppendBytes w num = some (w1, r)) :
    serializeBuffer.Inv w1 := by
  have hn := AppendBytes_nonneg w w1 num r h
  by_cases hs : (w.data.length : Int) - (w.dataLen : Int) < num
  · have hfit := AppendBytes_fits w w1 num r hi hmax hs h
    rw [AppendBytes_realloc w num hs hi hfit] at h
    obtain ⟨h0, h1, h2, h3, h4, h5⟩ := hi
    have hw : w1 = _ := (Prod.mk.inj (Option.some.inj h)).1.symm
    subst hw
    have hlen := Bytes_length w h3
    unfold serializeBuffer.Inv
    simp only [List.length_append, List.length_replicate, hlen]
    generalize hta : (if w.appended < num then num else w.appended) = ta at hfit ⊢
    have hta_ge : num ≤ ta := by rw [← hta]; split_ifs <;> omega
    have hwl := wrap64_le (w.appended + ta)
    refine ⟨?_, ?_, ?_, ?_, ?_, ?_⟩ <;> omega
  · rw [AppendBytes_inplace w num hn (by omega) hi] at h
    obtain ⟨h0, h1, h2, h3, h4, h5⟩ := hi
    have hw : w1 = _ := (Prod.mk.inj (Option.some.inj h)).1.symm
    subst hw
    unfold serializeBuffer.Inv
    refine ⟨?_, ?_, ?_, ?_, ?_, ?_⟩ <;> simp only <;> omega

theorem Inv_Clear (w w1 : serializeBuffer) (hi : serializeBuffer.Inv w)
    (h : serializeBuffer.Clear w = some w1) : serializeBuffer.Inv w1 := by
  obtain ⟨h0, h1, h2, h3, h4, h5⟩ := hi
  unfold serializeBuffer.Clear at h
  split_ifs at h with hc
  have hw : w1 = _ := (Option.some.inj h).symm
  subst hw
  unfold serializeBuffer.Inv
  refine ⟨?_, ?_, ?_, ?_, ?_, ?_⟩ <;> simp only <;> omega

/-- Every reachable buffer state satisfies the window invariant. -/
theorem Inv_of_Reachable (w : serializeBuffer) (hr : serializeBuffer.Reachable w) :
    serializeBuffer.Inv w := by
  induction hr with
  | new => unfold serializeBuffer.Inv NewSerializeBuffer maxInt; simp
  | sized p a w _ ha h =>
    unfold NewSerializeBufferExpectedSize at h
    dsimp only at h
    split_ifs at h with hc
    have hw : w = _ := (Option.some.inj h).symm
    subst hw
    have hwl := wrap64_le (p + a)
    unfold serializeBuffer.Inv
    simp only [List.length_replicate]
    refine ⟨?_, ?_, ?_, ?_, ?_, ?_⟩ <;> omega
  | prepend w w1 num r _ hmax h ih => exact Inv_PrependBytes w w1 num r ih hmax h
  | append w w1 num r _ hmax h ih => exact Inv_AppendBytes w w1 num r ih hmax h
  | clear w w1 _ h ih => exact Inv_Clear w w1 ih h
  | push w l _ ih => exact ih
  | write w cells _ hlen ih =>
    obtain ⟨h0, h1, h2, h3, h4, h5⟩ := ih
    exact ⟨h0, h1, h2, by simpa [hlen] using h3, by simpa [hlen] using h4, h5⟩

theorem take_zeros_window (p : Nat) (b c : List Byte) (m : Nat) (hm : m = p + b.length) :
    (List.replicate p (0 : Byte) ++ b ++ c).take m = List.replicate p 0 ++ b := by
  subst hm
  exact List.take_left' (by simp)

theorem drop_zeros_window (p k : Nat) (b : List Byte) (hk : k ≤ p) :
    (List.replicate p (0 : Byte) ++ b).drop (p - k) = List.replicate k 0 ++ b := by
  have hsplit : List.replicate p (0 : Byte) =
      List.replicate (p - k) 0 ++ List.replicate k 0 := by
    rw [← List.replicate_add]; congr 1; omega
  rw [hsplit, List.append_assoc]
  exact List.drop_left' (by simp)

/-- Content claims of `PrependBytes` from the window invariant, for a call that stays in place
or allocates a capacity within `int`. -/
theorem PrependBytes_window (w : serializeBuffer) (hi : serializeBuffer.Inv w) (n : Int)
    (hn : 0 ≤ n)
    (hfit : w.start < n →
      (w.data.length : Int) + (if w.prepended < n then n else w.prepended) ≤ maxInt) :
    ∃ w1 r b0 b1, serializeBuffer.PrependBytes w n = some (w1, r) ∧
      serializeBuffer.Bytes w = some b0 ∧ serializeBuffer.Bytes w1 = some b1 ∧
      r.size = n.toNat ∧ r.off = w1.start.toNat ∧ r.off + r.size ≤ w1.dataLen ∧
      (r.bytes w1).length = n.toNat ∧ b1.length = b0.length + n.toNat ∧
      b1.take n.toNat = r.bytes w1 ∧ b1.drop n.toNat = b0 := by
  have hi2 := hi
  obtain ⟨h0, h1, h2, h3, h4, h5⟩ := hi2
  have hb0 := Bytes_eq w h0 (by omega)
  have hlen := Bytes_length w h3
  by_cases hs : w.start < n
  · have hp := PrependBytes_realloc w n hs hi (hfit hs)
    generalize htp : (if w.prepended < n then n else w.prepended) = tp at hp
    have htp_ge : n ≤ tp := by rw [← htp]; split_ifs <;> omega
    have hk : n.toNat ≤ (w.start + tp).toNat := by omega
    have hoff : (w.start + tp - n).toNat = (w.start + tp).toNat - n.toNat := by omega
    have htake := take_zeros_window (w.start + tp).toNat
      ((w.data.take w.dataLen).drop w.start.toNat) (List.replicate (w.data.length - w.dataLen) 0)
      (tp + (w.dataLen : Int)).toNat (by rw [hlen]; omega)
    have hdrop := drop_zeros_window (w.start + tp).toNat n.toNat
      ((w.data.take w.dataLen).drop w.start.toNat) hk
    refine ⟨_, _, _, List.replicate n.toNat 0 ++ (w.data.take w.dataLen).drop w.start.toNat,
      hp, hb0, ?_, rfl, rfl, ?_, ?_, ?_, ?_, ?_⟩
    · rw [Bytes_eq _ (by simp only; omega) (by simp only; omega)]
      simp only
      rw [htake, hoff, hdrop]
    · simp only; omega
    · simp only [Window.bytes, hoff]
      rw [List.append_assoc, drop_zeros_window _ _ _ hk]
      rw [List.take_left' (by simp)]
      simp
    · simp only [List.length_append, List.length_replicate]; omega
    · simp only [Window.bytes, hoff]
      rw [List.append_assoc, drop_zeros_window _ _ _ hk]
      rw [List.take_left' (by simp), List.take_left' (by simp)]
    · exact List.drop_left' (by simp)
  · have hp := PrependBytes_inplace w n hn (by omega) hi
    have hoff : (w.start - n).toNat + n.toNat = w.start.toNat := by omega
    refine ⟨_, _, _, (w.data.take w.dataLen).drop (w.start - n).toNat, hp, hb0, ?_, rfl, rfl,
      ?_, ?_, ?_, ?_, ?_⟩
    · rw [Bytes_eq _ (by simp only; omega) (by simp only; omega)]
    · simp only; omega
    · simp only [Window.bytes, List.length_take, List.length_drop]; omega
    · simp only [List.length_take, List.length_drop]; omega
    · simp only [Window.bytes]
      rw [List.drop_take, List.take_take]
      congr 1
      omega
    · rw [List.drop_drop, hoff]


/-- Counterexample to C10 as stated: the buffer after `PrependBytes(1)` on a new buffer has
one cell of capacity; `PrependBytes(math.MaxInt64)` on it computes the new capacity
`1 + math.MaxInt64`, which wraps around to a negative length, and `make` faults: no slice is
returned although `n ≥ 0` and the state is reachable. -/
theorem C10_huge_length_counterexample :
    serializeBuffer.Reachable
        { data := [0], dataLen := 1, start := 0, prepended := 1, appended := 0, layers := [] } ∧
      (0 : Int) ≤ 9223372036854775807 ∧
      serializeBuffer.PrependBytes
        { data := [0], dataLen := 1, start := 0, prepended := 1, appended := 0, layers := [] }
        9223372036854775807 = none :=
  ⟨serializeBuffer.Reachable.prepend NewSerializeBuffer _ 1 { off := 0, size := 1 }
      serializeBuffer.Reachable.new (by decide) (by decide), by decide, by decide⟩

/-- C10, amended: for every reachable `serializeBuffer` state and every `n ≥ 0` such that
the call stays in place (`start ≥ n`) or the capacity it allocates,
`cap(data) + max(n, prepended)`, is at most `math.MaxInt64`, `PrependBytes(n)` returns (with a
nil error) a slice of length exactly `n`; afterwards `Bytes()` has the old length plus `n`,
its first `n` positions are exactly the returned slice (same offset in the backing array,
same content), and its remaining bytes equal the `Bytes()` from before the call, also when
the call reallocates. -/
theorem C10_PrependBytes_in_front (w : serializeBuffer) (hr : serializeBuffer.Reachable w)
    (n : Int) (hn : 0 ≤ n)
    (hfit : w.start < n → (w.data.length : Int) + max n w.prepended ≤ maxInt) :
    ∃ w1 r b0 b1, serializeBuffer.PrependBytes w n = some (w1, r) ∧
      serializeBuffer.Bytes w = some b0 ∧ serializeBuffer.Bytes w1 = some b1 ∧
      r.size = n.toNat ∧ r.off = w1.start.toNat ∧ r.off + r.size ≤ w1.dataLen ∧
      (r.bytes w1).length = n.toNat ∧ b1.length = b0.length + n.toNat ∧
      b1.take n.toNat = r.bytes w1 ∧ b1.drop n.toNat = b0 :=
  PrependBytes_window w (Inv_of_Reachable w hr) n hn
    (fun hs => by rw [ite_eq_max]; exact hfit hs)

/-- Witness for C10: a buffer created with two cells of front slack and one of back slack,
asked to prepend three bytes, which reallocates. -/
theorem C10_PrependBytes_in_front_witness :
    ∃ w1 r b0 b1,
      serializeBuffer.PrependBytes
        { data := [0, 0, 0], dataLen := 2, start := 2, prepended := 2, appended := 1,
          layers := [] } 3 = some (w1, r) ∧
      serializeBuffer.Bytes
        { data := [0, 0, 0], dataLen := 2, start := 2, prepended := 2, appended := 1,
          layers := [] } = some b0 ∧
      serializeBuffer.Bytes w1 = some b1 ∧
      r.size = (3 : Int).toNat ∧ r.off = w1.start.toNat ∧ r.off + r.size ≤ w1.dataLen ∧
      (r.bytes w1).length = (3 : Int).toNat ∧ b1.length = b0.length + (3 : Int).toNat ∧
      b1.take (3 : Int).toNat = r.bytes w1 ∧ b1.drop (3 : Int).toNat = b0 :=
  C10_PrependBytes_in_front
    { data := [0, 0, 0], dataLen := 2, start := 2, prepended := 2, appended := 1, layers := [] }
    (serializeBuffer.Reachable.sized 2 1 _ (by decide) (by decide) (by decide)) 3 (by decide)
    (fun _ => by decide)

/-! ### AppendBytes, Clear -/

theorem take_zeros_tail (p : Nat) (b : List Byte) (k m : Nat) (hk : k ≤ m) :
    (List.replicate p (0 : Byte) ++ b ++ List.replicate m 0).take (p + b.length + k) =
      List.replicate p 0 ++ b ++ List.replicate k 0 := by
  have hsplit : List.replicate m (0 : Byte) = List.replicate k 0 ++ List.replicate (m - k) 0 := by
    rw [← List.replicate_add]; congr 1; omega
  rw [hsplit, ← List.append_assoc]
  exact List.take_left' (by simp [Nat.add_assoc])

/-- Content claims of `AppendBytes` from the window invariant, for a call that stays in place
or allocates a capacity within `int`. -/
theorem AppendBytes_window (w : serializeBuffer) (hi : serializeBuffer.Inv w) (n : Int)
    (hn : 0 ≤ n)
    (hfit : (w.data.length : Int) - (w.dataLen : Int) < n →
      (w.data.length : Int) + (if w.appended < n then n else w.appended) ≤ maxInt) :
    ∃ w1 r b0 b1, serializeBuffer.AppendBytes w n = some (w1, r) ∧
      serializeBuffer.Bytes w = some b0 ∧ serializeBuffer.Bytes w1 = some b1 ∧
      r.size = n.toNat ∧ r.off = w.dataLen ∧ r.off + r.size = w1.dataLen ∧
      (r.bytes w1).length = n.toNat ∧ b1.length = b0.length + n.toNat ∧
      b1.take b0.length = b0 ∧ b1.drop b0.length = r.bytes w1 := by
  have hi2 := hi
  obtain ⟨h0, h1, h2, h3, h4, h5⟩ := hi2
  have hb0 := Bytes_eq w h0 (by omega)
  have hlen := Bytes_length w h3
  by_cases hs : (w.data.length : Int) - (w.dataLen : Int) < n
  · have hp := AppendBytes_realloc w n hs hi (hfit hs)
    have hfit2 := hfit hs
    generalize hta : (if w.appended < n then n else w.appended) = ta at hp hfit2
    have hta_ge : n ≤ ta := by rw [← hta]; split_ifs <;> omega
    have hM := maxInt_eq
    have hk : n.toNat ≤ ((w.data.length : Int) + ta).toNat - w.dataLen := by omega
    have htake := take_zeros_tail w.start.toNat ((w.data.take w.dataLen).drop w.start.toNat)
      n.toNat (((w.data.length : Int) + ta).toNat - w.dataLen) hk
    have hnew : ((w.dataLen : Int) + n).toNat =
        w.start.toNat + ((w.data.take w.dataLen).drop w.start.toNat).length + n.toNat := by
      rw [hlen]; omega
    have hold : w.dataLen =
        (List.replicate w.start.toNat (0 : Byte) ++
          (w.data.take w.dataLen).drop w.start.toNat).length := by
      rw [List.length_append, List.length_replicate, hlen]; omega
    have hdropw : (List.replicate w.start.toNat (0 : Byte) ++
          (w.data.take w.dataLen).drop w.start.toNat ++
          List.replicate (((w.data.length : Int) + ta).toNat - w.dataLen) 0).drop w.dataLen =
        List.replicate (((w.data.length : Int) + ta).toNat - w.dataLen) 0 :=
      List.drop_left' hold.symm
    refine ⟨_, _, _, (w.data.take w.dataLen).drop w.start.toNat ++ List.replicate n.toNat 0,
      hp, hb0, ?_, rfl, rfl, ?_, ?_, ?_, ?_, ?_⟩
    · rw [Bytes_eq _ (by simp only; omega) (by simp only; omega)]
      simp only
      rw [hnew, htake, List.append_assoc]
      rw [List.drop_left' (by simp)]
    · simp only; omega
    · simp only [Window.bytes]
      rw [hdropw, List.take_replicate, List.length_replicate]
      omega
    · simp only [List.length_append, List.length_replicate]
    · exact List.take_left' rfl
    · simp only [Window.bytes]
      rw [hdropw, List.take_replicate, List.drop_left' rfl]
      congr 1
      omega
  · have hp := AppendBytes_inplace w n hn (by omega) hi
    have hnew : ((w.dataLen : Int) + n).toNat = w.dataLen + n.toNat := by omega
    refine ⟨_, _, _, (w.data.take (w.dataLen + n.toNat)).drop w.start.toNat, hp, hb0, ?_, rfl,
      rfl, ?_, ?_, ?_, ?_, ?_⟩
    · rw [Bytes_eq _ (by simp only; omega) (by simp only; omega)]
      simp only [hnew]
    · simp only; omega
    · simp only [Window.bytes, List.length_take, List.length_drop]; omega
    · simp only [List.length_take, List.length_drop]; omega
    · rw [hlen, List.take_drop, List.take_take]
      congr 2
      omega
    · rw [hlen, List.drop_drop]
      simp only [Window.bytes]
      have hsum : w.start.toNat + (w.dataLen - w.start.toNat) = w.dataLen := by omega
      rw [hsum, List.drop_take]
      congr 1
      omega

/-- What `Clear` does to a buffer that satisfies the window invariant. -/
theorem Clear_eq (w : serializeBuffer) (hi : serializeBuffer.Inv w) :
    serializeBuffer.Clear w =
      some { w with start := w.prepended, dataLen := w.prepended.toNat, layers := [] } := by
  obtain ⟨h0, h1, h2, h3, h4, h5⟩ := hi
  have hc : 0 ≤ w.prepended ∧ w.prepended ≤ (w.data.length : Int) := by constructor <;> omega
  simp only [serializeBuffer.Clear, hc, and_self, if_true]

/-- Counterexample to C11 as stated: the buffer after `PrependBytes(1)` on a new buffer has
one cell of capacity and none free; `AppendBytes(math.MaxInt64)` on it computes the new
capacity `1 + math.MaxInt64`, which wraps around to a negative length, and `make` faults: no
slice is returned although `n ≥ 0` and the state is reachable. -/
theorem C11_huge_length_counterexample :
    serializeBuffer.Reachable
        { data := [0], dataLen := 1, start := 0, prepended := 1, appended := 0, layers := [] } ∧
      (0 : Int) ≤ 9223372036854775807 ∧
      serializeBuffer.AppendBytes
        { data := [0], dataLen := 1, start := 0, prepended := 1, appended := 0, layers := [] }
        9223372036854775807 = none :=
  ⟨serializeBuffer.Reachable.prepend NewSerializeBuffer _ 1 { off := 0, size := 1 }
      serializeBuffer.Reachable.new (by decide) (by decide), by decide, by decide⟩

/-- C11, amended: for every reachable `serializeBuffer` state and every `n ≥ 0` such that
the call stays in place (`cap(data) - len(data) ≥ n`) or the capacity it allocates,
`cap(data) + max(n, appended)`, is at most `math.MaxInt64`, `AppendBytes(n)` returns (with a
nil error) a slice of length exactly `n`; afterwards `Bytes()` has the old length plus `n`,
its first old-length bytes equal the `Bytes()` from before the call, and its last `n`
positions are exactly the returned slice (it starts at the old end of `w.data` and ends at
the new one, with the same content), also when the call reallocates. -/
theorem C11_AppendBytes_behind (w : serializeBuffer) (hr : serializeBuffer.Reachable w)
    (n : Int) (hn : 0 ≤ n)
    (hfit : (w.data.length : Int) - (w.dataLen : Int) < n →
      (w.data.length : Int) + max n w.appended ≤ maxInt) :
    ∃ w1 r b0 b1, serializeBuffer.AppendBytes w n = some (w1, r) ∧
      serializeBuffer.Bytes w = some b0 ∧ serializeBuffer.Bytes w1 = some b1 ∧
      r.size = n.toNat ∧ r.off = w.dataLen ∧ r.off + r.size = w1.dataLen ∧
      (r.bytes w1).length = n.toNat ∧ b1.length = b0.length + n.toNat ∧
      b1.take b0.length = b0 ∧ b1.drop b0.length = r.bytes w1 :=
  AppendBytes_window w (Inv_of_Reachable w hr) n hn
    (fun hs => by rw [ite_eq_max]; exact hfit hs)

/-- Witness for C11: a buffer created with two cells of front slack and one of back slack,
asked to append three bytes, which reallocates. -/
theorem C11_AppendBytes_behind_witness :
    ∃ w1 r b0 b1,
      serializeBuffer.AppendBytes
        { data := [0, 0, 0], dataLen := 2, start := 2, prepended := 2, appended := 1,
          layers := [] } 3 = some (w1, r) ∧
      serializeBuffer.Bytes
        { data := [0, 0, 0], dataLen := 2, start := 2, prepended := 2, appended := 1,
          layers := [] } = some b0 ∧
      serializeBuffer.Bytes w1 = some b1 ∧
      r.size = (3 : Int).toNat ∧ r.off = 2 ∧ r.off + r.size = w1.dataLen ∧
      (r.bytes w1).length = (3 : Int).toNat ∧ b1.length = b0.length + (3 : Int).toNat ∧
      b1.take b0.length = b0 ∧ b1.drop b0.length = r.bytes w1 :=
  C11_AppendBytes_behind
    { data := [0, 0, 0], dataLen := 2, start := 2, prepended := 2, appended := 1, layers := [] }
    (serializeBuffer.Reachable.sized 2 1 _ (by decide) (by decide) (by decide)) 3 (by decide)
    (fun _ => by decide)

/-- C13: for every reachable `serializeBuffer` state, `Clear()` returns (nil), and afterwards
`Bytes()` is empty, `Layers()` is empty, and the window start equals the prepend high-water
mark (`start = prepended`). -/
theorem C13_Clear_resets (w : serializeBuffer) (hr : serializeBuffer.Reachable w) :
    ∃ w1, serializeBuffer.Clear w = some w1 ∧ serializeBuffer.Bytes w1 = some [] ∧
      serializeBuffer.Layers w1 = [] ∧ w1.start = w1.prepended ∧ w1.prepended = w.prepended := by
  have hi := Inv_of_Reachable w hr
  obtain ⟨h0, h1, h2, h3, h4, h5⟩ := hi
  refine ⟨_, Clear_eq w ⟨h0, h1, h2, h3, h4, h5⟩, ?_, rfl, rfl, rfl⟩
  rw [Bytes_eq _ (by simp only; omega) (by simp only; omega)]
  simp only [Option.some.injEq, List.drop_eq_nil_iff, List.length_take]
  omega

/-- Witness for C13: the buffer after two bytes were prepended to a new buffer. -/
theorem C13_Clear_resets_witness :
    ∃ w1, serializeBuffer.Clear
        { data := [0, 0], dataLen := 2, start := 0, prepended := 2, appended := 0,
          layers := [] } = some w1 ∧
      serializeBuffer.Bytes w1 = some [] ∧
      serializeBuffer.Layers w1 = [] ∧ w1.start = w1.prepended ∧ w1.prepended = 2 :=
  C13_Clear_resets
    { data := [0, 0], dataLen := 2, start := 0, prepended := 2, appended := 0, layers := [] }
    (serializeBuffer.Reachable.prepend NewSerializeBuffer _ 2 { off := 0, size := 2 }
      serializeBuffer.Reachable.new (by decide) (by decide))

/-! ### Repeating a write sequence after `Clear` -/

theorem prependTotal_nonneg (s : List BufferWrite) (hs : ∀ op ∈ s, 0 ≤ op.num) :
    0 ≤ BufferWrite.prependTotal s := by
  induction s with
  | nil => simp [BufferWrite.prependTotal]
  | cons op rest ih =>
    have hop := hs op (List.mem_cons_self _ _)
    have hrest := ih (fun o ho => hs o (List.mem_cons_of_mem _ ho))
    cases op <;> simp only [BufferWrite.prependTotal, BufferWrite.num] at * <;> omega

theorem appendTotal_nonneg (s : List BufferWrite) (hs : ∀ op ∈ s, 0 ≤ op.num) :
    0 ≤ BufferWrite.appendTotal s := by
  induction s with
  | nil => simp [BufferWrite.appendTotal]
  | cons op rest ih =>
    have hop := hs op (List.mem_cons_self _ _)
    have hrest := ih (fun o ho => hs o (List.mem_cons_of_mem _ ho))
    cases op <;> simp only [BufferWrite.appendTotal, BufferWrite.num] at * <;> omega

/-- `PrependBytes` that has returned, from a state with the window invariant: the distance
from `start` to the mark `prepended` has grown by `num`, whichever branch was taken. -/
theorem PrependBytes_marks (w : serializeBuffer) (hi : serializeBuffer.Inv w) (num : Int)
    (hmax : num ≤ maxInt) (w1 : serializeBuffer) (r : Window)
    (h : serializeBuffer.PrependBytes w num = some (w1, r)) :
    serializeBuffer.Inv w1 ∧ 0 ≤ num ∧
      w1.prepended - w1.start = w.prepended - w.start + num ∧
      (w1.dataLen : Int) - w1.prepended = (w.dataLen : Int) - w.prepended := by
  have hi1 := Inv_PrependBytes w w1 num r hi hmax h
  have hn := PrependBytes_nonneg w w1 num r h
  refine ⟨hi1, hn, ?_⟩
  by_cases hs : w.start < num
  · have hfit := PrependBytes_fits w w1 num r hi hmax hs h
    rw [PrependBytes_realloc w num hs hi hfit] at h
    obtain ⟨h0, h1, h2, h3, h4, h5⟩ := hi
    have hw : w1 = _ := (Prod.mk.inj (Option.some.inj h)).1.symm
    subst hw
    simp only
    generalize htp : (if w.prepended < num then num else w.prepended) = tp at hfit ⊢
    have htp_ge : num ≤ tp := by rw [← htp]; split_ifs <;> omega
    constructor <;> omega
  · rw [PrependBytes_inplace w num hn (by omega) hi] at h
    have hw : w1 = _ := (Prod.mk.inj (Option.some.inj h)).1.symm
    subst hw
    constructor <;> first | rfl | (simp only; omega)

/-- `PrependBytes` that has returned leaves the slack behind the mark `prepended`,
`cap(data) - prepended`, as it was. -/
theorem PrependBytes_cap (w : serializeBuffer) (hi : serializeBuffer.Inv w) (num : Int)
    (hmax : num ≤ maxInt) (w1 : serializeBuffer) (r : Window)
    (h : serializeBuffer.PrependBytes w num = some (w1, r)) :
    (w1.data.length : Int) - w1.prepended = (w.data.length : Int) - w.prepended := by
  have hn := PrependBytes_nonneg w w1 num r h
  by_cases hs : w.start < num
  · have hfit := PrependBytes_fits w w1 num r hi hmax hs h
    rw [PrependBytes_realloc w num hs hi hfit] at h
    obtain ⟨h0, h1, h2, h3, h4, h5⟩ := hi
    have hw : w1 = _ := (Prod.mk.inj (Option.some.inj h)).1.symm
    subst hw
    have hlen := Bytes_length w h3
    simp only [List.length_append, List.length_replicate, hlen]
    generalize htp : (if w.prepended < num then num else w.prepended) = tp at hfit ⊢
    have htp_ge : num ≤ tp := by rw [← htp]; split_ifs <;> omega
    omega
  · rw [PrependBytes_inplace w num hn (by omega) hi] at h
    have hw : w1 = _ := (Prod.mk.inj (Option.some.inj h)).1.symm
    subst hw
    rfl

/-- `AppendBytes` that has returned, from a state with the window invariant: `len(data)` has
grown by `num` and `start` and `prepended` are as before. -/
theorem AppendBytes_marks (w : serializeBuffer) (hi : serializeBuffer.Inv w) (num : Int)
    (hmax : num ≤ maxInt) (w1 : serializeBuffer) (r : Window)
    (h : serializeBuffer.AppendBytes w num = some (w1, r)) :
    serializeBuffer.Inv w1 ∧ 0 ≤ num ∧
      w1.prepended - w1.start = w.prepended - w.start ∧
      (w1.dataLen : Int) - w1.prepended = (w.dataLen : Int) - w.prepended + num := by
  have hi1 := Inv_AppendBytes w w1 num r hi hmax h
  have hn := AppendBytes_nonneg w w1 num r h
  refine ⟨hi1, hn, ?_⟩
  by_cases hs : (w.data.length : Int) - (w.dataLen : Int) < num
  · have hfit := AppendBytes_fits w w1 num r hi hmax hs h
    rw [AppendBytes_realloc w num hs hi hfit] at h
    have hw : w1 = _ := (Prod.mk.inj (Option.some.inj h)).1.symm
    subst hw
    constructor <;> first | rfl | (simp only; omega)
  · rw [AppendBytes_inplace w num hn (by omega) hi] at h
    have hw : w1 = _ := (Prod.mk.inj (Option.some.inj h)).1.symm
    subst hw
    constructor <;> first | rfl | (simp only; omega)

/-- A whole write sequence that has returned, from a state with the window invariant:
afterwards the mark `prepended` is ahead of `start` by the bytes prepended, and `len(data)`
is ahead of the mark by the bytes appended, on top of what they were. -/
theorem runWrites_marks (s : List BufferWrite) (hs : ∀ op ∈ s, op.num ≤ maxInt) :
    ∀ w w1 : serializeBuffer, serializeBuffer.Inv w →
      serializeBuffer.runWrites s w = some w1 →
      serializeBuffer.Inv w1 ∧
        w1.prepended - w1.start = w.prepended - w.start + BufferWrite.prependTotal s ∧
        (w1.dataLen : Int) - w1.prepended =
          (w.dataLen : Int) - w.prepended + BufferWrite.appendTotal s := by
  induction s with
  | nil =>
    intro w w1 hi h
    simp only [serializeBuffer.runWrites, Option.some.injEq] at h
    subst h
    exact ⟨hi, by simp [BufferWrite.prependTotal], by simp [BufferWrite.appendTotal]⟩
  | cons op rest ih =>
    intro w w1 hi h
    have hop := hs op (List.mem_cons_self _ _)
    have hrest := ih (fun o ho => hs o (List.mem_cons_of_mem _ ho))
    cases op with
    | prepend num =>
      simp only [serializeBuffer.runWrites] at h
      cases hp : serializeBuffer.PrependBytes w num with
      | none => simp [hp] at h
      | some res =>
        obtain ⟨wm, r⟩ := res
        simp only [hp] at h
        obtain ⟨him, _, ha, hb⟩ := PrependBytes_marks w hi num hop wm r hp
        obtain ⟨hi2, hc, hd⟩ := hrest wm w1 him h
        refine ⟨hi2, ?_, ?_⟩
        · simp only [BufferWrite.prependTotal]; omega
        · simp only [BufferWrite.appendTotal]; omega
    | append num =>
      simp only [serializeBuffer.runWrites] at h
      cases hp : serializeBuffer.AppendBytes w num with
      | none => simp [hp] at h
      | some res =>
        obtain ⟨wm, r⟩ := res
        simp only [hp] at h
        obtain ⟨him, _, ha, hb⟩ := AppendBytes_marks w hi num hop wm r hp
        obtain ⟨hi2, hc, hd⟩ := hrest wm w1 him h
        refine ⟨hi2, ?_, ?_⟩
        · simp only [BufferWrite.prependTotal]; omega
        · simp only [BufferWrite.appendTotal]; omega

/-- A write sequence that fits the slack before and after the window runs without any
reallocation: the backing array and both marks are those of the start. -/
theorem runWrites_inplace (s : List BufferWrite) (hs : ∀ op ∈ s, 0 ≤ op.num) :
    ∀ w : serializeBuffer, serializeBuffer.Inv w →
      BufferWrite.prependTotal s ≤ w.start →
      BufferWrite.appendTotal s ≤ (w.data.length : Int) - (w.dataLen : Int) →
      ∃ w1, serializeBuffer.runWrites s w = some w1 ∧
        serializeBuffer.staysInPlace s w = true ∧ w1.data = w.data ∧
        w1.prepended = w.prepended ∧ w1.appended = w.appended := by
  induction s with
  | nil => intro w _ _ _; exact ⟨w, rfl, rfl, rfl, rfl, rfl⟩
  | cons op rest ih =>
    intro w hi hpre hsuf
    have hop := hs op (List.mem_cons_self _ _)
    have hrest := ih (fun o ho => hs o (List.mem_cons_of_mem _ ho))
    have hpn := prependTotal_nonneg rest (fun o ho => hs o (List.mem_cons_of_mem _ ho))
    have han := appendTotal_nonneg rest (fun o ho => hs o (List.mem_cons_of_mem _ ho))
    have hi2 := hi
    obtain ⟨h0, h1, h2, h3, h4, h5⟩ := hi2
    cases op with
    | prepend num =>
      simp only [BufferWrite.prependTotal, BufferWrite.appendTotal, BufferWrite.num] at *
      have hp := PrependBytes_inplace w num hop (by omega) hi
      have hi1 := Inv_PrependBytes w _ num _ hi (by omega) hp
      obtain ⟨w2, hrun, hstay, hd, hpp, hap⟩ := hrest _ hi1 (by simp only; omega)
        (by simp only; omega)
      have hle : num ≤ w.start := by omega
      refine ⟨w2, by simp only [serializeBuffer.runWrites, hp, hrun], ?_, hd, hpp, hap⟩
      simp only [serializeBuffer.staysInPlace, hp, hstay, hle, decide_True, Bool.and_self]
    | append num =>
      simp only [BufferWrite.prependTotal, BufferWrite.appendTotal, BufferWrite.num] at *
      have hp := AppendBytes_inplace w num hop (by omega) hi
      have hi1 := Inv_AppendBytes w _ num _ hi (by omega) hp
      obtain ⟨w2, hrun, hstay, hd, hpp, hap⟩ := hrest _ hi1 (by simp only; omega)
        (by simp only; omega)
      have hle : num ≤ (w.data.length : Int) - (w.dataLen : Int) := by omega
      refine ⟨w2, by simp only [serializeBuffer.runWrites, hp, hrun], ?_, hd, hpp, hap⟩
      simp only [serializeBuffer.staysInPlace, hp, hstay, hle, decide_True, Bool.and_self]

/-- C12: for every reachable `serializeBuffer` state and every finite sequence `s` of
`PrependBytes`/`AppendBytes` calls with non-negative sizes (values of `int`), after `Clear()`
then `s` have run once, to the state `w1`, `Clear()` then `s` run again return and take the
reallocating branch in no call (`start ≥ n` at every `PrependBytes(n)`,
`cap(data) - len(data) ≥ n` at every `AppendBytes(n)`): the second pass leaves the backing
array, hence its capacity, and both high-water marks as the first pass left them. -/
theorem C12_repeat_after_Clear_in_place (w : serializeBuffer)
    (hr : serializeBuffer.Reachable w) (s : List BufferWrite)
    (hs : ∀ op ∈ s, 0 ≤ op.num ∧ op.num ≤ maxInt) (w1 : serializeBuffer)
    (hfirst : (serializeBuffer.Clear w).bind (serializeBuffer.runWrites s) = some w1) :
    ∃ w2 w3, serializeBuffer.Clear w1 = some w2 ∧
      serializeBuffer.runWrites s w2 = some w3 ∧
      serializeBuffer.staysInPlace s w2 = true ∧
      w3.data = w1.data ∧ w3.data.length = w1.data.length ∧
      w3.prepended = w1.prepended ∧ w3.appended = w1.appended := by
  have hi := Inv_of_Reachable w hr
  have hc0 := Clear_eq w hi
  have hi0 := Inv_Clear w _ hi hc0
  rw [hc0, Option.some_bind] at hfirst
  obtain ⟨hi1, ha, hb⟩ := runWrites_marks s (fun op ho => (hs op ho).2) _ w1 hi0 hfirst
  have hc1 := Clear_eq w1 hi1
  have hi2 := Inv_Clear w1 _ hi1 hc1
  simp only at ha hb
  obtain ⟨g0, g1, g2, g3, g4, g5⟩ := hi1
  obtain ⟨f0, f1, f2, f3, f4, f5⟩ := hi
  obtain ⟨w3, hrun2, hstay, hd, hpp, hap⟩ := runWrites_inplace s (fun op ho => (hs op ho).1) _ hi2
    (by simp only; omega) (by simp only; omega)
  exact ⟨_, w3, hc1, hrun2, hstay, hd, by rw [hd], hpp, hap⟩

/-- Witness for C12: from a new buffer, prepend 2, append 3, prepend 1; the first pass
reallocates three times and ends with seven cells, the second pass reallocates not at all. -/
theorem C12_repeat_after_Clear_in_place_witness :
    ∃ w2 w3, serializeBuffer.Clear
        { data := [0, 0, 0, 0, 0, 0, 0], dataLen := 7, start := 1, prepended := 4,
          appended := 3, layers := [] } = some w2 ∧
      serializeBuffer.runWrites [.prepend 2, .append 3, .prepend 1] w2 = some w3 ∧
      serializeBuffer.staysInPlace [.prepend 2, .append 3, .prepend 1] w2 = true ∧
      w3.data = [0, 0, 0, 0, 0, 0, 0] ∧ w3.data.length = 7 ∧
      w3.prepended = 4 ∧ w3.appended = 3 :=
  C12_repeat_after_Clear_in_place NewSerializeBuffer serializeBuffer.Reachable.new
    [.prepend 2, .append 3, .prepend 1] (by decide)
    { data := [0, 0, 0, 0, 0, 0, 0], dataLen := 7, start := 1, prepended := 4,
      appended := 3, layers := [] } (by decide)

/-! ### Faults of `PrependBytes` and `AppendBytes` -/

/-- Counterexample to C14 as stated: on the one-cell buffer left by `PrependBytes(1)` on a new
buffer, `PrependBytes(math.MaxInt64)` and `AppendBytes(math.MaxInt64)` fault although
`n ≥ 0`, and the fault leaves a changed state behind: the mark `prepended` has wrapped around
to `math.MinInt64`, the mark `appended` has become `math.MaxInt64`. -/
theorem C14_huge_length_counterexample :
    serializeBuffer.Reachable
        { data := [0], dataLen := 1, start := 0, prepended := 1, appended := 0, layers := [] } ∧
      (0 : Int) ≤ 9223372036854775807 ∧
      serializeBuffer.PrependBytesEnded
          { data := [0], dataLen := 1, start := 0, prepended := 1, appended := 0, layers := [] }
          9223372036854775807 =
        Ended.faulted
          { data := [0], dataLen := 1, start := 0, prepended := -9223372036854775808,
            appended := 0, layers := [] } ∧
      serializeBuffer.AppendBytesEnded
          { data := [0], dataLen := 1, start := 0, prepended := 1, appended := 0, layers := [] }
          9223372036854775807 =
        Ended.faulted
          { data := [0], dataLen := 1, start := 0, prepended := 1,
            appended := 9223372036854775807, layers := [] } :=
  ⟨serializeBuffer.Reachable.prepend NewSerializeBuffer _ 1 { off := 0, size := 1 }
      serializeBuffer.Reachable.new (by decide) (by decide), by decide, by decide, by decide⟩

/-- C14, amended: for every reachable buffer state and every `n`: if `n < 0`,
`PrependBytes(n)` and `AppendBytes(n)` fault and leave the buffer state unchanged; if `n ≥ 0`
and the call stays in place or allocates a capacity `cap(data) + max(n, mark)` of at most
`math.MaxInt64`, it returns (with a nil error); if `0 ≤ n ≤ math.MaxInt64` and the call
reallocates with `cap(data) + max(n, mark)` beyond `math.MaxInt64`, it faults in `make`, and
the state it leaves has the mark (`prepended`, `appended`) changed. -/
theorem C14_negative_length_faults (w : serializeBuffer) (hr : serializeBuffer.Reachable w)
    (n : Int) :
    (n < 0 → serializeBuffer.PrependBytesEnded w n = Ended.faulted w ∧
        serializeBuffer.AppendBytesEnded w n = Ended.faulted w) ∧
    (0 ≤ n → (w.start < n → (w.data.length : Int) + max n w.prepended ≤ maxInt) →
        ∃ w1 r, serializeBuffer.PrependBytesEnded w n = Ended.returned w1 r) ∧
    (0 ≤ n → ((w.data.length : Int) - (w.dataLen : Int) < n →
          (w.data.length : Int) + max n w.appended ≤ maxInt) →
        ∃ w1 r, serializeBuffer.AppendBytesEnded w n = Ended.returned w1 r) ∧
    (n ≤ maxInt → w.start < n → maxInt < (w.data.length : Int) + max n w.prepended →
        serializeBuffer.PrependBytesEnded w n =
          Ended.faulted { w with prepended := wrap64 (w.prepended + max n w.prepended) }) ∧
    (0 ≤ n → n ≤ maxInt → (w.data.length : Int) - (w.dataLen : Int) < n →
        maxInt < (w.data.length : Int) + max n w.appended →
        serializeBuffer.AppendBytesEnded w n =
          Ended.faulted { w with appended := wrap64 (w.appended + max n w.appended) }) := by
  have hi := Inv_of_Reachable w hr
  refine ⟨?_, ?_, ?_, ?_, ?_⟩
  · intro hn
    simp only [serializeBuffer.PrependBytesEnded, serializeBuffer.AppendBytesEnded, hn, if_true,
      and_self]
  · intro hn hfit
    obtain ⟨w1, r, _, _, hp, _⟩ := PrependBytes_window w hi n hn
      (fun hs => by rw [ite_eq_max]; exact hfit hs)
    rw [PrependBytes_eq_Ended] at hp
    exact ⟨w1, r, Ended_of_toOption _ w1 r hp⟩
  · intro hn hfit
    obtain ⟨w1, r, _, _, ha, _⟩ := AppendBytes_window w hi n hn
      (fun hs => by rw [ite_eq_max]; exact hfit hs)
    rw [AppendBytes_eq_Ended] at ha
    exact ⟨w1, r, Ended_of_toOption _ w1 r ha⟩
  · intro hmax hs hc
    rw [← ite_eq_max] at hc ⊢
    exact PrependBytesEnded_overflow w n hi hmax hs hc
  · intro hn hmax hs hc
    rw [← ite_eq_max] at hc ⊢
    exact AppendBytesEnded_overflow w n hi hn hmax hs hc

/-- Witness for C14: a buffer after two bytes were prepended, with `n = -1` and `n = 3`. -/
theorem C14_negative_length_faults_witness :
    (serializeBuffer.PrependBytesEnded
          { data := [0, 0], dataLen := 2, start := 0, prepended := 2, appended := 0,
            layers := [] } (-1) =
        Ended.faulted
          { data := [0, 0], dataLen := 2, start := 0, prepended := 2, appended := 0,
            layers := [] } ∧
      serializeBuffer.AppendBytesEnded
          { data := [0, 0], dataLen := 2, start := 0, prepended := 2, appended := 0,
            layers := [] } (-1) =
        Ended.faulted
          { data := [0, 0], dataLen := 2, start := 0, prepended := 2, appended := 0,
            layers := [] }) ∧
    ((∃ w1 r, serializeBuffer.PrependBytesEnded
          { data := [0, 0], dataLen := 2, start := 0, prepended := 2, appended := 0,
            layers := [] } 3 = Ended.returned w1 r) ∧
      (∃ w1 r, serializeBuffer.AppendBytesEnded
          { data := [0, 0], dataLen := 2, start := 0, prepended := 2, appended := 0,
            layers := [] } 3 = Ended.returned w1 r)) :=
  ⟨(C14_negative_length_faults _
      (serializeBuffer.Reachable.prepend NewSerializeBuffer _ 2 { off := 0, size := 2 }
        serializeBuffer.Reachable.new (by decide) (by decide)) (-1)).1 (by decide),
   (C14_negative_length_faults _
      (serializeBuffer.Reachable.prepend NewSerializeBuffer _ 2 { off := 0, size := 2 }
        serializeBuffer.Reachable.new (by decide) (by decide)) 3).2.1 (by decide)
      (fun _ => by decide),
   (C14_negative_length_faults _
      (serializeBuffer.Reachable.prepend NewSerializeBuffer _ 2 { off := 0, size := 2 }
        serializeBuffer.Reachable.new (by decide) (by decide)) 3).2.2.1 (by decide)
      (fun _ => by decide)⟩

/-! ### `SerializeLayers` on payload layers -/

theorem growFront_layers (w w1 : serializeBuffer) (num : Int)
    (h : serializeBuffer.growFront w num = some w1) : w1.layers = w.layers := by
  unfold serializeBuffer.growFront at h
  simp only at h
  split_ifs at h
  all_goals (cases h; rfl)

/-- `PrependBytes` never touches the recorded layers. -/
theorem PrependBytes_layers (w w1 : serializeBuffer) (num : Int) (r : Window)
    (h : serializeBuffer.PrependBytes w num = some (w1, r)) : w1.layers = w.layers := by
  unfold serializeBuffer.PrependBytes at h
  by_cases hn : num < 0
  · simp only [hn, if_true] at h
    cases h
  · simp only [hn, if_false] at h
    by_cases hs : w.start < num
    · simp only [hs, if_true] at h
      cases hg : serializeBuffer.growFront w num with
      | none => rw [hg] at h; cases h
      | some w2 =>
        rw [hg] at h
        simp only at h
        split_ifs at h
        cases h
        exact growFront_layers w w2 num hg
    · simp only [hs, if_false] at h
      split_ifs at h
      cases h
      rfl

/-- `copy(bytes, src)` into a returned slice of the same length as `src`, lying inside the
backing array, replaces exactly the cells of that slice. -/
theorem copyFrom_data (r : Window) (w : serializeBuffer) (src : List Byte)
    (hin : r.off + r.size ≤ w.data.length) (hlen : src.length = r.size) :
    (r.copyFrom w src).data = w.data.take r.off ++ src ++ w.data.drop (r.off + r.size) := by
  unfold Window.copyFrom goCopy
  have hb : (r.bytes w).length = r.size := by
    simp only [Window.bytes, List.length_take, List.length_drop]; omega
  simp only [hb, Nat.sub_zero, hlen, Nat.min_self, List.take_zero, List.nil_append, Nat.zero_add]
  rw [← hlen, List.take_length]
  have hd : (r.bytes w).drop src.length = [] := by
    rw [List.drop_eq_nil_iff]; omega
  rw [hd, List.append_nil]

/-- `Payload.SerializeTo` on a buffer with the window invariant, when `PrependBytes` stays in
place or allocates a capacity within `int`: it returns a nil error, puts the payload in front
of the bytes the buffer held, and leaves the recorded layers alone; the slack behind the mark
`prepended` stays and the distance from `start` to the mark grows by the payload. -/
theorem Payload_SerializeTo_spec (p : Payload) (w : serializeBuffer) (opts : SerializeOptions)
    (hi : serializeBuffer.Inv w)
    (hfit : w.start < (p.length : Int) → (w.data.length : Int) +
      (if w.prepended < (p.length : Int) then (p.length : Int) else w.prepended) ≤ maxInt) :
    ∃ w1 b0, Payload.SerializeTo p w opts = some (w1, none) ∧ serializeBuffer.Inv w1 ∧
      serializeBuffer.Bytes w = some b0 ∧ serializeBuffer.Bytes w1 = some (p ++ b0) ∧
      w1.layers = w.layers ∧
      (w1.data.length : Int) - w1.prepended = (w.data.length : Int) - w.prepended ∧
      w1.prepended - w1.start = w.prepended - w.start + (p.length : Int) := by
  obtain ⟨w1, r, b0, b1, hp, hb0, hb1, hsize, hoff, hin, _, _, _, hdrop⟩ :=
    PrependBytes_window w hi (p.length : Int) (by omega) hfit
  have hpmax : (p.length : Int) ≤ maxInt := by
    have hM := maxInt_eq
    obtain ⟨f0, f1, f2, f3, f4, f5⟩ := hi
    by_cases hs : w.start < (p.length : Int)
    · have := hfit hs
      split_ifs at this <;> omega
    · omega
  have hi1 := Inv_PrependBytes w w1 _ r hi hpmax hp
  have hlay := PrependBytes_layers w w1 _ r hp
  obtain ⟨_, _, hmark, _⟩ := PrependBytes_marks w hi _ hpmax w1 r hp
  have hcap := PrependBytes_cap w hi _ hpmax w1 r hp
  obtain ⟨g0, g1, g2, g3, g4, g5⟩ := hi1
  have hsz : p.length = r.size := by rw [hsize]; omega
  have hin2 : r.off + r.size ≤ w1.data.length := by omega
  have hdata := copyFrom_data r w1 p hin2 hsz
  have hb1' := Bytes_eq w1 g0 (by omega)
  rw [hb1] at hb1'
  have hb1eq : b1 = (w1.data.take w1.dataLen).drop w1.start.toNat := Option.some.inj hb1'
  have hdlen : (r.copyFrom w1 p).data.length = w1.data.length := by
    rw [hdata]
    simp only [List.length_append, List.length_take, List.length_drop]
    omega
  refine ⟨r.copyFrom w1 p, b0, ?_, ?_, hb0, ?_, ?_, ?_, ?_⟩
  · simp only [Payload.SerializeTo, hp]
  · refine ⟨g0, g1, g2, ?_, ?_, g5⟩
    · show w1.dataLen ≤ (r.copyFrom w1 p).data.length
      rw [hdlen]; exact g3
    · show ((r.copyFrom w1 p).data.length : Int) ≤ maxInt
      rw [hdlen]; exact g4
  · have hst : (r.copyFrom w1 p).start = w1.start := rfl
    have hdl : (r.copyFrom w1 p).dataLen = w1.dataLen := rfl
    rw [Bytes_eq _ (by rw [hst]; exact g0) (by rw [hst, hdl]; omega), hst, hdl, hdata]
    have hoff2 : w1.start.toNat = r.off := hoff.symm
    rw [hoff2]
    have htk : (w1.data.take r.off ++ p ++ w1.data.drop (r.off + r.size)).take w1.dataLen =
        w1.data.take r.off ++ (p ++ (w1.data.drop (r.off + r.size)).take
          (w1.dataLen - (r.off + r.size))) := by
      rw [List.append_assoc, List.take_append_eq_append_take, List.take_append_eq_append_take]
      simp only [List.length_take]
      have e1 : min r.off w1.data.length = r.off := by omega
      rw [e1, List.take_take]
      have e2 : min w1.dataLen r.off = r.off := by omega
      have e3 : w1.dataLen - r.off - p.length = w1.dataLen - (r.off + r.size) := by omega
      rw [e2, e3, List.take_of_length_le (l := p) (by omega)]
    rw [htk, List.drop_left' (by simp only [List.length_take]; omega)]
    congr 2
    rw [← hdrop, hb1eq, hoff2, List.drop_drop, ← List.drop_take]
    congr 2
  · exact hlay
  · show ((r.copyFrom w1 p).data.length : Int) - w1.prepended = _
    rw [hdlen]; exact hcap
  · exact hmark

/-- The loop of `SerializeLayers` over payload layers (`qs` in processing order), when the
slack behind the mark `prepended` plus twice the bytes in front of the mark and still to
come is within `int`: it returns a nil error, and the buffer then holds the payloads, last
processed first, in front of what it held. -/
theorem loop_payloads (opts : SerializeOptions) (T : LayerType) (qs : List Payload) :
    ∀ (ls : List (Nat × SerializableLayer)) (w : serializeBuffer) (b : List Byte)
      (log : List SerializeEvent),
      ls.map Prod.snd = qs.map (Payload.layer T) → serializeBuffer.Inv w →
      serializeBuffer.Bytes w = some b →
      (w.data.length : Int) - w.prepended +
        2 * (w.prepended - w.start + (qs.flatten.length : Int)) ≤ maxInt →
      ∃ w1 log1, SerializeLayers.loop opts ls w log = some (w1, none, log1) ∧
        serializeBuffer.Inv w1 ∧ serializeBuffer.Bytes w1 = some (qs.reverse.flatten ++ b) ∧
        w1.layers = w.layers ++ List.replicate qs.length T := by
  induction qs with
  | nil =>
    intro ls w b log hls hi hb _
    cases ls with
    | nil => exact ⟨w, log, rfl, hi, by simpa using hb, by simp⟩
    | cons x xs => simp at hls
  | cons q qs ih =>
    intro ls w b log hls hi hb hsize
    cases ls with
    | nil => simp at hls
    | cons x xs =>
      obtain ⟨i, layer⟩ := x
      simp only [List.map_cons, List.cons.injEq] at hls
      obtain ⟨hl, hrest⟩ := hls
      have hsize2 : (w.data.length : Int) - w.prepended +
          2 * (w.prepended - w.start + ((q.length : Int) + (qs.flatten.length : Int))) ≤
            maxInt := by
        simpa only [List.flatten_cons, List.length_append, Nat.cast_add] using hsize
      have hfit : w.start < (q.length : Int) → (w.data.length : Int) +
          (if w.prepended < (q.length : Int) then (q.length : Int) else w.prepended) ≤
            maxInt := by
        intro hs
        obtain ⟨f0, f1, f2, f3, f4, f5⟩ := hi
        split_ifs <;> omega
      obtain ⟨w1, b0, hser, hi1, hb0, hb1, hlay, hcap, hmark⟩ :=
        Payload_SerializeTo_spec q w opts hi hfit
      rw [hb] at hb0
      have hbb : b = b0 := Option.some.inj hb0
      subst hbb
      have hi2 : serializeBuffer.Inv (serializeBuffer.PushLayer w1 layer.LayerType) := hi1
      have hb2 : serializeBuffer.Bytes (serializeBuffer.PushLayer w1 layer.LayerType) =
          some (q ++ b) := hb1
      have hsize3 : ((serializeBuffer.PushLayer w1 layer.LayerType).data.length : Int) -
          (serializeBuffer.PushLayer w1 layer.LayerType).prepended +
          2 * ((serializeBuffer.PushLayer w1 layer.LayerType).prepended -
            (serializeBuffer.PushLayer w1 layer.LayerType).start +
            (qs.flatten.length : Int)) ≤ maxInt := by
        show (w1.data.length : Int) - w1.prepended +
          2 * (w1.prepended - w1.start + (qs.flatten.length : Int)) ≤ maxInt
        omega
      obtain ⟨w3, log3, hloop, hi3, hb3, hlay3⟩ := ih xs _ (q ++ b)
        (log ++ [.serializeTo i, .pushLayer i]) hrest hi2 hb2 hsize3
      have hser2 : layer.SerializeTo w opts = some (w1, none) := by
        rw [hl]; exact hser
      refine ⟨w3, log3, ?_, hi3, ?_, ?_⟩
      · simp only [SerializeLayers.loop, hser2, hloop]
      · rw [hb3]
        simp only [List.reverse_cons, List.flatten_append, List.flatten_cons, List.flatten_nil,
          List.append_nil, List.append_assoc]
      · rw [hlay3]
        have hT : layer.LayerType = T := by rw [hl]; rfl
        simp only [serializeBuffer.PushLayer, hlay, hT, List.length_cons, List.append_assoc,
          List.singleton_append]
        rw [List.replicate_succ]

theorem enum_reverse_snd {α : Type} (l : List α) : l.enum.reverse.map Prod.snd = l.reverse := by
  rw [List.map_reverse, List.enum_map_snd]

/-- `SerializeLayers` on payload layers, from any reachable buffer whose capacity plus twice
the number of payload bytes is within `int`. -/
theorem SerializeLayers_payloads (w : serializeBuffer)
    (hr : serializeBuffer.Reachable w) (opts : SerializeOptions) (T : LayerType)
    (ps : List Payload)
    (hsize : (w.data.length : Int) + 2 * (ps.flatten.length : Int) ≤ maxInt) :
    ∃ w1 log, SerializeLayers w opts (ps.map (Payload.layer T)) = some (w1, none, log) ∧
      serializeBuffer.Bytes w1 = some ps.flatten ∧
      serializeBuffer.Layers w1 = List.replicate ps.length T := by
  have hi := Inv_of_Reachable w hr
  have hc := Clear_eq w hi
  have hi0 := Inv_Clear w _ hi hc
  obtain ⟨h0, h1, h2, h3, h4, h5⟩ := hi
  have hb0 : serializeBuffer.Bytes
      { w with start := w.prepended, dataLen := w.prepended.toNat, layers := [] } = some [] := by
    rw [Bytes_eq _ (by simp only; omega) (by simp only; omega)]
    simp only [Option.some.injEq, List.drop_eq_nil_iff, List.length_take]
    omega
  obtain ⟨w1, log, hloop, _, hb, hl⟩ := loop_payloads opts T ps.reverse
    (ps.map (Payload.layer T)).enum.reverse _ [] []
    (by rw [enum_reverse_snd, List.map_reverse]) hi0 hb0
    (by
      have hlen : ps.reverse.flatten.length = ps.flatten.length := by
        simp only [List.length_flatten, List.map_reverse, List.sum_reverse]
      rw [hlen]
      simp only
      omega)
  refine ⟨w1, log, ?_, ?_, ?_⟩
  · simp only [SerializeLayers, hc, hloop]
  · rw [hb, List.reverse_reverse, List.append_nil]
  · simp only [serializeBuffer.Layers, hl, List.nil_append, List.length_reverse]

/-- C15: for every reachable buffer state (whatever it holds) and every list of `Payload`
values, `SerializeLayers` returns a nil error and afterwards `Bytes()` is the concatenation
of the payloads in list order, with nothing left over from the earlier content. The buffer
and the payloads are slices that exist together: the capacity of the buffer plus twice the
number of payload bytes, which bounds every capacity the call allocates, is within `int`. -/
theorem C15_SerializeLayers_payloads_wrap (w : serializeBuffer)
    (hr : serializeBuffer.Reachable w) (opts : SerializeOptions) (LayerTypePayload : LayerType)
    (ps : List Payload)
    (hsize : (w.data.length : Int) + 2 * (ps.flatten.length : Int) ≤ maxInt) :
    ∃ w1 log, SerializeLayers w opts (ps.map (Payload.layer LayerTypePayload)) =
        some (w1, none, log) ∧
      serializeBuffer.Bytes w1 = some ps.flatten := by
  obtain ⟨w1, log, h1, h2, _⟩ := SerializeLayers_payloads w hr opts LayerTypePayload ps hsize
  exact ⟨w1, log, h1, h2⟩

/-- Witness for C15: a buffer that holds two bytes, and the payloads `[1, 2]` and `[3]`. -/
theorem C15_SerializeLayers_payloads_wrap_witness :
    ∃ w1 log, SerializeLayers
        { data := [9, 9], dataLen := 2, start := 0, prepended := 2, appended := 0, layers := [] }
        { FixLengths := false, ComputeChecksums := false }
        ([[1, 2], [3]].map (Payload.layer 2)) = some (w1, none, log) ∧
      serializeBuffer.Bytes w1 = some [[1, 2], [3]].flatten :=
  C15_SerializeLayers_payloads_wrap
    { data := [9, 9], dataLen := 2, start := 0, prepended := 2, appended := 0, layers := [] }
    (serializeBuffer.Reachable.write
      { data := [0, 0], dataLen := 2, start := 0, prepended := 2, appended := 0, layers := [] }
      [9, 9]
      (serializeBuffer.Reachable.prepend NewSerializeBuffer _ 2 { off := 0, size := 2 }
        serializeBuffer.Reachable.new (by decide) (by decide)) (by decide))
    { FixLengths := false, ComputeChecksums := false } 2 [[1, 2], [3]] (by decide)

/-! ### `SerializeLayers` on arbitrary layers -/

/-- The calls `SerializeLayers` makes for the layers `ls` when none fails. -/
theorem loop_allSucceed (opts : SerializeOptions) (ls : List (Nat × SerializableLayer)) :
    ∀ (w : serializeBuffer) (log : List SerializeEvent),
      SerializeLayers.allSucceed opts ls w = true →
      ∃ w1, SerializeLayers.loop opts ls w log =
          some (w1, none, log ++ (ls.map (fun x =>
            [SerializeEvent.serializeTo x.1, SerializeEvent.pushLayer x.1])).flatten) ∧
        ((∀ x ∈ ls, x.2.KeepsLayers) →
          w1.layers = w.layers ++ ls.map (fun x => x.2.LayerType)) := by
  induction ls with
  | nil => intro w log _; exact ⟨w, by simp [SerializeLayers.loop], fun _ => by simp⟩
  | cons x xs ih =>
    intro w log hall
    obtain ⟨i, layer⟩ := x
    unfold SerializeLayers.allSucceed at hall
    cases hser : layer.SerializeTo w opts with
    | none => rw [hser] at hall; cases hall
    | some res =>
      obtain ⟨w1, err⟩ := res
      cases err with
      | some e => rw [hser] at hall; cases hall
      | none =>
        rw [hser] at hall
        obtain ⟨w2, hloop, hlay⟩ := ih (serializeBuffer.PushLayer w1 layer.LayerType)
          (log ++ [.serializeTo i, .pushLayer i]) hall
        refine ⟨w2, ?_, ?_⟩
        · simp only [SerializeLayers.loop, hser, hloop, List.map_cons, List.flatten_cons,
            List.append_assoc]
        · intro hkeep
          rw [hlay (fun y hy => hkeep y (List.mem_cons_of_mem _ hy))]
          have hk := hkeep (i, layer) (List.mem_cons_self _ _) w opts w1 none hser
          simp only [serializeBuffer.PushLayer, hk, List.map_cons, List.append_assoc,
            List.singleton_append]

/-- The loop over `a ++ b` goes on with `b` from where the loop over `a` ends without error. -/
theorem loop_append (opts : SerializeOptions) (a b : List (Nat × SerializableLayer)) :
    ∀ (w w1 : serializeBuffer) (log log1 : List SerializeEvent),
      SerializeLayers.loop opts a w log = some (w1, none, log1) →
      SerializeLayers.loop opts (a ++ b) w log = SerializeLayers.loop opts b w1 log1 := by
  induction a with
  | nil =>
    intro w w1 log log1 h
    simp only [SerializeLayers.loop, Option.some.injEq, Prod.mk.injEq, true_and] at h
    rw [List.nil_append, h.1, h.2]
  | cons x xs ih =>
    intro w w1 log log1 h
    obtain ⟨i, layer⟩ := x
    simp only [List.cons_append, SerializeLayers.loop] at h ⊢
    cases hser : layer.SerializeTo w opts with
    | none => rw [hser] at h; cases h
    | some res =>
      obtain ⟨w2, err⟩ := res
      cases err with
      | some e => rw [hser] at h; simp at h
      | none =>
        rw [hser] at h
        simp only at h ⊢
        exact ih _ _ _ _ h

/-- Every call recorded by the loop is about a layer of the list it was given. -/
theorem loop_log (opts : SerializeOptions) (ls : List (Nat × SerializableLayer)) :
    ∀ (w w1 : serializeBuffer) (err : Option GoError) (log log1 : List SerializeEvent),
      SerializeLayers.loop opts ls w log = some (w1, err, log1) →
      ∃ add, log1 = log ++ add ∧ ∀ ev ∈ add, ∃ x ∈ ls, ev.index = x.1 := by
  induction ls with
  | nil =>
    intro w w1 err log log1 h
    simp only [SerializeLayers.loop, Option.some.injEq, Prod.mk.injEq] at h
    exact ⟨[], by rw [← h.2.2, List.append_nil], by simp⟩
  | cons x xs ih =>
    intro w w1 err log log1 h
    obtain ⟨i, layer⟩ := x
    simp only [SerializeLayers.loop] at h
    cases hser : layer.SerializeTo w opts with
    | none => rw [hser] at h; cases h
    | some res =>
      obtain ⟨w2, e⟩ := res
      cases e with
      | some e =>
        rw [hser] at h
        simp only [Option.some.injEq, Prod.mk.injEq] at h
        refine ⟨[.serializeTo i], h.2.2.symm, ?_⟩
        intro ev hev
        rw [List.mem_singleton] at hev
        exact ⟨(i, layer), List.mem_cons_self _ _, by rw [hev]; rfl⟩
      | none =>
        rw [hser] at h
        obtain ⟨add, hadd, hmem⟩ := ih _ _ _ _ _ h
        refine ⟨[.serializeTo i, .pushLayer i] ++ add, by rw [hadd, List.append_assoc], ?_⟩
        intro ev hev
        rcases List.mem_append.mp hev with h1 | h2
        · refine ⟨(i, layer), List.mem_cons_self _ _, ?_⟩
          simp only [List.mem_cons, List.mem_singleton, List.not_mem_nil, or_false] at h1
          rcases h1 with rfl | rfl <;> rfl
        · obtain ⟨x, hx, hidx⟩ := hmem ev h2
          exact ⟨x, List.mem_cons_of_mem _ hx, hidx⟩

theorem le_fst_of_mem_enumFrom_reverse {α : Type} (l : List α) (n : Nat) (x : Nat × α)
    (hx : x ∈ (l.enumFrom n).reverse) : n ≤ x.1 := by
  rw [List.mem_reverse] at hx
  induction l generalizing n with
  | nil => simp at hx
  | cons a as ih =>
    simp only [List.enumFrom_cons, List.mem_cons] at hx
    rcases hx with rfl | h
    · exact Nat.le_refl _
    · exact Nat.le_of_succ_le (ih (n + 1) h)

theorem enum_reverse_split {α : Type} (pre post : List α) (l : α) :
    (pre ++ l :: post).enum.reverse =
      (post.enumFrom (pre.length + 1)).reverse ++ (pre.length, l) :: pre.enum.reverse := by
  simp only [List.enum, List.enumFrom_append, List.enumFrom_cons, List.reverse_append,
    List.reverse_cons, Nat.zero_add, List.append_assoc, List.singleton_append]

/-- `SerializeLayers` when the layers after index `pre.length` are serialized without error
and the layer of that index then returns the error `e`. -/
theorem SerializeLayers_first_failure (w w0 w1 w2 : serializeBuffer) (opts : SerializeOptions)
    (pre post : List SerializableLayer) (l : SerializableLayer) (log1 : List SerializeEvent)
    (e : GoError) (hclear : serializeBuffer.Clear w = some w0)
    (hpost : SerializeLayers.loop opts (post.enumFrom (pre.length + 1)).reverse w0 [] =
      some (w1, none, log1))
    (hfail : l.SerializeTo w1 opts = some (w2, some e)) :
    SerializeLayers w opts (pre ++ l :: post) =
        some (w2, some e, log1 ++ [SerializeEvent.serializeTo pre.length]) ∧
      ∀ ev ∈ log1, pre.length + 1 ≤ ev.index := by
  constructor
  · unfold SerializeLayers
    rw [hclear]
    simp only
    rw [enum_reverse_split, loop_append opts _ _ w0 w1 [] log1 hpost]
    simp only [SerializeLayers.loop, hfail]
  · obtain ⟨add, hadd, hmem⟩ := loop_log opts _ _ _ _ _ _ hpost
    rw [List.nil_append] at hadd
    intro ev hev
    rw [hadd] at hev
    obtain ⟨x, hx, hidx⟩ := hmem ev hev
    rw [hidx]
    exact le_fst_of_mem_enumFrom_reverse post _ x hx

/-- Layers that leave the recorded list alone: the loop, when it ends without error, has
added the types of its layers in processing order. -/
theorem loop_layers (opts : SerializeOptions) (ls : List (Nat × SerializableLayer)) :
    ∀ (w w1 : serializeBuffer) (log log1 : List SerializeEvent),
      SerializeLayers.loop opts ls w log = some (w1, none, log1) →
      (∀ x ∈ ls, x.2.KeepsLayers) →
      w1.layers = w.layers ++ ls.map (fun x => x.2.LayerType) := by
  induction ls with
  | nil =>
    intro w w1 log log1 h _
    simp only [SerializeLayers.loop, Option.some.injEq, Prod.mk.injEq] at h
    rw [← h.1, List.map_nil, List.append_nil]
  | cons x xs ih =>
    intro w w1 log log1 h hkeep
    obtain ⟨i, layer⟩ := x
    simp only [SerializeLayers.loop] at h
    cases hser : layer.SerializeTo w opts with
    | none => rw [hser] at h; cases h
    | some res =>
      obtain ⟨w2, e⟩ := res
      cases e with
      | some e => rw [hser] at h; simp at h
      | none =>
        rw [hser] at h
        rw [ih _ _ _ _ h (fun y hy => hkeep y (List.mem_cons_of_mem _ hy))]
        have hk := hkeep (i, layer) (List.mem_cons_self _ _) w opts w2 none hser
        simp only [serializeBuffer.PushLayer, hk, List.map_cons, List.append_assoc,
          List.singleton_append]

theorem Payload_KeepsLayers (T : LayerType) (p : Payload) :
    (Payload.layer T p).KeepsLayers := by
  intro w opts w1 err h
  simp only [Payload.layer, Payload.SerializeTo] at h
  cases hp : serializeBuffer.PrependBytes w (p.length : Int) with
  | none => rw [hp] at h; cases h
  | some res =>
    obtain ⟨b1, bytes⟩ := res
    rw [hp] at h
    simp only [Option.some.injEq, Prod.mk.injEq] at h
    rw [← h.1]
    exact PrependBytes_layers w b1 _ bytes hp

/-- C16 as stated fails: a layer is given the whole `SerializeBuffer` interface, and one whose
`SerializeTo` calls `PushLayer(7)` and returns nil succeeds, yet `Layers()` is then `[7, 5]`
and not `[5]`, the list of the layer types. -/
theorem C16_layer_pushes_counterexample :
    SerializeLayers.allSucceed { FixLengths := false, ComputeChecksums := false }
        (List.enum [({ SerializeTo := fun w _ => some (serializeBuffer.PushLayer w 7, none),
                       LayerType := 5 } : SerializableLayer)]).reverse
        NewSerializeBuffer = true ∧
    serializeBuffer.Clear NewSerializeBuffer = some NewSerializeBuffer ∧
    (SerializeLayers NewSerializeBuffer { FixLengths := false, ComputeChecksums := false }
        [{ SerializeTo := fun w _ => some (serializeBuffer.PushLayer w 7, none),
           LayerType := 5 }]).map (fun r => (r.2.1, serializeBuffer.Layers r.1)) =
      some (none, [7, 5]) := by
  decide

/-- C16 amended: for every reachable buffer and every list of layers `l0..l(k-1)` whose
`SerializeTo` all succeed in this call and which leave the recorded layer list alone (call
neither `Clear` nor `PushLayer`), `SerializeLayers` invokes `SerializeTo` in the order
`l(k-1), ..., l0`, each followed by the `PushLayer` of its type, returns nil, and afterwards
`Layers()` is exactly `[l(k-1).LayerType(), ..., l0.LayerType()]`. -/
theorem C16_SerializeLayers_reverse_order (w : serializeBuffer)
    (hr : serializeBuffer.Reachable w) (opts : SerializeOptions)
    (layers : List SerializableLayer) (hkeep : ∀ l ∈ layers, l.KeepsLayers)
    (hall : ∀ w0, serializeBuffer.Clear w = some w0 →
      SerializeLayers.allSucceed opts layers.enum.reverse w0 = true) :
    ∃ w1, SerializeLayers w opts layers =
        some (w1, none, ((List.range layers.length).reverse.map (fun i =>
          [SerializeEvent.serializeTo i, SerializeEvent.pushLayer i])).flatten) ∧
      serializeBuffer.Layers w1 = layers.reverse.map (fun l => l.LayerType) := by
  have hc := Clear_eq w (Inv_of_Reachable w hr)
  obtain ⟨w1, hloop, hlay⟩ := loop_allSucceed opts layers.enum.reverse _ [] (hall _ hc)
  have hfst : layers.enum.reverse.map (fun x =>
      [SerializeEvent.serializeTo x.1, SerializeEvent.pushLayer x.1]) =
      (List.range layers.length).reverse.map (fun i =>
        [SerializeEvent.serializeTo i, SerializeEvent.pushLayer i]) := by
    have h1 : layers.enum.reverse.map (fun x =>
        [SerializeEvent.serializeTo x.1, SerializeEvent.pushLayer x.1]) =
        (layers.enum.reverse.map Prod.fst).map (fun i =>
          [SerializeEvent.serializeTo i, SerializeEvent.pushLayer i]) := by
      rw [List.map_map]; rfl
    rw [h1, List.map_reverse, List.enum_map_fst]
  have hsnd : layers.enum.reverse.map (fun x => x.2.LayerType) =
      layers.reverse.map (fun l => l.LayerType) := by
    have h1 : layers.enum.reverse.map (fun x => x.2.LayerType) =
        (layers.enum.reverse.map Prod.snd).map (fun l => l.LayerType) := by
      rw [List.map_map]; rfl
    rw [h1, enum_reverse_snd]
  refine ⟨w1, ?_, ?_⟩
  · simp only [SerializeLayers, hc, hloop, hfst, List.nil_append]
  · have hk : ∀ x ∈ layers.enum.reverse, x.2.KeepsLayers := by
      intro x hx
      apply hkeep
      have : x.2 ∈ layers.enum.reverse.map Prod.snd := List.mem_map_of_mem _ hx
      rw [enum_reverse_snd, List.mem_reverse] at this
      exact this
    rw [serializeBuffer.Layers, hlay hk, hsnd]
    rfl

/-- Witness for C16 amended: two payload layers on a new buffer. -/
theorem C16_SerializeLayers_reverse_order_witness :
    ∃ w1, SerializeLayers NewSerializeBuffer { FixLengths := false, ComputeChecksums := false }
        [Payload.layer 2 [1, 2], Payload.layer 2 [3]] =
        some (w1, none, ((List.range [Payload.layer 2 [1, 2], Payload.layer 2 [3]].length).reverse.map
          (fun i => [SerializeEvent.serializeTo i, SerializeEvent.pushLayer i])).flatten) ∧
      serializeBuffer.Layers w1 =
        [Payload.layer 2 [1, 2], Payload.layer 2 [3]].reverse.map (fun l => l.LayerType) :=
  C16_SerializeLayers_reverse_order NewSerializeBuffer serializeBuffer.Reachable.new
    { FixLengths := false, ComputeChecksums := false }
    [Payload.layer 2 [1, 2], Payload.layer 2 [3]]
    (by
      intro l hl
      simp only [List.mem_cons, List.mem_singleton, List.not_mem_nil, or_false] at hl
      rcases hl with rfl | rfl <;> exact Payload_KeepsLayers _ _)
    (by
      intro w0 h0
      have hc : serializeBuffer.Clear NewSerializeBuffer = some NewSerializeBuffer := by decide
      rw [hc] at h0
      cases h0
      decide)

/-- C17: for every reachable buffer and every list of layers, if index `i` is the largest
index whose `SerializeTo` fails, that is, the layers after `i` are serialized without error
and the `SerializeTo` of layer `i` then returns the error `e`, `SerializeLayers` returns
exactly `e`, `SerializeTo` is invoked on no layer with an index below `i`, and no layer type
is pushed for layer `i`. -/
theorem C17_first_failure_propagates (w : serializeBuffer) (hr : serializeBuffer.Reachable w)
    (opts : SerializeOptions) (pre post : List SerializableLayer) (l : SerializableLayer)
    (w1 w2 : serializeBuffer) (log1 : List SerializeEvent) (e : GoError)
    (hpost : SerializeLayers.loop opts (post.enumFrom (pre.length + 1)).reverse
      { w with start := w.prepended, dataLen := w.prepended.toNat, layers := [] } [] =
      some (w1, none, log1))
    (hfail : l.SerializeTo w1 opts = some (w2, some e)) :
    ∃ log, SerializeLayers w opts (pre ++ l :: post) = some (w2, some e, log) ∧
      ∀ ev ∈ log, pre.length ≤ ev.index ∧ ev ≠ SerializeEvent.pushLayer pre.length := by
  have hc := Clear_eq w (Inv_of_Reachable w hr)
  obtain ⟨hres, hidx⟩ := SerializeLayers_first_failure w _ w1 w2 opts pre post l log1 e hc hpost hfail
  refine ⟨_, hres, ?_⟩
  intro ev hev
  rcases List.mem_append.mp hev with h1 | h2
  · have := hidx ev h1
    refine ⟨by omega, ?_⟩
    intro heq
    rw [heq] at this
    simp only [SerializeEvent.index] at this
    omega
  · rw [List.mem_singleton] at h2
    rw [h2]
    exact ⟨Nat.le_refl _, by intro h; cases h⟩

/-- Witness for C17: a payload, then a layer that returns an error, then a payload; the last
payload is serialized, the failing layer stops the call, the first payload is not touched. -/
theorem C17_first_failure_propagates_witness :
    ∃ log, SerializeLayers NewSerializeBuffer { FixLengths := false, ComputeChecksums := false }
        ([Payload.layer 2 [4]] ++
          ({ SerializeTo := fun b _ => some (b, some (GoError.other "bad length")),
             LayerType := 9 } : SerializableLayer) :: [Payload.layer 2 [1]]) =
        some ({ data := [1], dataLen := 1, start := 0, prepended := 1, appended := 0,
                layers := [2] }, some (GoError.other "bad length"), log) ∧
      ∀ ev ∈ log, [Payload.layer 2 [4]].length ≤ ev.index ∧
        ev ≠ SerializeEvent.pushLayer [Payload.layer 2 [4]].length :=
  C17_first_failure_propagates NewSerializeBuffer serializeBuffer.Reachable.new
    { FixLengths := false, ComputeChecksums := false } [Payload.layer 2 [4]]
    [Payload.layer 2 [1]]
    { SerializeTo := fun b _ => some (b, some (GoError.other "bad length")), LayerType := 9 }
    { data := [1], dataLen := 1, start := 0, prepended := 1, appended := 0, layers := [2] }
    { data := [1], dataLen := 1, start := 0, prepended := 1, appended := 0, layers := [2] }
    [SerializeEvent.serializeTo 2, SerializeEvent.pushLayer 2] (GoError.other "bad length")
    (by decide) (by decide)

/-- C18 as stated fails: `SerializeLayers` clears the buffer only when it starts. With a
layer that returns an error in front of the payload `[1]`, the payload is serialized first,
then the error is returned, and the buffer still holds `Bytes() = [1]` and the pushed layer
type (`LayerTypePayload`, here 2). -/
theorem C18_not_cleared_counterexample :
    (SerializeLayers NewSerializeBuffer { FixLengths := false, ComputeChecksums := false }
        [({ SerializeTo := fun b _ => some (b, some (GoError.other "bad length")),
            LayerType := 9 } : SerializableLayer), Payload.layer 2 [1]]).map
        (fun r => (r.2.1, serializeBuffer.Bytes r.1, serializeBuffer.Layers r.1)) =
      some (some (GoError.other "bad length"), some [1], [2]) := by
  decide

/-- C18 amended: after a failed `SerializeLayers` the buffer is not cleared but left as the
failing `SerializeTo` left it: for every reachable buffer and every list of layers in which
the layers after index `i` are serialized without error and layer `i` then returns an error,
`SerializeLayers` returns that error with the buffer in the state in which the `SerializeTo`
of layer `i` left it; if the layers leave the recorded layer list alone, `Layers()` holds the
types of the layers after `i`, last first. -/
theorem C18_failure_leaves_buffer_as_is (w : serializeBuffer)
    (hr : serializeBuffer.Reachable w) (opts : SerializeOptions)
    (pre post : List SerializableLayer) (l : SerializableLayer)
    (w1 w2 : serializeBuffer) (log1 : List SerializeEvent) (e : GoError)
    (hpost : SerializeLayers.loop opts (post.enumFrom (pre.length + 1)).reverse
      { w with start := w.prepended, dataLen := w.prepended.toNat, layers := [] } [] =
      some (w1, none, log1))
    (hfail : l.SerializeTo w1 opts = some (w2, some e)) :
    (∃ log, SerializeLayers w opts (pre ++ l :: post) = some (w2, some e, log)) ∧
      (l.KeepsLayers → (∀ x ∈ post, x.KeepsLayers) →
        serializeBuffer.Layers w2 = post.reverse.map (fun x => x.LayerType)) := by
  have hc := Clear_eq w (Inv_of_Reachable w hr)
  obtain ⟨hres, _⟩ := SerializeLayers_first_failure w _ w1 w2 opts pre post l log1 e hc hpost hfail
  refine ⟨⟨_, hres⟩, ?_⟩
  intro hl hk
  have hk2 : ∀ x ∈ (post.enumFrom (pre.length + 1)).reverse, x.2.KeepsLayers := by
    intro x hx
    apply hk
    have : x.2 ∈ ((post.enumFrom (pre.length + 1)).reverse).map Prod.snd :=
      List.mem_map_of_mem _ hx
    rw [List.map_reverse, List.enumFrom_map_snd, List.mem_reverse] at this
    exact this
  have hlay := loop_layers opts _ _ _ _ _ hpost hk2
  have hmap : (post.enumFrom (pre.length + 1)).reverse.map (fun x => x.2.LayerType) =
      post.reverse.map (fun x => x.LayerType) := by
    have h1 : (post.enumFrom (pre.length + 1)).reverse.map (fun x => x.2.LayerType) =
        ((post.enumFrom (pre.length + 1)).reverse.map Prod.snd).map (fun l => l.LayerType) := by
      rw [List.map_map]; rfl
    rw [h1, List.map_reverse, List.enumFrom_map_snd]
  rw [serializeBuffer.Layers, hl w1 opts w2 (some e) hfail, hlay, hmap, List.nil_append]

theorem failing_layer_KeepsLayers (msg : String) (T : LayerType) :
    ({ SerializeTo := fun b _ => some (b, some (GoError.other msg)),
       LayerType := T } : SerializableLayer).KeepsLayers := by
  intro w opts w1 err h
  simp only [Option.some.injEq, Prod.mk.injEq] at h
  rw [← h.1]

/-- Witness for C18 amended: a payload, then a layer that returns an error, then a payload;
the buffer is left with the byte of the last payload and its layer type. -/
theorem C18_failure_leaves_buffer_as_is_witness :
    (∃ log, SerializeLayers NewSerializeBuffer
        { FixLengths := false, ComputeChecksums := false }
        ([Payload.layer 2 [4]] ++
          ({ SerializeTo := fun b _ => some (b, some (GoError.other "bad length")),
             LayerType := 9 } : SerializableLayer) :: [Payload.layer 2 [1]]) =
        some ({ data := [1], dataLen := 1, start := 0, prepended := 1, appended := 0,
                layers := [2] }, some (GoError.other "bad length"), log)) ∧
      serializeBuffer.Layers
          { data := [1], dataLen := 1, start := 0, prepended := 1, appended := 0,
            layers := [2] } =
        [Payload.layer 2 [1]].reverse.map (fun x => x.LayerType) :=
  ⟨(C18_failure_leaves_buffer_as_is NewSerializeBuffer serializeBuffer.Reachable.new
      { FixLengths := false, ComputeChecksums := false } [Payload.layer 2 [4]]
      [Payload.layer 2 [1]]
      { SerializeTo := fun b _ => some (b, some (GoError.other "bad length")), LayerType := 9 }
      { data := [1], dataLen := 1, start := 0, prepended := 1, appended := 0, layers := [2] }
      { data := [1], dataLen := 1, start := 0, prepended := 1, appended := 0, layers := [2] }
      [SerializeEvent.serializeTo 2, SerializeEvent.pushLayer 2] (GoError.other "bad length")
      (by decide) (by decide)).1,
   (C18_failure_leaves_buffer_as_is NewSerializeBuffer serializeBuffer.Reachable.new
      { FixLengths := false, ComputeChecksums := false } [Payload.layer 2 [4]]
      [Payload.layer 2 [1]]
      { SerializeTo := fun b _ => some (b, some (GoError.other "bad length")), LayerType := 9 }
      { data := [1], dataLen := 1, start := 0, prepended := 1, appended := 0, layers := [2] }
      { data := [1], dataLen := 1, start := 0, prepended := 1, appended := 0, layers := [2] }
      [SerializeEvent.serializeTo 2, SerializeEvent.pushLayer 2] (GoError.other "bad length")
      (by decide) (by decide)).2 (failing_layer_KeepsLayers "bad length" 9)
      (by
        intro x hx
        rw [List.mem_singleton] at hx
        rw [hx]
        exact Payload_KeepsLayers 2 [1])⟩

/-- C19: for every byte string `p`, every reachable buffer state and every
`SerializeOptions`, `SerializeLayers(buf, opts, Payload(p))` returns nil, and
`Payload.DecodeFromBytes(buf.Bytes(), df)` returns nil and yields a `Payload` equal to `p`,
with `NextLayerType() = LayerTypeZero` and an empty `LayerPayload()`; the same holds for
`Fragment`. The buffer and the byte string are slices that exist together: the capacity of
the buffer plus twice the length of `p`, which bounds the capacity the call allocates, is
within `int`. -/
theorem C19_payload_round_trip (w : serializeBuffer) (hr : serializeBuffer.Reachable w)
    (opts : SerializeOptions) (LayerTypeZero LayerTypePayload LayerTypeFragment : LayerType)
    (p : List Byte)
    (hsize : (w.data.length : Int) + 2 * (p.length : Int) ≤ maxInt) :
    (∃ w1 log b, SerializeLayers w opts [Payload.layer LayerTypePayload p] =
          some (w1, none, log) ∧
        serializeBuffer.Bytes w1 = some b ∧
        Payload.DecodeFromBytes b = (p, none) ∧
        Payload.NextLayerType LayerTypeZero (Payload.DecodeFromBytes b).1 = LayerTypeZero ∧
        Payload.LayerPayload (Payload.DecodeFromBytes b).1 = []) ∧
    (∃ w1 log b, SerializeLayers w opts [Fragment.layer LayerTypeFragment p] =
          some (w1, none, log) ∧
        serializeBuffer.Bytes w1 = some b ∧
        Fragment.DecodeFromBytes b = (p, none) ∧
        Fragment.NextLayerType LayerTypeZero (Fragment.DecodeFromBytes b).1 = LayerTypeZero ∧
        Fragment.LayerPayload (Fragment.DecodeFromBytes b).1 = []) := by
  have hsize2 : (w.data.length : Int) + 2 * (([p] : List Payload).flatten.length : Int) ≤
      maxInt := by
    simpa using hsize
  constructor
  · obtain ⟨w1, log, h1, h2, _⟩ :=
      SerializeLayers_payloads w hr opts LayerTypePayload [p] hsize2
    refine ⟨w1, log, p, h1, ?_, rfl, rfl, rfl⟩
    simpa using h2
  · obtain ⟨w1, log, h1, h2, _⟩ :=
      SerializeLayers_payloads w hr opts LayerTypeFragment [p] hsize2
    refine ⟨w1, log, p, h1, ?_, rfl, rfl, rfl⟩
    simpa using h2

/-- Witness for C19: the bytes `[1, 2, 3]` through a buffer that holds two other bytes. -/
theorem C19_payload_round_trip_witness :
    (∃ w1 log b, SerializeLayers
          { data := [9, 9], dataLen := 2, start := 0, prepended := 2, appended := 0,
            layers := [] }
          { FixLengths := true, ComputeChecksums := false } [Payload.layer 2 [1, 2, 3]] =
          some (w1, none, log) ∧
        serializeBuffer.Bytes w1 = some b ∧
        Payload.DecodeFromBytes b = ([1, 2, 3], none) ∧
        Payload.NextLayerType 0 (Payload.DecodeFromBytes b).1 = 0 ∧
        Payload.LayerPayload (Payload.DecodeFromBytes b).1 = []) ∧
    (∃ w1 log b, SerializeLayers
          { data := [9, 9], dataLen := 2, start := 0, prepended := 2, appended := 0,
            layers := [] }
          { FixLengths := true, ComputeChecksums := false } [Fragment.layer 3 [1, 2, 3]] =
          some (w1, none, log) ∧
        serializeBuffer.Bytes w1 = some b ∧
        Fragment.DecodeFromBytes b = ([1, 2, 3], none) ∧
        Fragment.NextLayerType 0 (Fragment.DecodeFromBytes b).1 = 0 ∧
        Fragment.LayerPayload (Fragment.DecodeFromBytes b).1 = []) :=
  C19_payload_round_trip
    { data := [9, 9], dataLen := 2, start := 0, prepended := 2, appended := 0, layers := [] }
    (serializeBuffer.Reachable.write
      { data := [0, 0], dataLen := 2, start := 0, prepended := 2, appended := 0, layers := [] }
      [9, 9]
      (serializeBuffer.Reachable.prepend NewSerializeBuffer _ 2 { off := 0, size := 2 }
        serializeBuffer.Reachable.new (by decide) (by decide)) (by decide))
    { FixLengths := true, ComputeChecksums := false } 0 2 3 [1, 2, 3] (by decide)

/-! ### `DecodeLayers` -/

/-- C20: for every parser and input, if the parser's decode function returns a first
unsupported type `typ ≠ LayerTypeZero`, `DecodeLayers` returns `UnsupportedLayerType(typ)`
when `IgnoreUnsupported` is false and nil when it is true, whatever error the decode function
returned; in both cases the decoded-type sequence is what the decode function wrote. -/
theorem C20_unsupported_reporting (LayerTypeZero : LayerType) (l : DecodingLayerParser)
    (data : List Byte) (decoded : List LayerType) (typ : LayerType) (err : Option GoError)
    (hrun : (l.decodeFunc data decoded).ending = DecodeFuncEnd.returned typ err)
    (hne : typ ≠ LayerTypeZero) :
    (l.IgnoreUnsupported = false →
        (DecodingLayerParser.DecodeLayers LayerTypeZero l data decoded).2.2 =
          DecodeLayersEnd.returned (some (GoError.unsupportedLayerType typ))) ∧
    (l.IgnoreUnsupported = true →
        (DecodingLayerParser.DecodeLayers LayerTypeZero l data decoded).2.2 =
          DecodeLayersEnd.returned none) ∧
    (DecodingLayerParser.DecodeLayers LayerTypeZero l data decoded).2.1 =
      (l.decodeFunc data decoded).decoded := by
  unfold DecodingLayerParser.DecodeLayers
  simp only [hrun, hne, ne_eq, not_false_eq_true, if_true]
  refine ⟨?_, ?_, ?_⟩
  · intro h; simp only [h, Bool.false_eq_true, if_false]
  · intro h; simp only [h, if_true]
  · split_ifs <;> rfl

/-- Witness for C20: a decode function that decodes types 1 and 2 and reports type 3 as
unsupported, with `LayerTypeZero = 0`, in a parser without and in one with
`IgnoreUnsupported`. -/
theorem C20_unsupported_reporting_witness :
    (DecodingLayerParser.DecodeLayers 0
        { IgnorePanic := false, IgnoreUnsupported := false,
          dlc := DecodingLayerContainer.map none, first := 1,
          decodeFunc := fun _ _ =>
            { decoded := [1, 2], truncated := false,
              ending := DecodeFuncEnd.returned 3 none },
          Truncated := false } [7, 7] [5]).2.2 =
      DecodeLayersEnd.returned (some (GoError.unsupportedLayerType 3)) ∧
    (DecodingLayerParser.DecodeLayers 0
        { IgnorePanic := false, IgnoreUnsupported := true,
          dlc := DecodingLayerContainer.map none, first := 1,
          decodeFunc := fun _ _ =>
            { decoded := [1, 2], truncated := false,
              ending := DecodeFuncEnd.returned 3 none },
          Truncated := false } [7, 7] [5]).2.2 =
      DecodeLayersEnd.returned none ∧
    (DecodingLayerParser.DecodeLayers 0
        { IgnorePanic := false, IgnoreUnsupported := true,
          dlc := DecodingLayerContainer.map none, first := 1,
          decodeFunc := fun _ _ =>
            { decoded := [1, 2], truncated := false,
              ending := DecodeFuncEnd.returned 3 none },
          Truncated := false } [7, 7] [5]).2.1 = [1, 2] :=
  ⟨(C20_unsupported_reporting 0
      { IgnorePanic := false, IgnoreUnsupported := false,
        dlc := DecodingLayerContainer.map none, first := 1,
        decodeFunc := fun _ _ =>
          { decoded := [1, 2], truncated := false, ending := DecodeFuncEnd.returned 3 none },
        Truncated := false } [7, 7] [5] 3 none rfl (by decide)).1 rfl,
   (C20_unsupported_reporting 0
      { IgnorePanic := false, IgnoreUnsupported := true,
        dlc := DecodingLayerContainer.map none, first := 1,
        decodeFunc := fun _ _ =>
          { decoded := [1, 2], truncated := false, ending := DecodeFuncEnd.returned 3 none },
        Truncated := false } [7, 7] [5] 3 none rfl (by decide)).2.1 rfl,
   (C20_unsupported_reporting 0
      { IgnorePanic := false, IgnoreUnsupported := true,
        dlc := DecodingLayerContainer.map none, first := 1,
        decodeFunc := fun _ _ =>
          { decoded := [1, 2], truncated := false, ending := DecodeFuncEnd.returned 3 none },
        Truncated := false } [7, 7] [5] 3 none rfl (by decide)).2.2⟩

/-! ## Parser, packet serialization and invariants -/

/-! ### Faults, truncation and decode failures in `DecodeLayers` -/

/-- The parser after `DecodeLayers`: only `Truncated` has changed, to what the run of the
decode function says. -/
theorem DecodeLayers_fst (LayerTypeZero : LayerType) (l : DecodingLayerParser)
    (data : List Byte) (decoded : List LayerType) :
    (DecodingLayerParser.DecodeLayers LayerTypeZero l data decoded).1 =
      { l with Truncated := (l.decodeFunc data decoded).truncated } := by
  unfold DecodingLayerParser.DecodeLayers
  generalize l.decodeFunc data decoded = run
  cases h : run.ending <;> simp only [h] <;> split_ifs <;> rfl

/-- C21: for every parser and input whose decode function faults with a panic value `r`,
`DecodeLayers` returns the non-nil error of `panicToError`, whose message is `"panic: "`
followed by `r`, when `IgnorePanic` is false, and the fault goes on to the caller when
`IgnorePanic` is true. -/
theorem C21_fault_trapped (LayerTypeZero : LayerType) (layerTypeString : LayerType → String)
    (l : DecodingLayerParser) (data : List Byte) (decoded : List LayerType) (r : String)
    (hrun : (l.decodeFunc data decoded).ending = DecodeFuncEnd.panicked r) :
    (l.IgnorePanic = false →
        ∃ err, (DecodingLayerParser.DecodeLayers LayerTypeZero l data decoded).2.2 =
            DecodeLayersEnd.returned (some err) ∧
          GoError.Error layerTypeString err = "panic: " ++ r) ∧
    (l.IgnorePanic = true →
        (DecodingLayerParser.DecodeLayers LayerTypeZero l data decoded).2.2 =
          DecodeLayersEnd.panicked r) := by
  unfold DecodingLayerParser.DecodeLayers
  simp only [hrun]
  refine ⟨?_, ?_⟩
  · intro h
    simp only [h, Bool.false_eq_true, if_false]
    exact ⟨GoError.fromPanic r, rfl, rfl⟩
  · intro h; simp only [h, if_true]

/-- Witness for C21: a decode function that faults with an index error, in a parser with the
default options. -/
theorem C21_fault_trapped_witness :
    ∃ err, (DecodingLayerParser.DecodeLayers 0
        { IgnorePanic := false, IgnoreUnsupported := false,
          dlc := DecodingLayerContainer.map none, first := 1,
          decodeFunc := fun _ _ =>
            { decoded := [1], truncated := false,
              ending := DecodeFuncEnd.panicked "index out of range" },
          Truncated := false } [7, 7] [5]).2.2 = DecodeLayersEnd.returned (some err) ∧
      GoError.Error (fun _ => "T") err = "panic: " ++ "index out of range" :=
  (C21_fault_trapped 0 (fun _ => "T")
      { IgnorePanic := false, IgnoreUnsupported := false,
        dlc := DecodingLayerContainer.map none, first := 1,
        decodeFunc := fun _ _ =>
          { decoded := [1], truncated := false,
            ending := DecodeFuncEnd.panicked "index out of range" },
        Truncated := false } [7, 7] [5] "index out of range" rfl).1 rfl

/-- C22: whatever `Truncated` was before the call, after `DecodeLayers` the field `Truncated`
is true exactly if `SetTruncated` was called during the call: the parser afterwards is the
parser with the flag reset, with `SetTruncated` applied in that case; and the way the call
ends is the same for two runs of the decode function that differ in the flag only. -/
theorem C22_truncated_this_call_only (LayerTypeZero : LayerType) (l : DecodingLayerParser)
    (data : List Byte) (decoded : List LayerType) :
    ((DecodingLayerParser.DecodeLayers LayerTypeZero l data decoded).1.Truncated = true ↔
        (l.decodeFunc data decoded).truncated = true) ∧
    (DecodingLayerParser.DecodeLayers LayerTypeZero l data decoded).1 =
      (if (l.decodeFunc data decoded).truncated
        then DecodingLayerParser.SetTruncated { l with Truncated := false }
        else { l with Truncated := false }) ∧
    (∀ (l2 : DecodingLayerParser) (data2 : List Byte) (decoded2 : List LayerType),
      l2.IgnorePanic = l.IgnorePanic → l2.IgnoreUnsupported = l.IgnoreUnsupported →
      (l2.decodeFunc data2 decoded2).ending = (l.decodeFunc data decoded).ending →
      (DecodingLayerParser.DecodeLayers LayerTypeZero l2 data2 decoded2).2.2 =
        (DecodingLayerParser.DecodeLayers LayerTypeZero l data decoded).2.2) := by
  have hfst := DecodeLayers_fst LayerTypeZero l data decoded
  refine ⟨?_, ?_, ?_⟩
  · rw [hfst]
  · rw [hfst]
    unfold DecodingLayerParser.SetTruncated
    cases (l.decodeFunc data decoded).truncated <;> rfl
  · intro l2 data2 decoded2 h1 h2 h3
    unfold DecodingLayerParser.DecodeLayers
    simp only [h3, h1, h2]
    generalize (l.decodeFunc data decoded).ending = e
    cases e <;> simp only [] <;> split_ifs <;> rfl

/-- Witness for C22: a parser whose flag is set from an earlier call, and a decode function
that does not call `SetTruncated`; afterwards the flag is not set. -/
theorem C22_truncated_this_call_only_witness :
    ((DecodingLayerParser.DecodeLayers 0
        { IgnorePanic := false, IgnoreUnsupported := false,
          dlc := DecodingLayerContainer.map none, first := 1,
          decodeFunc := fun _ _ =>
            { decoded := [1], truncated := false, ending := DecodeFuncEnd.returned 0 none },
          Truncated := true } [7, 7] [5]).1.Truncated = true ↔ false = true) :=
  (C22_truncated_this_call_only 0
      { IgnorePanic := false, IgnoreUnsupported := false,
        dlc := DecodingLayerContainer.map none, first := 1,
        decodeFunc := fun _ _ =>
          { decoded := [1], truncated := false, ending := DecodeFuncEnd.returned 0 none },
        Truncated := true } [7, 7] [5]).1

/-! ### The chain decode loop -/

/-- One round of the chain decode loop on a type with a decoder that decodes its bytes and
names a further type. -/
theorem LayersDecoder_loop_next (LayerTypeZero : LayerType)
    (behave : DecodingLayer → List Byte → DecodeFromBytesRun) (dl : DecodingLayerContainer)
    (fuel : Nat) (data payload : List Byte) (typ next : LayerType) (d : DecodingLayer)
    (decoded : List LayerType) (truncated : Bool)
    (hd : DecodingLayerContainer.Decoder dl typ = some (some d, true))
    (hb : (behave d data).ending = DecodeFromBytesEnd.decoded next payload)
    (hn : next ≠ LayerTypeZero) :
    LayersDecoder.loop LayerTypeZero behave dl (fuel + 1) data typ decoded truncated =
      LayersDecoder.loop LayerTypeZero behave dl fuel payload next (decoded ++ [typ])
        (truncated || (behave d data).truncated) := by
  rw [LayersDecoder.loop]
  simp only [hd, hb, hn, if_false]

/-- One round of the chain decode loop on a type with a decoder that decodes its bytes and
names `LayerTypeZero` as the next type. -/
theorem LayersDecoder_loop_last (LayerTypeZero : LayerType)
    (behave : DecodingLayer → List Byte → DecodeFromBytesRun) (dl : DecodingLayerContainer)
    (fuel : Nat) (data payload : List Byte) (typ : LayerType) (d : DecodingLayer)
    (decoded : List LayerType) (truncated : Bool)
    (hd : DecodingLayerContainer.Decoder dl typ = some (some d, true))
    (hb : (behave d data).ending = DecodeFromBytesEnd.decoded LayerTypeZero payload) :
    LayersDecoder.loop LayerTypeZero behave dl (fuel + 1) data typ decoded truncated =
      some { decoded := decoded ++ [typ], truncated := truncated || (behave d data).truncated,
             ending := DecodeFuncEnd.returned LayerTypeZero none } := by
  rw [LayersDecoder.loop]
  simp only [hd, hb, if_true]

/-- The method `LayersDecoder` of each container is the package-level `LayersDecoder`. -/
theorem container_LayersDecoder_eq (LayerTypeZero : LayerType)
    (behave : DecodingLayer → List Byte → DecodeFromBytesRun) (fuel : Nat)
    (dl : DecodingLayerContainer) :
    DecodingLayerContainer.LayersDecoder LayerTypeZero behave fuel dl =
      LayersDecoder LayerTypeZero behave fuel dl := by
  cases dl <;> rfl

/-- C23: let a container of any of the three strategies hold decoders for the types `A`, `B`
and `C`, which decode their bytes and name `B`, `C` and `LayerTypeZero` as next types, and
let the decode function of a parser that starts at `A` be the `LayersDecoder` of this
container. Then the chain decode loop ends within three rounds, and `DecodeLayers` returns
nil and leaves `[A, B, C]` as the decoded sequence, whatever the sequence held before. -/
theorem C23_chain_decode (LayerTypeZero : LayerType)
    (behave : DecodingLayer → List Byte → DecodeFromBytesRun) (l : DecodingLayerParser)
    (A B C : LayerType) (dA dB dC : DecodingLayer) (data dataB dataC rest : List Byte)
    (decoded : List LayerType) (fuel : Nat)
    (hfirst : l.first = A)
    (hA : DecodingLayerContainer.Decoder l.dlc A = some (some dA, true))
    (hB : DecodingLayerContainer.Decoder l.dlc B = some (some dB, true))
    (hC : DecodingLayerContainer.Decoder l.dlc C = some (some dC, true))
    (hdA : (behave dA data).ending = DecodeFromBytesEnd.decoded B dataB)
    (hdB : (behave dB dataB).ending = DecodeFromBytesEnd.decoded C dataC)
    (hdC : (behave dC dataC).ending = DecodeFromBytesEnd.decoded LayerTypeZero rest)
    (hBne : B ≠ LayerTypeZero) (hCne : C ≠ LayerTypeZero) (hfuel : 3 ≤ fuel)
    (hdf : ∀ run,
      DecodingLayerContainer.LayersDecoder LayerTypeZero behave fuel l.dlc l.first data decoded =
        some run → l.decodeFunc data decoded = run) :
    (∃ run,
      DecodingLayerContainer.LayersDecoder LayerTypeZero behave fuel l.dlc l.first data decoded =
        some run ∧
      run.decoded = [A, B, C] ∧ run.ending = DecodeFuncEnd.returned LayerTypeZero none) ∧
    (DecodingLayerParser.DecodeLayers LayerTypeZero l data decoded).2 =
      ([A, B, C], DecodeLayersEnd.returned none) := by
  obtain ⟨k, rfl⟩ : ∃ k, fuel = k + 1 + 1 + 1 := ⟨fuel - 3, by omega⟩
  have hrun : DecodingLayerContainer.LayersDecoder LayerTypeZero behave (k + 1 + 1 + 1) l.dlc
      l.first data decoded =
      some { decoded := [A, B, C],
             truncated := ((false || (behave dA data).truncated) ||
               (behave dB dataB).truncated) || (behave dC dataC).truncated,
             ending := DecodeFuncEnd.returned LayerTypeZero none } := by
    rw [container_LayersDecoder_eq, hfirst]
    unfold LayersDecoder
    rw [LayersDecoder_loop_next LayerTypeZero behave l.dlc (k + 1 + 1) data dataB A B dA [] false
        hA hdA hBne,
      LayersDecoder_loop_next LayerTypeZero behave l.dlc (k + 1) dataB dataC B C dB _ _
        hB hdB hCne,
      LayersDecoder_loop_last LayerTypeZero behave l.dlc k dataC rest C dC _ _ hC hdC]
    rfl
  refine ⟨⟨_, hrun, rfl, rfl⟩, ?_⟩
  have hfun := hdf _ hrun
  unfold DecodingLayerParser.DecodeLayers
  simp only [hfun, ne_eq, not_true_eq_false, if_false]

/-- Witness for C23: a linear array with decoders for the types 1, 2 and 3, each of which
consumes one byte, `LayerTypeZero = 0`, and a parser starting at type 1 whose decode function
runs the chain decode loop for three rounds; the caller's sequence `[9, 9]` is replaced by
`[1, 2, 3]`. -/
theorem C23_chain_decode_witness :
    (DecodingLayerParser.DecodeLayers 0
        { IgnorePanic := false, IgnoreUnsupported := false,
          dlc := DecodingLayerContainer.array
            (DecodingLayerArray.build
              [{ ident := 1, canDecode := [1] }, { ident := 2, canDecode := [2] },
               { ident := 3, canDecode := [3] }] []),
          first := 1,
          decodeFunc := fun data decoded =>
            (DecodingLayerContainer.LayersDecoder 0
              (fun d data =>
                { truncated := false,
                  ending := DecodeFromBytesEnd.decoded
                    (if d.ident = 3 then 0 else (d.ident : Int) + 1) (data.drop 1) })
              3
              (DecodingLayerContainer.array
                (DecodingLayerArray.build
                  [{ ident := 1, canDecode := [1] }, { ident := 2, canDecode := [2] },
                   { ident := 3, canDecode := [3] }] []))
              1 data decoded).getD
              { decoded := decoded, truncated := false,
                ending := DecodeFuncEnd.returned 0 none },
          Truncated := false } [10, 20, 30, 40] [9, 9]).2 =
      ([1, 2, 3], DecodeLayersEnd.returned none) :=
  (C23_chain_decode 0
      (fun d data =>
        { truncated := false,
          ending := DecodeFromBytesEnd.decoded
            (if d.ident = 3 then 0 else (d.ident : Int) + 1) (data.drop 1) })
      { IgnorePanic := false, IgnoreUnsupported := false,
        dlc := DecodingLayerContainer.array
          (DecodingLayerArray.build
            [{ ident := 1, canDecode := [1] }, { ident := 2, canDecode := [2] },
             { ident := 3, canDecode := [3] }] []),
        first := 1,
        decodeFunc := fun data decoded =>
          (DecodingLayerContainer.LayersDecoder 0
            (fun d data =>
              { truncated := false,
                ending := DecodeFromBytesEnd.decoded
                  (if d.ident = 3 then 0 else (d.ident : Int) + 1) (data.drop 1) })
            3
            (DecodingLayerContainer.array
              (DecodingLayerArray.build
                [{ ident := 1, canDecode := [1] }, { ident := 2, canDecode := [2] },
                 { ident := 3, canDecode := [3] }] []))
            1 data decoded).getD
            { decoded := decoded, truncated := false,
              ending := DecodeFuncEnd.returned 0 none },
        Truncated := false }
      1 2 3 { ident := 1, canDecode := [1] } { ident := 2, canDecode := [2] }
      { ident := 3, canDecode := [3] } [10, 20, 30, 40] [20, 30, 40] [30, 40] [40] [9, 9] 3
      rfl (by decide) (by decide) (by decide) rfl rfl rfl (by decide) (by decide) (by decide)
      (fun run h => by simp only [h, Option.getD_some])).2

/-! ### `SerializePacket` -/

/-- The first loop of `SerializePacket` on layers that are all serializable collects them in
order. -/
theorem collect_ok (layerTypeString : LayerType → String) (packet : List Layer)
    (sls : List SerializableLayer)
    (h : ∀ layer ∈ packet, Layer.asSerializable layer ≠ none) :
    SerializePacket.collect layerTypeString packet sls =
      .ok (sls ++ packet.filterMap Layer.asSerializable) := by
  induction packet generalizing sls with
  | nil => simp [SerializePacket.collect]
  | cons layer rest ih =>
    cases layer with
    | plain typ => exact absurd rfl (h (Layer.plain typ) (List.mem_cons_self _ _))
    | serializable sl =>
      simp only [SerializePacket.collect]
      rw [ih (sls ++ [sl]) (fun x hx => h x (List.mem_cons_of_mem _ hx))]
      simp [Layer.asSerializable]

/-- The first loop of `SerializePacket` on layers of which one is not serializable ends with
the error that names the type of such a layer. -/
theorem collect_error (layerTypeString : LayerType → String) (packet : List Layer)
    (sls : List SerializableLayer)
    (h : ∃ layer ∈ packet, Layer.asSerializable layer = none) :
    ∃ typ, Layer.plain typ ∈ packet ∧
      SerializePacket.collect layerTypeString packet sls =
        .error (.other ("layer " ++ layerTypeString typ ++ " is not serializable")) := by
  induction packet generalizing sls with
  | nil => obtain ⟨layer, hm, _⟩ := h; simp at hm
  | cons layer rest ih =>
    cases layer with
    | plain typ => exact ⟨typ, List.mem_cons_self _ _, by simp [SerializePacket.collect]⟩
    | serializable sl =>
      obtain ⟨x, hx, hn⟩ := h
      rcases List.mem_cons.mp hx with hx1 | hx1
      · rw [hx1] at hn; simp [Layer.asSerializable] at hn
      · obtain ⟨typ, hmem, heq⟩ := ih (sls ++ [sl]) ⟨x, hx1, hn⟩
        exact ⟨typ, List.mem_cons_of_mem _ hmem, by simpa [SerializePacket.collect] using heq⟩

/-- C24: for every packet of which one layer is not a `SerializableLayer`, `SerializePacket`
returns a non-nil error, which names the type of such a layer, without a call of any
`SerializeTo` and with the buffer as it was; and for every packet whose layers are all
serializable, `SerializePacket` does what `SerializeLayers` does on these layers, in the
order of the packet. -/
theorem C24_SerializePacket (layerTypeString : LayerType → String) (buf : serializeBuffer)
    (opts : SerializeOptions) (packet : List Layer) :
    ((∃ layer ∈ packet, Layer.asSerializable layer = none) →
      ∃ typ, Layer.plain typ ∈ packet ∧
        SerializePacket layerTypeString buf opts packet =
          some (buf,
            some (GoError.other ("layer " ++ layerTypeString typ ++ " is not serializable")),
            [])) ∧
    ((∀ layer ∈ packet, Layer.asSerializable layer ≠ none) →
      SerializePacket layerTypeString buf opts packet =
        SerializeLayers buf opts (packet.filterMap Layer.asSerializable)) := by
  refine ⟨?_, ?_⟩
  · intro h
    obtain ⟨typ, hmem, heq⟩ := collect_error layerTypeString packet [] h
    exact ⟨typ, hmem, by simp only [SerializePacket, heq]⟩
  · intro h
    simp only [SerializePacket, collect_ok layerTypeString packet [] h, List.nil_append]

/-- Witness for C24: a packet of a payload layer and a layer of type 9 that is not
serializable; the error names the type 9 and the buffer is as it was. -/
theorem C24_SerializePacket_witness :
    ∃ typ, Layer.plain typ ∈ [Layer.serializable (Payload.layer 1 [7, 8]), Layer.plain 9] ∧
      SerializePacket (fun _ => "T") NewSerializeBuffer
          { FixLengths := false, ComputeChecksums := false }
          [Layer.serializable (Payload.layer 1 [7, 8]), Layer.plain 9] =
        some (NewSerializeBuffer,
          some (GoError.other ("layer " ++ (fun _ => "T") typ ++ " is not serializable")), []) :=
  (C24_SerializePacket (fun _ => "T") NewSerializeBuffer
      { FixLengths := false, ComputeChecksums := false }
      [Layer.serializable (Payload.layer 1 [7, 8]), Layer.plain 9]).1
    ⟨Layer.plain 9, by simp, rfl⟩

/-! ### Window invariant and growth of the buffer -/

/-- Counterexample to C25 as stated: on the one-cell buffer left by `PrependBytes(1)` on a
new buffer, the call `PrependBytes(math.MaxInt64)`, with `n ≥ 0`, faults in `make` after
`w.prepended += toPrepend` has wrapped the mark around to `math.MinInt64`. In the state the
call leaves, `start ≤ prepended` does not hold, and `Clear()` then faults on the slice
expression `w.data[:w.start]`. -/
theorem C25_fault_breaks_invariant_counterexample :
    serializeBuffer.Reachable
        { data := [0], dataLen := 1, start := 0, prepended := 1, appended := 0, layers := [] } ∧
      (0 : Int) ≤ 9223372036854775807 ∧
      serializeBuffer.PrependBytesEnded
          { data := [0], dataLen := 1, start := 0, prepended := 1, appended := 0, layers := [] }
          9223372036854775807 =
        Ended.faulted
          { data := [0], dataLen := 1, start := 0, prepended := -9223372036854775808,
            appended := 0, layers := [] } ∧
      ¬ ((0 : Int) ≤ -9223372036854775808) ∧
      serializeBuffer.Clear
          { data := [0], dataLen := 1, start := 0, prepended := -9223372036854775808,
            appended := 0, layers := [] } = none :=
  ⟨serializeBuffer.Reachable.prepend NewSerializeBuffer _ 1 { off := 0, size := 1 }
      serializeBuffer.Reachable.new (by decide) (by decide), by decide, by decide, by decide,
    by decide⟩

/-- C25, amended: in every state that callers can reach from `NewSerializeBuffer()` or
`NewSerializeBufferExpectedSize(p, a)` by calls that have returned,
`0 ≤ start ≤ prepended ≤ len(data) ≤ cap(data)` holds; `Bytes` and `Clear` do not fault; and
for every `n` with `0 ≤ n ≤ math.MaxInt64`, `PrependBytes(n)` and `AppendBytes(n)` return,
unless the call reallocates and the length it gives to `make`, `cap(data) + max(n, mark)`
as Go computes it, is negative: no slice expression is out of range. -/
theorem C25_window_invariant (w : serializeBuffer) (hr : serializeBuffer.Reachable w) :
    (0 ≤ w.start ∧ w.start ≤ w.prepended ∧ w.prepended ≤ (w.dataLen : Int) ∧
      w.dataLen ≤ w.data.length) ∧
    (∃ b, serializeBuffer.Bytes w = some b) ∧
    (∃ w1, serializeBuffer.Clear w = some w1) ∧
    (∀ n : Int, 0 ≤ n → n ≤ maxInt →
      ((∃ w1 r, serializeBuffer.PrependBytes w n = some (w1, r)) ∨
        (w.start < n ∧ wrap64 ((w.data.length : Int) + max n w.prepended) < 0)) ∧
      ((∃ w1 r, serializeBuffer.AppendBytes w n = some (w1, r)) ∨
        ((w.data.length : Int) - (w.dataLen : Int) < n ∧
          wrap64 ((w.data.length : Int) + max n w.appended) < 0))) := by
  have hi := Inv_of_Reachable w hr
  have hi2 := hi
  obtain ⟨h0, h1, h2, h3, h4, h5⟩ := hi2
  refine ⟨⟨h0, h1, h2, h3⟩, ⟨_, Bytes_eq w h0 (by omega)⟩, ⟨_, Clear_eq w hi⟩, ?_⟩
  intro n hn hmax
  constructor
  · by_cases hfit : w.start < n → (w.data.length : Int) + max n w.prepended ≤ maxInt
    · obtain ⟨w1, r, _, _, hp, _⟩ := PrependBytes_window w hi n hn
        (fun hs => by rw [ite_eq_max]; exact hfit hs)
      exact Or.inl ⟨w1, r, hp⟩
    · have hs : w.start < n := by
        by_contra hc; exact hfit (fun h => absurd h hc)
      have hbig : maxInt < (w.data.length : Int) + max n w.prepended := by
        by_contra hc; exact hfit (fun _ => not_lt.mp hc)
      have hmx : max n w.prepended ≤ maxInt := max_le hmax (by omega)
      exact Or.inr ⟨hs, wrap64_neg _ hbig (by omega)⟩
  · by_cases hfit : (w.data.length : Int) - (w.dataLen : Int) < n →
        (w.data.length : Int) + max n w.appended ≤ maxInt
    · obtain ⟨w1, r, _, _, hp, _⟩ := AppendBytes_window w hi n hn
        (fun hs => by rw [ite_eq_max]; exact hfit hs)
      exact Or.inl ⟨w1, r, hp⟩
    · have hs : (w.data.length : Int) - (w.dataLen : Int) < n := by
        by_contra hc; exact hfit (fun h => absurd h hc)
      have hbig : maxInt < (w.data.length : Int) + max n w.appended := by
        by_contra hc; exact hfit (fun _ => not_lt.mp hc)
      have hmx : max n w.appended ≤ maxInt := max_le hmax h5
      exact Or.inr ⟨hs, wrap64_neg _ hbig (by omega)⟩

/-- Witness for C25: the buffer of `NewSerializeBufferExpectedSize(2, 1)` after
`PrependBytes(3)` and `AppendBytes(2)`, both of which reallocate: eight cells, of which the
window holds the five from offset 2 to offset 7. -/
theorem C25_window_invariant_witness :
    ((0 : Int) ≤ 2 ∧ (2 : Int) ≤ 5 ∧ (5 : Int) ≤ ((7 : Nat) : Int) ∧
      7 ≤ [(0 : Byte), 0, 0, 0, 0, 0, 0, 0].length) ∧
    (∃ b, serializeBuffer.Bytes
        { data := [0, 0, 0, 0, 0, 0, 0, 0], dataLen := 7, start := 2, prepended := 5,
          appended := 3, layers := [] } = some b) ∧
    (∃ w1, serializeBuffer.Clear
        { data := [0, 0, 0, 0, 0, 0, 0, 0], dataLen := 7, start := 2, prepended := 5,
          appended := 3, layers := [] } = some w1) ∧
    (∀ n : Int, 0 ≤ n → n ≤ maxInt →
      ((∃ w1 r, serializeBuffer.PrependBytes
          { data := [0, 0, 0, 0, 0, 0, 0, 0], dataLen := 7, start := 2, prepended := 5,
            appended := 3, layers := [] } n = some (w1, r)) ∨
        ((2 : Int) < n ∧
          wrap64 (([(0 : Byte), 0, 0, 0, 0, 0, 0, 0].length : Int) + max n 5) < 0)) ∧
      ((∃ w1 r, serializeBuffer.AppendBytes
          { data := [0, 0, 0, 0, 0, 0, 0, 0], dataLen := 7, start := 2, prepended := 5,
            appended := 3, layers := [] } n = some (w1, r)) ∨
        ((([(0 : Byte), 0, 0, 0, 0, 0, 0, 0].length : Int) - ((7 : Nat) : Int) < n ∧
          wrap64 (([(0 : Byte), 0, 0, 0, 0, 0, 0, 0].length : Int) + max n 3) < 0)))) :=
  C25_window_invariant
    { data := [0, 0, 0, 0, 0, 0, 0, 0], dataLen := 7, start := 2, prepended := 5,
      appended := 3, layers := [] }
    (serializeBuffer.Reachable.append
      { data := [0, 0, 0, 0, 0, 0], dataLen := 5, start := 2, prepended := 5, appended := 1,
        layers := [] } _ 2 { off := 5, size := 2 }
      (serializeBuffer.Reachable.prepend
        { data := [0, 0, 0], dataLen := 2, start := 2, prepended := 2, appended := 1,
          layers := [] } _ 3 { off := 2, size := 3 }
        (serializeBuffer.Reachable.sized 2 1 _ (by decide) (by decide) (by decide))
        (by decide) (by decide))
      (by decide) (by decide))

/-- Counterexample to C26 as stated: on the one-cell buffer left by `PrependBytes(1)` on a
new buffer, `PrependBytes(math.MaxInt64)` has `start < n` and `n ≥ 0`, yet the call returns
no slice, and the state it leaves has the backing array of one cell as before, not one of
capacity `1 + max(n, prepended)`, which is no value of `int`. -/
theorem C26_no_new_array_counterexample :
    serializeBuffer.Reachable
        { data := [0], dataLen := 1, start := 0, prepended := 1, appended := 0, layers := [] } ∧
      (0 : Int) < 9223372036854775807 ∧
      serializeBuffer.PrependBytes
        { data := [0], dataLen := 1, start := 0, prepended := 1, appended := 0, layers := [] }
        9223372036854775807 = none ∧
      (∃ wf, serializeBuffer.PrependBytesEnded
          { data := [0], dataLen := 1, start := 0, prepended := 1, appended := 0, layers := [] }
          9223372036854775807 = Ended.faulted wf ∧ wf.data.length = 1 ∧
        (wf.data.length : Int) ≠ 1 + max 9223372036854775807 1) :=
  ⟨serializeBuffer.Reachable.prepend NewSerializeBuffer _ 1 { off := 0, size := 1 }
      serializeBuffer.Reachable.new (by decide) (by decide), by decide, by decide,
    ⟨{ data := [0], dataLen := 1, start := 0, prepended := -9223372036854775808,
       appended := 0, layers := [] }, by decide, by decide, by decide⟩⟩

/-- C26, amended: for every reachable state and `n ≥ 0` such that the call stays in place
(`start ≥ n`) or the capacity `cap(data) + max(n, prepended)` is at most `math.MaxInt64`,
`PrependBytes(n)` returns; if `start ≥ n` the backing array and the marks `prepended` and
`appended` are unchanged; if `start < n` the new backing array has the capacity of the old
one plus `max(n, prepended)`, and the capacity behind the length, `cap(data) - len(data)`, is
unchanged. -/
theorem C26_PrependBytes_growth (w : serializeBuffer) (hr : serializeBuffer.Reachable w)
    (n : Int) (hn : 0 ≤ n)
    (hfit : w.start < n → (w.data.length : Int) + max n w.prepended ≤ maxInt) :
    ∃ w1 r, serializeBuffer.PrependBytes w n = some (w1, r) ∧
      (n ≤ w.start →
        w1.data = w.data ∧ w1.dataLen = w.dataLen ∧ w1.prepended = w.prepended ∧
          w1.appended = w.appended) ∧
      (w.start < n →
        (w1.data.length : Int) = (w.data.length : Int) + max n w.prepended ∧
        (w1.data.length : Int) - (w1.dataLen : Int) =
          (w.data.length : Int) - (w.dataLen : Int)) ∧
      w1.appended = w.appended := by
  have hi := Inv_of_Reachable w hr
  have hi2 := hi
  obtain ⟨h0, h1, h2, h3, h4, h5⟩ := hi2
  by_cases hs : n ≤ w.start
  · refine ⟨_, _, PrependBytes_inplace w n hn hs hi, ?_, ?_, rfl⟩
    · intro _; exact ⟨rfl, rfl, rfl, rfl⟩
    · intro h; omega
  · have hs1 : w.start < n := by omega
    have hf := hfit hs1
    rw [← ite_eq_max] at hf
    refine ⟨_, _, PrependBytes_realloc w n hs1 hi hf, ?_, ?_, rfl⟩
    · intro h; omega
    · intro _
      simp only [List.length_append, List.length_replicate, List.length_drop, List.length_take]
      rw [ite_eq_max] at hf ⊢
      have hmx : n ≤ max n w.prepended := le_max_left _ _
      omega

/-- Witness for C26: the buffer of `NewSerializeBufferExpectedSize(2, 1)` and `n = 3`, which
reallocates. -/
theorem C26_PrependBytes_growth_witness :
    ∃ w1 r, serializeBuffer.PrependBytes
        { data := [0, 0, 0], dataLen := 2, start := 2, prepended := 2, appended := 1,
          layers := [] } 3 = some (w1, r) ∧
      ((3 : Int) ≤ 2 →
        w1.data = [0, 0, 0] ∧ w1.dataLen = 2 ∧ w1.prepended = 2 ∧ w1.appended = 1) ∧
      ((2 : Int) < 3 →
        (w1.data.length : Int) = ([(0 : Byte), 0, 0].length : Int) + max 3 2 ∧
        (w1.data.length : Int) - (w1.dataLen : Int) =
          ([(0 : Byte), 0, 0].length : Int) - ((2 : Nat) : Int)) ∧
      w1.appended = 1 :=
  C26_PrependBytes_growth
    { data := [0, 0, 0], dataLen := 2, start := 2, prepended := 2, appended := 1, layers := [] }
    (serializeBuffer.Reachable.sized 2 1 _ (by decide) (by decide) (by decide)) 3 (by decide)
    (fun _ => by decide)

/-- C27, counterexample: the buffer of `NewSerializeBufferExpectedSize(2, 0)` has `start = 2`
and `prepended = 2`; `PrependBytes(3)` reallocates and leaves `prepended = 5`, which is not
`max(3, 2)`. -/
theorem C27_mark_is_max_counterexample :
    ∃ w w1 r, NewSerializeBufferExpectedSize 2 0 = some w ∧ serializeBuffer.Reachable w ∧
      w.start < 3 ∧ serializeBuffer.PrependBytes w 3 = some (w1, r) ∧
      w1.prepended = 5 ∧ w1.prepended ≠ max 3 w.prepended := by
  refine ⟨{ data := [0, 0], dataLen := 2, start := 2, prepended := 2, appended := 0,
            layers := [] },
    { data := [0, 0, 0, 0, 0], dataLen := 5, start := 2, prepended := 5, appended := 0,
      layers := [] },
    { off := 2, size := 3 }, by decide, ?_, by decide, by decide, by decide, by decide⟩
  exact serializeBuffer.Reachable.sized 2 0 _ (by decide) (by decide) (by decide)

/-- C27, amended: for every reachable state with `start < n` and a new capacity
`cap(data) + max(n, prepended)` of at most `math.MaxInt64`, `PrependBytes(n)` returns and the
mark `prepended` afterwards is the old mark plus the slack that the call allocated,
`max(n, prepended)`: the mark is the total of the slack allocated in front so far. It is
`max(n, prepended)` itself exactly when the old mark was `0`. With `n ≤ math.MaxInt64` and a
new capacity beyond `math.MaxInt64` the call faults in `make`, and the mark it leaves is
that sum wrapped around. -/
theorem C27_mark_grows_by_slack (w : serializeBuffer) (hr : serializeBuffer.Reachable w)
    (n : Int) (hs : w.start < n) :
    ((w.data.length : Int) + max n w.prepended ≤ maxInt →
      ∃ w1 r, serializeBuffer.PrependBytes w n = some (w1, r) ∧
        w1.prepended = w.prepended + max n w.prepended ∧
        (w1.prepended = max n w.prepended ↔ w.prepended = 0)) ∧
    (n ≤ maxInt → maxInt < (w.data.length : Int) + max n w.prepended →
      serializeBuffer.PrependBytesEnded w n =
        Ended.faulted { w with prepended := wrap64 (w.prepended + max n w.prepended) }) := by
  have hi := Inv_of_Reachable w hr
  have hi2 := hi
  obtain ⟨h0, h1, h2, h3, h4, h5⟩ := hi2
  constructor
  · intro hfit
    rw [← ite_eq_max] at hfit
    refine ⟨_, _, PrependBytes_realloc w n hs hi hfit, ?_, ?_⟩
    · simp only [ite_eq_max]
    · simp only [ite_eq_max]
      omega
  · intro hmax hbig
    rw [← ite_eq_max] at hbig ⊢
    exact PrependBytesEnded_overflow w n hi hmax hs hbig

/-- Witness for C27: the buffer of `NewSerializeBufferExpectedSize(2, 0)` and `n = 3`. -/
theorem C27_mark_grows_by_slack_witness :
    ∃ w1 r, serializeBuffer.PrependBytes
        { data := [0, 0], dataLen := 2, start := 2, prepended := 2, appended := 0,
          layers := [] } 3 = some (w1, r) ∧
      w1.prepended = 2 + max 3 2 ∧
      (w1.prepended = max 3 2 ↔ (2 : Int) = 0) :=
  (C27_mark_grows_by_slack
    { data := [0, 0], dataLen := 2, start := 2, prepended := 2, appended := 0, layers := [] }
    (serializeBuffer.Reachable.sized 2 0 _ (by decide) (by decide) (by decide)) 3 (by decide)).1 (by decide)

/-! ### Decode failures in `DecodeLayers` -/

/-- C28: for every parser and input on which the decode function returns `(typ, err)`,
`DecodeLayers` returns; it returns nil only if `err` is nil, or `typ` is not `LayerTypeZero`
and `IgnoreUnsupported` is set; and when `typ` is `LayerTypeZero` it returns `err` itself,
whatever the two options are. -/
theorem C28_failure_not_dropped (LayerTypeZero : LayerType) (l : DecodingLayerParser)
    (data : List Byte) (decoded : List LayerType) (typ : LayerType) (err : Option GoError)
    (hrun : (l.decodeFunc data decoded).ending = DecodeFuncEnd.returned typ err) :
    (∃ e, (DecodingLayerParser.DecodeLayers LayerTypeZero l data decoded).2.2 =
        DecodeLayersEnd.returned e) ∧
    ((DecodingLayerParser.DecodeLayers LayerTypeZero l data decoded).2.2 =
        DecodeLayersEnd.returned none →
      err = none ∨ (typ ≠ LayerTypeZero ∧ l.IgnoreUnsupported = true)) ∧
    (typ = LayerTypeZero →
      (DecodingLayerParser.DecodeLayers LayerTypeZero l data decoded).2.2 =
        DecodeLayersEnd.returned err) := by
  unfold DecodingLayerParser.DecodeLayers
  simp only [hrun]
  refine ⟨?_, ?_, ?_⟩
  · split_ifs <;> exact ⟨_, rfl⟩
  · split_ifs with h1 h2
    · intro _; exact Or.inr ⟨h1, h2⟩
    · intro h; simp at h
    · intro h; left; simpa using h
  · intro h; simp only [h, ne_eq, not_true_eq_false, if_false]

/-- Witness for C28: a decode function that returns `(LayerTypeZero, err)` with a non-nil
error, in a parser with both options set; the error is returned as it is. -/
theorem C28_failure_not_dropped_witness :
    (DecodingLayerParser.DecodeLayers 0
        { IgnorePanic := true, IgnoreUnsupported := true,
          dlc := DecodingLayerContainer.map none, first := 1,
          decodeFunc := fun _ _ =>
            { decoded := [1], truncated := false,
              ending := DecodeFuncEnd.returned 0 (some (GoError.other "short header")) },
          Truncated := false } [7, 7] [5]).2.2 =
      DecodeLayersEnd.returned (some (GoError.other "short header")) :=
  (C28_failure_not_dropped 0
      { IgnorePanic := true, IgnoreUnsupported := true,
        dlc := DecodingLayerContainer.map none, first := 1,
        decodeFunc := fun _ _ =>
          { decoded := [1], truncated := false,
            ending := DecodeFuncEnd.returned 0 (some (GoError.other "short header")) },
        Truncated := false } [7, 7] [5] 0 (some (GoError.other "short header")) rfl).2.2 rfl

/-! ### Frame of `Put` and the entries of a linear array -/

/-- Counterexample to C29 as stated: the decoder claims the single non-negative type
`math.MaxInt64`, and type 0 is not among its types; `Put` into the nil dense container, and
into one of length 1, computes `extra` with a sum that wraps around and faults, so there is
no container `c.Put(d)` to look type 0 up in. -/
theorem C29_max_type_counterexample :
    (0 : LayerType) ∉ ({ ident := 1, canDecode := [9223372036854775807] } : DecodingLayer).canDecode ∧
    (∀ x ∈ ({ ident := 1, canDecode := [9223372036854775807] } : DecodingLayer).canDecode,
      0 ≤ x) ∧
    DecodingLayerSparse.Put [] { ident := 1, canDecode := [9223372036854775807] } = none ∧
    DecodingLayerSparse.Put [none] { ident := 1, canDecode := [9223372036854775807] } = none := by
  decide

/-- C29, amended: for every container, every decoder `d` whose types are all non-negative
and every non-negative type `t` that `d` does not claim, `Put(d)` returns a container whose
`Decoder(t)` returns what `Decoder(t)` of the container before returns: for the linear-scan
and hash strategies always, for the dense strategy when the types of `d` are below
`math.MaxInt64`. -/
theorem C29_put_changes_claimed_only (d : DecodingLayer) (t : LayerType)
    (hnn : ∀ x ∈ d.canDecode, 0 ≤ x) (ht : 0 ≤ t) (hnot : t ∉ d.canDecode) :
    ((∀ x ∈ d.canDecode, x < maxInt) →
      ∀ dl : DecodingLayerSparse, ∃ dl1, DecodingLayerSparse.Put dl d = some dl1 ∧
        DecodingLayerSparse.Decoder dl1 t = DecodingLayerSparse.Decoder dl t) ∧
    (∀ dl : DecodingLayerArray,
        DecodingLayerArray.Decoder (DecodingLayerArray.Put dl d) t =
          DecodingLayerArray.Decoder dl t) ∧
    (∀ dl : DecodingLayerMap,
        DecodingLayerMap.Decoder (DecodingLayerMap.Put dl d) t =
          DecodingLayerMap.Decoder dl t) := by
  refine ⟨?_, ?_, ?_⟩
  · intro hlt dl
    obtain ⟨dl1, h1, h2⟩ := sparse_Decoder_Put dl d hnn hlt t ht
    exact ⟨dl1, h1, by simpa [hnot] using h2⟩
  · intro dl; simp [array_Decoder_Put, hnot]
  · intro dl; simp [map_Decoder_Put, hnot]

/-- Witness for C29: a decoder claiming types 2 and 0, and type 1, which it does not claim. -/
theorem C29_put_changes_claimed_only_witness :
    (∀ dl : DecodingLayerSparse, ∃ dl1,
        DecodingLayerSparse.Put dl { ident := 1, canDecode := [2, 0] } = some dl1 ∧
        DecodingLayerSparse.Decoder dl1 1 = DecodingLayerSparse.Decoder dl 1) ∧
    (∀ dl : DecodingLayerArray,
        DecodingLayerArray.Decoder (DecodingLayerArray.Put dl { ident := 1, canDecode := [2, 0] }) 1
          = DecodingLayerArray.Decoder dl 1) :=
  ⟨(C29_put_changes_claimed_only { ident := 1, canDecode := [2, 0] } 1 (by decide) (by decide)
      (by decide)).1 (by decide),
   (C29_put_changes_claimed_only { ident := 1, canDecode := [2, 0] } 1 (by decide) (by decide)
      (by decide)).2.1⟩

/-- Types of the entries after `putType`: unchanged if an entry has the type, with the type
appended otherwise. -/
theorem array_putType_types (d : DecodingLayer) (typ : LayerType) (dl : DecodingLayerArray) :
    (DecodingLayerArray.putType d typ dl).map decodingLayerElem.typ =
      if typ ∈ dl.map decodingLayerElem.typ then dl.map decodingLayerElem.typ
      else dl.map decodingLayerElem.typ ++ [typ] := by
  induction dl with
  | nil => simp [DecodingLayerArray.putType]
  | cons e rest ih =>
    unfold DecodingLayerArray.putType
    by_cases he : e.typ = typ
    · simp [he]
    · have hne : ¬ typ = e.typ := fun h => he h.symm
      simp only [he, if_false, List.map_cons, List.mem_cons, hne, false_or, ih]
      split_ifs <;> simp

/-- Types of the entries after the loop of `Put` over a list of types. -/
theorem array_foldl_putType_types (d : DecodingLayer) (types : List LayerType)
    (dl : DecodingLayerArray) :
    (types.foldl (fun acc typ => DecodingLayerArray.putType d typ acc) dl).map
        decodingLayerElem.typ =
      dl.map decodingLayerElem.typ ++ freshTypes (dl.map decodingLayerElem.typ) types := by
  induction types generalizing dl with
  | nil => simp [freshTypes]
  | cons t rest ih =>
    simp only [List.foldl_cons]
    rw [ih, array_putType_types]
    by_cases h : t ∈ dl.map decodingLayerElem.typ
    · simp only [h, if_true, freshTypes]
    · simp only [h, if_false, freshTypes, List.append_assoc, List.singleton_append]

/-- Appending the fresh types to a duplicate-free list keeps it duplicate-free. -/
theorem nodup_append_freshTypes (types seen : List LayerType) (h : seen.Nodup) :
    (seen ++ freshTypes seen types).Nodup := by
  induction types generalizing seen with
  | nil => simpa [freshTypes] using h
  | cons t rest ih =>
    by_cases ht : t ∈ seen
    · simp only [freshTypes, ht, if_true]; exact ih seen h
    · simp only [freshTypes, ht, if_false]
      have h1 : (seen ++ [t]).Nodup := by
        rw [List.nodup_append]
        refine ⟨h, List.nodup_singleton t, ?_⟩
        intro a ha hb
        rw [List.mem_singleton] at hb
        exact ht (hb ▸ ha)
      have h2 := ih (seen ++ [t]) h1
      simpa [List.append_assoc] using h2

/-- The fresh types are the types of the list that are not among `seen`. -/
theorem mem_freshTypes (types seen : List LayerType) (t : LayerType) :
    t ∈ freshTypes seen types ↔ t ∈ types ∧ t ∉ seen := by
  induction types generalizing seen with
  | nil => simp [freshTypes]
  | cons x rest ih =>
    by_cases hx : x ∈ seen
    · simp only [freshTypes, hx, if_true, ih, List.mem_cons]
      constructor
      · rintro ⟨h1, h2⟩; exact ⟨Or.inr h1, h2⟩
      · rintro ⟨h1 | h1, h2⟩
        · exact absurd (h1 ▸ hx) h2
        · exact ⟨h1, h2⟩
    · simp only [freshTypes, hx, if_false, List.mem_cons, ih]
      have hmem : t ∉ seen ++ [x] ↔ t ∉ seen ∧ t ≠ x := by simp [List.mem_append]
      rw [hmem]
      constructor
      · rintro (h1 | ⟨h1, h2, _⟩)
        · exact ⟨Or.inl h1, h1 ▸ hx⟩
        · exact ⟨Or.inr h1, h2⟩
      · rintro ⟨h1 | h1, h2⟩
        · exact Or.inl h1
        · by_cases htx : t = x
          · exact Or.inl htx
          · exact Or.inr ⟨h1, h2, htx⟩

/-- The fresh types come in the order of the list. -/
theorem freshTypes_sublist (types seen : List LayerType) :
    List.Sublist (freshTypes seen types) types := by
  induction types generalizing seen with
  | nil => simp [freshTypes]
  | cons x rest ih =>
    by_cases hx : x ∈ seen
    · simp only [freshTypes, hx, if_true]
      exact List.Sublist.cons x (ih seen)
    · simp only [freshTypes, hx, if_false]
      exact List.Sublist.cons₂ x (ih _)

/-- An array built by `Put` calls from a duplicate-free array is duplicate-free. -/
theorem array_build_nodup (ds : List DecodingLayer) (dl : DecodingLayerArray)
    (h : (dl.map decodingLayerElem.typ).Nodup) :
    ((DecodingLayerArray.build ds dl).map decodingLayerElem.typ).Nodup := by
  induction ds generalizing dl with
  | nil => simpa [DecodingLayerArray.build] using h
  | cons d rest ih =>
    have h1 : ((DecodingLayerArray.Put dl d).map decodingLayerElem.typ).Nodup := by
      unfold DecodingLayerArray.Put
      rw [array_foldl_putType_types]
      exact nodup_append_freshTypes _ _ h
    have h2 := ih (DecodingLayerArray.Put dl d) h1
    simpa [DecodingLayerArray.build] using h2

/-- C30: if no two entries of a `DecodingLayerArray` have the same type, then for every
decoder `d`, whatever its list of types, no two entries of the array after `Put(d)` have the
same type; the types of the entries are the old ones, at their positions, followed by the
types of `d` that had no entry, each once, in the order of the list of `d`; and every array
built from nil by `Put` calls has no two entries with the same type. -/
theorem C30_array_one_entry_per_type (dl : DecodingLayerArray) (d : DecodingLayer)
    (ds : List DecodingLayer) (hnd : (dl.map decodingLayerElem.typ).Nodup) :
    ((DecodingLayerArray.Put dl d).map decodingLayerElem.typ).Nodup ∧
    (DecodingLayerArray.Put dl d).map decodingLayerElem.typ =
      dl.map decodingLayerElem.typ ++ freshTypes (dl.map decodingLayerElem.typ) d.canDecode ∧
    ((DecodingLayerArray.Put dl d).take dl.length).map decodingLayerElem.typ =
      dl.map decodingLayerElem.typ ∧
    (∀ t, t ∈ freshTypes (dl.map decodingLayerElem.typ) d.canDecode ↔
      t ∈ d.canDecode ∧ t ∉ dl.map decodingLayerElem.typ) ∧
    List.Sublist (freshTypes (dl.map decodingLayerElem.typ) d.canDecode) d.canDecode ∧
    ((DecodingLayerArray.build ds []).map decodingLayerElem.typ).Nodup := by
  have heq : (DecodingLayerArray.Put dl d).map decodingLayerElem.typ =
      dl.map decodingLayerElem.typ ++ freshTypes (dl.map decodingLayerElem.typ) d.canDecode := by
    unfold DecodingLayerArray.Put
    exact array_foldl_putType_types d d.canDecode dl
  refine ⟨?_, heq, ?_, mem_freshTypes _ _, freshTypes_sublist _ _, ?_⟩
  · rw [heq]; exact nodup_append_freshTypes _ _ hnd
  · rw [List.map_take, heq]
    have hl : dl.length = (dl.map decodingLayerElem.typ).length := by simp
    rw [hl, List.take_left]
  · exact array_build_nodup ds [] (by simp)

/-- Witness for C30: an array with entries for the types 4 and 2, and a decoder that lists
the types 7, 2, 7 and 1; the entries afterwards have the types 4, 2, 7 and 1. -/
theorem C30_array_one_entry_per_type_witness :
    (DecodingLayerArray.Put
        [{ typ := 4, dec := none }, { typ := 2, dec := none }]
        { ident := 1, canDecode := [7, 2, 7, 1] }).map decodingLayerElem.typ =
      [4, 2] ++ freshTypes [4, 2] [7, 2, 7, 1] ∧
    freshTypes [4, 2] [7, 2, 7, 1] = [7, 1] :=
  ⟨(C30_array_one_entry_per_type
      [{ typ := 4, dec := none }, { typ := 2, dec := none }]
      { ident := 1, canDecode := [7, 2, 7, 1] } [] (by decide)).2.1, by decide⟩

/-! ## Sizes of the dense representations and construction of a parser -/

/-- The maximum computed by the loop, for a list with largest element `m`. -/
theorem maxType_eq_max (types : List LayerType) (start m : LayerType) (hm : m ∈ types)
    (hle : ∀ x ∈ types, x ≤ m) : maxType start types = max start m := by
  have h1 := maxType_ge types start
  have h2 := le_maxType types start m hm
  rcases maxType_mem types start with h | h
  · rw [h] at h2 ⊢
    exact (max_eq_left h2).symm
  · have h3 := hle _ h
    have h4 : maxType start types = m := le_antisymm h3 h2
    rw [h4] at h1 ⊢
    exact (max_eq_right h1).symm

/-- Length of a dense container after `Put`: not below the old length, above every type of
the decoder, and the old length or one more than a type of the decoder. -/
theorem sparse_Put_length (dl : DecodingLayerSparse) (d : DecodingLayer)
    (hnn : ∀ x ∈ d.canDecode, 0 ≤ x) (hlt : ∀ x ∈ d.canDecode, x < maxInt) :
    ∃ dl1, DecodingLayerSparse.Put dl d = some dl1 ∧ dl.length ≤ dl1.length ∧
      (∀ x ∈ d.canDecode, x < (dl1.length : Int)) ∧
      (dl1.length = dl.length ∨ ∃ x ∈ d.canDecode, (dl1.length : Int) = x + 1) := by
  obtain ⟨dl1, h1, h2, _⟩ := sparse_Put_spec dl d hnn hlt
  have hge := maxType_ge d.canDecode ((dl.length : Int) - 1)
  have hle := le_maxType d.canDecode ((dl.length : Int) - 1)
  have hmem := maxType_mem d.canDecode ((dl.length : Int) - 1)
  refine ⟨dl1, h1, ?_, ?_, ?_⟩
  · unfold LayerType at *; omega
  · intro x hx
    have := hle x hx
    unfold LayerType at *; omega
  · rcases hmem with h | h
    · left; rw [h] at h2; unfold LayerType at *; omega
    · right; exact ⟨_, h, h2⟩

/-- Length of a dense container after a sequence of `Put` calls. -/
theorem sparse_build_length (ds : List DecodingLayer)
    (hnn : ∀ d ∈ ds, ∀ x ∈ d.canDecode, 0 ≤ x) (hlt : ∀ d ∈ ds, ∀ x ∈ d.canDecode, x < maxInt)
    (dl : DecodingLayerSparse) :
    ∃ sp, DecodingLayerSparse.build ds dl = some sp ∧ dl.length ≤ sp.length ∧
      (∀ d ∈ ds, ∀ x ∈ d.canDecode, x < (sp.length : Int)) ∧
      (sp.length = dl.length ∨ ∃ d ∈ ds, ∃ x ∈ d.canDecode, (sp.length : Int) = x + 1) := by
  induction ds generalizing dl with
  | nil => exact ⟨dl, rfl, le_refl _, by simp, Or.inl rfl⟩
  | cons d rest ih =>
    obtain ⟨dl1, h1, h2, h3, h4⟩ :=
      sparse_Put_length dl d (hnn d (List.mem_cons_self _ _)) (hlt d (List.mem_cons_self _ _))
    obtain ⟨sp, g1, g2, g3, g4⟩ := ih (fun e he => hnn e (List.mem_cons_of_mem _ he))
      (fun e he => hlt e (List.mem_cons_of_mem _ he)) dl1
    refine ⟨sp, by simp [DecodingLayerSparse.build, h1, g1], le_trans h2 g2, ?_, ?_⟩
    · intro e he x hx
      rcases List.mem_cons.mp he with h | h
      · have := h3 x (h ▸ hx)
        unfold LayerType at *; omega
      · exact g3 e h x hx
    · rcases g4 with g | ⟨e, he, x, hx, g⟩
      · rcases h4 with h | ⟨x, hx, h⟩
        · left; omega
        · right
          refine ⟨d, List.mem_cons_self _ _, x, hx, ?_⟩
          rw [g]; exact h
      · right; exact ⟨e, List.mem_cons_of_mem _ he, x, hx, g⟩

/-- Counterexample to C31 as stated: the decoder claims the single non-negative type
`math.MaxInt64`; `Put` into the nil dense container, and into one of length 1, computes
`extra` with a sum that wraps around and faults: there is no container of length
`1 + math.MaxInt64`, which is no value of `int`. -/
theorem C31_max_type_counterexample :
    (∀ x ∈ ({ ident := 1, canDecode := [9223372036854775807] } : DecodingLayer).canDecode,
      0 ≤ x) ∧
    DecodingLayerSparse.Put [] { ident := 1, canDecode := [9223372036854775807] } = none ∧
    DecodingLayerSparse.Put [none] { ident := 1, canDecode := [9223372036854775807] } = none ∧
    DecodingLayerSparse.build [{ ident := 1, canDecode := [9223372036854775807] }] [] = none := by
  decide

/-- C31, amended: for every `DecodingLayerSparse` and every decoder `d` whose types are
non-negative and below `math.MaxInt64`, `Put(d)` returns a slice whose length is not below the
old length, is the old length when `d` claims no type, and is the larger of the old length
and `m + 1` when `m` is the largest type of `d`; and for every list of such decoders the
container built from nil by `Put` calls has length `m + 1`, `m` the largest type of all
decoders (and length `0` if they claim none). -/
theorem C31_sparse_length (dl : DecodingLayerSparse) (d : DecodingLayer)
    (ds : List DecodingLayer) (hnn : ∀ x ∈ d.canDecode, 0 ≤ x ∧ x < maxInt)
    (hnns : ∀ e ∈ ds, ∀ x ∈ e.canDecode, 0 ≤ x ∧ x < maxInt) :
    (∃ dl1, DecodingLayerSparse.Put dl d = some dl1 ∧ dl.length ≤ dl1.length ∧
      (d.canDecode = [] → dl1.length = dl.length) ∧
      (∀ m ∈ d.canDecode, (∀ x ∈ d.canDecode, x ≤ m) →
        (dl1.length : Int) = max (dl.length : Int) (m + 1))) ∧
    (∃ sp, DecodingLayerSparse.build ds [] = some sp ∧
      ((∀ e ∈ ds, e.canDecode = []) → sp.length = 0) ∧
      (∀ e ∈ ds, ∀ m ∈ e.canDecode, (∀ e1 ∈ ds, ∀ x ∈ e1.canDecode, x ≤ m) →
        (sp.length : Int) = m + 1)) := by
  refine ⟨?_, ?_⟩
  · obtain ⟨dl1, h1, h2, h3, h4⟩ := sparse_Put_length dl d (fun x hx => (hnn x hx).1)
      (fun x hx => (hnn x hx).2)
    refine ⟨dl1, h1, h2, ?_, ?_⟩
    · intro hnil
      rcases h4 with h | ⟨x, hx, _⟩
      · exact h
      · rw [hnil] at hx; simp at hx
    · intro m hm hle
      have hlt := h3 m hm
      rcases h4 with h | ⟨x, hx, h⟩
      · have : (m : Int) + 1 ≤ (dl.length : Int) := by unfold LayerType at *; omega
        rw [max_eq_left this, h]
      · have hxm := hle x hx
        have : (dl.length : Int) ≤ m + 1 := by unfold LayerType at *; omega
        rw [max_eq_right this]
        unfold LayerType at *; omega
  · obtain ⟨sp, h1, _, h3, h4⟩ := sparse_build_length ds (fun e he x hx => (hnns e he x hx).1)
      (fun e he x hx => (hnns e he x hx).2) []
    refine ⟨sp, h1, ?_, ?_⟩
    · intro hnil
      rcases h4 with h | ⟨e, he, x, hx, _⟩
      · simpa using h
      · rw [hnil e he] at hx; simp at hx
    · intro e he m hm hle
      have hlt := h3 e he m hm
      rcases h4 with h | ⟨e1, he1, x, hx, h⟩
      · have hnn0 := (hnns e he m hm).1
        simp only [List.length_nil] at h
        unfold LayerType at *; omega
      · have hxm := hle e1 he1 x hx
        unfold LayerType at *; omega

/-- Witness for C31: a dense container of length 2 and a decoder claiming the types 4 and
1; the slice after `Put` has length 5. Decoders claiming 2, 0 and 5, put into the nil
container, give length 6. -/
theorem C31_sparse_length_witness :
    (∃ dl1, DecodingLayerSparse.Put ([none, none] : DecodingLayerSparse)
        { ident := 1, canDecode := [4, 1] } = some dl1 ∧
      (dl1.length : Int) = max ((([none, none] : DecodingLayerSparse).length : Nat) : Int) (4 + 1)) ∧
    (∃ sp, DecodingLayerSparse.build
        [{ ident := 1, canDecode := [2, 0] }, { ident := 2, canDecode := [5] }] [] = some sp ∧
      (sp.length : Int) = 5 + 1) := by
  obtain ⟨⟨dl1, h1, _, _, h4⟩, ⟨sp, g1, _, g3⟩⟩ :=
    C31_sparse_length ([none, none] : DecodingLayerSparse) { ident := 1, canDecode := [4, 1] }
      [{ ident := 1, canDecode := [2, 0] }, { ident := 2, canDecode := [5] }]
      (by decide) (by decide)
  exact ⟨⟨dl1, h1, h4 4 (by decide) (by decide)⟩,
    ⟨sp, g1, g3 { ident := 2, canDecode := [5] } (by decide) 5 (by decide) (by decide)⟩⟩

/-! ### Length of the dense layer class -/

/-- Length of the slice that `NewLayerClassSlice` returns, when it returns: one more than
the largest type, or 1 when no type is positive. -/
theorem NewLayerClassSlice_length (types : List LayerType) (s : LayerClassSlice)
    (h : NewLayerClassSlice types = some s) :
    (s.length : Int) = maxType 0 types + 1 := by
  unfold NewLayerClassSlice at h
  simp only at h
  have hM := maxInt_eq
  have hge := maxType_ge types 0
  by_cases hneg : wrap64 (maxType 0 types + 1) < 0
  · simp only [hneg, if_true] at h
    cases h
  · simp only [hneg, if_false] at h
    obtain ⟨h1, h2⟩ := goAssignAll_some true types _ s h
    rw [List.length_replicate] at h1 h2
    have hwl := wrap64_le (maxType 0 types + 1)
    have hup : maxType 0 types < maxInt := by
      rcases maxType_mem types 0 with hm | hm
      · rw [hm, hM]; decide
      · have := (h2 _ hm).2
        unfold LayerType at *
        omega
    have hw : wrap64 (maxType 0 types + 1) = maxType 0 types + 1 :=
      wrap64_eq _ (by unfold LayerType at *; omega) (by unfold LayerType at *; omega)
    rw [h1, hw]
    unfold LayerType at *
    omega

/-- A slice returned by `NewLayerClass` is the one that `NewLayerClassSlice` returns, and
then no type is above `maxLayerType`. -/
theorem NewLayerClass_slice (maxLayerType : LayerType) (types : List LayerType)
    (s : LayerClassSlice) (h : NewLayerClass maxLayerType types = some (LayerClass.slice s)) :
    NewLayerClassSlice types = some s ∧ ∀ t ∈ types, t ≤ maxLayerType := by
  by_cases habove : ∃ t ∈ types, t > maxLayerType
  · unfold NewLayerClass at h
    rw [NewLayerClass_scan_above maxLayerType types types habove] at h
    simp at h
  · have hle : ∀ t ∈ types, t ≤ maxLayerType := by
      intro t ht
      by_contra hgt
      exact habove ⟨t, ht, not_le.mp hgt⟩
    unfold NewLayerClass at h
    rw [NewLayerClass_scan_within maxLayerType types types hle] at h
    refine ⟨?_, hle⟩
    cases hs : NewLayerClassSlice types with
    | none => rw [hs] at h; simp at h
    | some s1 =>
      rw [hs] at h
      simp only [Option.map_some', Option.some.injEq, LayerClass.slice.injEq] at h
      rw [h]

/-- Counterexample to C32 as stated: for the non-empty list of the single non-negative type
`math.MaxInt64`, `NewLayerClassSlice` computes the length `max + 1`, which wraps around to
`math.MinInt64`, and `make` faults: there is no slice of length `math.MaxInt64 + 1`. -/
theorem C32_max_type_counterexample :
    ([9223372036854775807] : List LayerType) ≠ [] ∧
    (∀ x ∈ ([9223372036854775807] : List LayerType), 0 ≤ x) ∧
    wrap64 (maxType 0 [9223372036854775807] + 1) = -9223372036854775808 ∧
    NewLayerClassSlice [9223372036854775807] = none := by
  decide

/-- C32, amended: for every non-empty list of types that are non-negative and below
`math.MaxInt64`, with largest element `m`, `NewLayerClassSlice` returns a slice of length
`m + 1`; and, `maxLayerType` being non-negative, every `LayerClassSlice` that `NewLayerClass`
returns, for whatever list of types, has length at most `maxLayerType + 1`. -/
theorem C32_dense_class_length (maxLayerType : LayerType) (types : List LayerType) :
    ((∀ x ∈ types, 0 ≤ x ∧ x < maxInt) → ∀ m ∈ types, (∀ x ∈ types, x ≤ m) →
      ∃ s, NewLayerClassSlice types = some s ∧ (s.length : Int) = m + 1) ∧
    (0 ≤ maxLayerType → ∀ s, NewLayerClass maxLayerType types = some (LayerClass.slice s) →
      (s.length : Int) ≤ maxLayerType + 1) := by
  refine ⟨?_, ?_⟩
  · intro hnn m hm hle
    obtain ⟨s, h1, h2, _⟩ := NewLayerClassSlice_spec types (fun x hx => (hnn x hx).1)
      (fun x hx => (hnn x hx).2)
    refine ⟨s, h1, ?_⟩
    rw [h2, maxType_eq_max types 0 m hm hle, max_eq_right (hnn m hm).1]
  · intro h0 s hs
    obtain ⟨h1, hle⟩ := NewLayerClass_slice maxLayerType types s hs
    have hlen := NewLayerClassSlice_length types s h1
    have hge := maxType_ge types 0
    have hbound : maxType 0 types ≤ maxLayerType := by
      rcases maxType_mem types 0 with h | h
      · rw [h]; exact h0
      · exact hle _ h
    unfold LayerType at *
    omega

/-- Witness for C32: the types 3, 1 and 3, with largest element 3. -/
theorem C32_dense_class_length_witness :
    ∃ s, NewLayerClassSlice [3, 1, 3] = some s ∧ (s.length : Int) = 3 + 1 :=
  (C32_dense_class_length 2000 [3, 1, 3]).1 (by decide) 3 (by decide) (by decide)

/-! ### `NewDecodingLayerParser` and `AddDecodingLayer` -/

/-- The last decoder of a list that claims a type is the one a hash-map container built from
the list answers for it. -/
theorem map_Decoder_build_last (t : LayerType) (pre post : List DecodingLayer)
    (d : DecodingLayer) (ht : t ∈ d.canDecode) (habs : ∀ e ∈ post, t ∉ e.canDecode)
    (dl : DecodingLayerMap) :
    DecodingLayerMap.Decoder (DecodingLayerMap.build (pre ++ d :: post) dl) t =
      (some d, true) := by
  have h := map_Decoder_build_absent t post habs
    (DecodingLayerMap.Put (DecodingLayerMap.build pre dl) d)
  simp only [DecodingLayerMap.build, List.foldl_append, List.foldl_cons] at h ⊢
  rw [h, map_Decoder_Put, if_pos ht]

/-- The loop of `NewDecodingLayerParser` from a hash-map container ends with the hash-map
container built from the decoders. -/
theorem NewDecodingLayerParser_loop_map (ds : List DecodingLayer) (dl : DecodingLayerMap) :
    NewDecodingLayerParser.loop ds (DecodingLayerContainer.map dl) =
      some (DecodingLayerContainer.map (DecodingLayerMap.build ds dl)) := by
  induction ds generalizing dl with
  | nil => rfl
  | cons d rest ih =>
    simp only [NewDecodingLayerParser.loop, DecodingLayerContainer.Put, ih]
    rfl

/-- A list splits at a position that holds an element. -/
theorem split_at_index {α : Type} (l : List α) (j : Nat) (d : α) (h : l[j]? = some d) :
    l = l.take j ++ d :: l.drop (j + 1) ∧
      ∀ e ∈ l.drop (j + 1), ∃ k, j < k ∧ l[k]? = some e := by
  refine ⟨?_, ?_⟩
  · induction l generalizing j with
    | nil => simp at h
    | cons x xs ih =>
      cases j with
      | zero => simp at h; simp [h]
      | succ n =>
        simp only [List.getElem?_cons_succ] at h
        simp only [List.take_succ_cons, List.drop_succ_cons, List.cons_append]
        rw [← ih n h]
  · intro e he
    obtain ⟨i, hi⟩ := List.mem_iff_getElem?.mp he
    rw [List.getElem?_drop] at hi
    exact ⟨j + 1 + i, by omega, hi⟩

/-- C33: for every first type and every list of decoders, `NewDecodingLayerParser` returns a
parser that starts at this type and whose container is a `DecodingLayerMap`; for every type
`t`, its `Decoder(t)` returns `(d, true)` for the decoder `d` at the largest position of the
list among the decoders that claim `t`, and `(nil, false)` if no decoder claims `t`; and
`AddDecodingLayer(d)` on this parser gives the parser that `NewDecodingLayerParser` returns
for the list with `d` appended. -/
theorem C33_NewDecodingLayerParser
    (layersDecoder : DecodingLayerContainer → LayerType → List Byte → List LayerType →
      DecodeFuncRun)
    (first : LayerType) (ds : List DecodingLayer) :
    ∃ l, NewDecodingLayerParser layersDecoder first ds = some l ∧ l.first = first ∧
      l.dlc = DecodingLayerContainer.map (DecodingLayerMap.build ds (some ∅)) ∧
      (∀ t : LayerType,
        (∀ (j : Nat) (d : DecodingLayer), ds[j]? = some d → t ∈ d.canDecode →
          (∀ (k : Nat) (e : DecodingLayer), j < k → ds[k]? = some e → t ∉ e.canDecode) →
          DecodingLayerContainer.Decoder l.dlc t = some (some d, true)) ∧
        ((∀ d ∈ ds, t ∉ d.canDecode) →
          DecodingLayerContainer.Decoder l.dlc t = some (none, false))) ∧
      (∀ d, DecodingLayerParser.AddDecodingLayer layersDecoder l d =
        NewDecodingLayerParser layersDecoder first (ds ++ [d])) := by
  refine ⟨{ IgnorePanic := false, IgnoreUnsupported := false,
            dlc := DecodingLayerContainer.map (DecodingLayerMap.build ds (some ∅)),
            first := first,
            decodeFunc := layersDecoder
              (DecodingLayerContainer.map (DecodingLayerMap.build ds (some ∅))) first,
            Truncated := false },
    by simp only [NewDecodingLayerParser, NewDecodingLayerParser_loop_map], rfl, rfl, ?_, ?_⟩
  · intro t
    refine ⟨?_, ?_⟩
    · intro j d hj ht hlast
      obtain ⟨hsplit, hpost⟩ := split_at_index ds j d hj
      have habs : ∀ e ∈ ds.drop (j + 1), t ∉ e.canDecode := by
        intro e he
        obtain ⟨k, hk, hke⟩ := hpost e he
        exact hlast k e hk hke
      simp only [DecodingLayerContainer.Decoder]
      rw [hsplit, map_Decoder_build_last t _ _ d ht habs]
    · intro habs
      simp only [DecodingLayerContainer.Decoder]
      rw [map_Decoder_build_absent t ds habs]
      rfl
  · intro d
    simp only [NewDecodingLayerParser, NewDecodingLayerParser_loop_map,
      DecodingLayerParser.AddDecodingLayer, DecodingLayerContainer.Put,
      DecodingLayerParser.SetDecodingLayerContainer, DecodingLayerMap.build,
      List.foldl_append, List.foldl_cons, List.foldl_nil]

/-- Witness for C33: two decoders that both claim type 2; the parser built from them
answers the second one for type 2. -/
theorem C33_NewDecodingLayerParser_witness :
    ∃ l, NewDecodingLayerParser
        (fun _ _ _ decoded =>
          { decoded := decoded, truncated := false, ending := DecodeFuncEnd.returned 0 none })
        1 [{ ident := 1, canDecode := [1, 2] }, { ident := 2, canDecode := [2] }] = some l ∧
      DecodingLayerContainer.Decoder l.dlc 2 = some (some { ident := 2, canDecode := [2] }, true) ∧
      DecodingLayerContainer.Decoder l.dlc 3 = some (none, false) := by
  obtain ⟨l, h1, _, _, h4, _⟩ := C33_NewDecodingLayerParser
    (fun _ _ _ decoded =>
      { decoded := decoded, truncated := false, ending := DecodeFuncEnd.returned 0 none })
    1 [{ ident := 1, canDecode := [1, 2] }, { ident := 2, canDecode := [2] }]
  refine ⟨l, h1, (h4 2).1 1 { ident := 2, canDecode := [2] } rfl (by decide) ?_,
    (h4 3).2 (by decide)⟩
  intro k e hk he
  have hnone : ([{ ident := 1, canDecode := [1, 2] }, { ident := 2, canDecode := [2] }] :
      List DecodingLayer)[k]? = none := by
    apply List.getElem?_eq_none
    simp only [List.length_cons, List.length_nil]
    omega
  rw [hnone] at he
  exact absurd he (by simp)

end Gopacket
